import Mathlib

set_option autoImplicit false

/-!
# FlexEngine factories: a verification development

Shallow embedding of `Source/FlexEngine/Factory/ModelFactory.cpp` (the geometry buffer
factory, `LerpVertices`, `QLerpVertices` and `GetOrCreateQuadModel`), of
`Source/FlexEngine/Factory/GeometryUtils.cpp` (bounding box, normals, tangents, quad
grids) and of `Source/FlexEngine/Factory/TextureFactory.cpp` (the `SignedDistanceField`
class, `FillImageGaps`, `RenderTexture`, `GeneratePerlinNoise` and the description list
and `Generate` of `TextureFactory`).

Conventions of the embedding.

* A byte (`unsigned char`) is a `Byte`, a natural number below 256; a byte buffer
  (`PODVector<unsigned char>`) is a `List Byte`.
* An index is stored in `GetIndexSize` consecutive bytes, least significant byte first.
* Arithmetic on indices is the arithmetic of the index type: sums are reduced modulo
  `256 ^ GetIndexSize`.  Buffer sizes are natural numbers.
* An operation whose C++ text indexes a vector out of bounds, reads past the end of a
  caller's buffer or divides by a zero stride has no defined result; its embedding
  returns `none` there.
* A material handle (`SharedPtr<Material>`) is the address it holds, a `Nat`; handles are
  compared by identity.
-/

namespace FlexEngine

/-! ## Definitions: geometry buffer factory -/

/-- Engine enumeration of vertex element types. -/
inductive VertexElementType where
  | TYPE_INT | TYPE_FLOAT | TYPE_VECTOR2 | TYPE_VECTOR3 | TYPE_VECTOR4
  | TYPE_UBYTE4 | TYPE_UBYTE4_NORM
  deriving DecidableEq, Repr

/-- Engine enumeration of vertex element semantics. -/
inductive VertexElementSemantic where
  | SEM_POSITION | SEM_NORMAL | SEM_BINORMAL | SEM_TANGENT | SEM_TEXCOORD | SEM_COLOR
  | SEM_BLENDWEIGHTS | SEM_BLENDINDICES | SEM_OBJECTINDEX
  deriving DecidableEq, Repr

/-- Engine description of one channel of the vertex layout. -/
structure VertexElement where
  type_ : VertexElementType
  semantic_ : VertexElementSemantic
  index_ : Nat
  offset_ : Nat
  deriving DecidableEq, Repr

/-- An `unsigned char`. -/
abbrev Byte := Fin 256

/-- A material handle, compared by identity. -/
abbrev Material := Nat

/-- One geometry group: the vertex bytes and index bytes of a (geometry, level) pair. -/
structure ModelGeometryBuffer where
  vertexData : List Byte
  indexData : List Byte
  deriving DecidableEq, Repr

instance : Inhabited ModelGeometryBuffer := ⟨⟨[], []⟩⟩

/-- The member variables of `ModelFactory`. -/
structure ModelFactory where
  vertexElements_ : List VertexElement
  vertexSize_ : Nat
  largeIndices_ : Bool
  currentGeometry_ : Nat
  currentLevel_ : Nat
  geometry_ : List (List ModelGeometryBuffer)
  materials_ : List Material
  deriving DecidableEq, Repr

/-- Modelled from the spec: the getter `ModelFactory::GetVertexSize` of the header, which
is not among the sources; the vertex stride fixed by `Initialize`. -/
def ModelFactory.GetVertexSize (f : ModelFactory) : Nat := f.vertexSize_

/-- Modelled from the spec: the getter `ModelFactory::GetIndexSize` of the header, which is
not among the sources; an index is a 4-byte or a 2-byte unsigned integer. -/
def ModelFactory.GetIndexSize (f : ModelFactory) : Nat := if f.largeIndices_ then 4 else 2

/-- Value of the index stored in the first `w` bytes of `bytes`. -/
def readIndex : Nat → List Byte → Nat
  | 0, _ => 0
  | _ + 1, [] => 0
  | w + 1, b :: bs => b.val + 256 * readIndex w bs

/-- The `w` bytes that store the index `v`. -/
def writeIndex : Nat → Nat → List Byte
  | 0, _ => []
  | w + 1, v => ⟨v % 256, Nat.mod_lt v (by decide)⟩ :: writeIndex w (v / 256)

/-- The first `n` indices of width `w` stored in a byte buffer. -/
def readIndices (w : Nat) : Nat → List Byte → List Nat
  | 0, _ => []
  | n + 1, bytes => readIndex w (bytes.take w) :: readIndices w n (bytes.drop w)

/-- The byte image of a list of indices of width `w`. -/
def writeIndices (w : Nat) : List Nat → List Byte
  | [] => []
  | v :: vs => writeIndex w v ++ writeIndices w vs

/-- All whole indices of width `w` stored in a byte buffer. -/
def indexValues (w : Nat) (bytes : List Byte) : List Nat :=
  readIndices w (bytes.length / w) bytes

/-- Modelled from the spec: the typed overload `AdjustIndicesBase<T>(T*, numIndices, base)`
of the header, which is not among the sources; it shifts each of the first `numIndices`
indices by `baseIndex`, in the arithmetic of the index type `T` of `w` bytes. -/
def AdjustIndicesBaseT (w : Nat) : List Byte → Nat → Nat → List Byte
  | indexData, 0, _ => indexData
  | indexData, n + 1, baseIndex =>
    writeIndex w ((readIndex w (indexData.take w) + baseIndex) % 256 ^ w)
      ++ AdjustIndicesBaseT w (indexData.drop w) n baseIndex

/-- `AdjustIndicesBase(unsigned char*, indexDataSize, largeIndices, baseIndex)`: the byte
region `indexData` (of `indexDataSize` bytes) after the call. -/
def AdjustIndicesBase (indexData : List Byte) (largeIndices : Bool) (baseIndex : Nat) :
    List Byte :=
  let numIndices := indexData.length / (if largeIndices then 4 else 2)
  if largeIndices then
    AdjustIndicesBaseT 4 indexData numIndices baseIndex
  else
    AdjustIndicesBaseT 2 indexData numIndices baseIndex

/-- In-place call `AdjustIndicesBase(buffer.Buffer() + offset, size, largeIndices, base)`
on a sub-range of a byte buffer. -/
def adjustRegion (buffer : List Byte) (offset size : Nat) (largeIndices : Bool)
    (baseIndex : Nat) : List Byte :=
  buffer.take offset
    ++ AdjustIndicesBase ((buffer.drop offset).take size) largeIndices baseIndex
    ++ buffer.drop (offset + size)

/-- `ModelFactory::Reset`. -/
def ModelFactory.Reset (f : ModelFactory) : ModelFactory :=
  { f with
    vertexElements_ := []
    vertexSize_ := 0
    largeIndices_ := false
    currentGeometry_ := 0
    currentLevel_ := 0
    geometry_ := [] }

/-- `ModelFactory::Initialize`.  The stride of a layout is computed by the engine's
`VertexBuffer`, passed here as `vertexSizeOf`. -/
def ModelFactory.Initialize (vertexSizeOf : List VertexElement → Nat) (f : ModelFactory)
    (vertexElements : List VertexElement) (largeIndices : Bool) : ModelFactory :=
  let f := f.Reset
  { f with
    vertexElements_ := vertexElements
    largeIndices_ := largeIndices
    vertexSize_ := vertexSizeOf vertexElements }

/-- A freshly constructed factory (all containers empty, cursors zero). -/
def ModelFactory.fresh : ModelFactory :=
  { vertexElements_ := [], vertexSize_ := 0, largeIndices_ := false, currentGeometry_ := 0,
    currentLevel_ := 0, geometry_ := [], materials_ := [] }

/-- `ModelFactory::SetLevel`. -/
def ModelFactory.SetLevel (f : ModelFactory) (level : Nat) : ModelFactory :=
  { f with currentLevel_ := level }

/-- `ModelFactory::AddGeometry`.  `it` is the position returned by `materials_.Find`,
the length of the list standing for `End()`. -/
def ModelFactory.AddGeometry (f : ModelFactory) (material : Material) (allowReuse : Bool) :
    ModelFactory :=
  let it := f.materials_.indexOf material
  if it = f.materials_.length ∨ allowReuse = false then
    { f with
      currentGeometry_ := f.materials_.length
      materials_ := f.materials_ ++ [material]
      geometry_ := f.geometry_ ++ [[]] }
  else
    { f with currentGeometry_ := it }

/-- `ModelFactory::AddEmpty`.  `none` when `geometry_[currentGeometry_]` is out of
bounds. -/
def ModelFactory.AddEmpty (f : ModelFactory) : Option ModelFactory :=
  let numGeometries := f.geometry_.length
  let geometry :=
    if f.currentGeometry_ ≥ numGeometries then f.geometry_ ++ [[]] else f.geometry_
  match geometry[f.currentGeometry_]? with
  | none => none
  | some levels =>
    let numLevels := levels.length
    let levels :=
      if f.currentLevel_ ≥ numLevels then levels ++ [default] else levels
    some { f with geometry_ := geometry.set f.currentGeometry_ levels }

/-- The group `geometry_[geometry][level]`, when it exists. -/
def ModelFactory.group? (f : ModelFactory) (geometry level : Nat) :
    Option ModelGeometryBuffer :=
  match f.geometry_[geometry]? with
  | none => none
  | some levels => levels[level]?

/-- Write-back through the reference `geometry_[currentGeometry_][currentLevel_]`. -/
def ModelFactory.storeGroup (f : ModelFactory) (geometryBuffer : ModelGeometryBuffer) :
    ModelFactory :=
  let levels := (f.geometry_.getD f.currentGeometry_ []).set f.currentLevel_ geometryBuffer
  { f with geometry_ := f.geometry_.set f.currentGeometry_ levels }

/-- `ModelFactory::AddPrimitives`.  `vertexData` and `indexData` are the bytes available
behind the two pointers.  `none` when the destination group is out of bounds, when a
caller buffer is shorter than announced, or when the stride divides by zero. -/
def ModelFactory.AddPrimitives (f : ModelFactory) (vertexData : List Byte) (numVertices : Nat)
    (indexData : List Byte) (numIndices : Nat) (adjustIndices : Bool) :
    Option ModelFactory :=
  match f.AddEmpty with
  | none => none
  | some f =>
    match f.group? f.currentGeometry_ f.currentLevel_ with
    | none => none
    | some geometryBuffer =>
      if vertexData.length < numVertices * f.GetVertexSize then none
      else if indexData.length < numIndices * f.GetIndexSize then none
      else
        let vertexData := geometryBuffer.vertexData ++ vertexData.take (numVertices * f.GetVertexSize)
        let indexData := geometryBuffer.indexData ++ indexData.take (numIndices * f.GetIndexSize)
        if adjustIndices then
          if f.GetVertexSize = 0 then none
          else
            let base := vertexData.length / f.GetVertexSize - numVertices
            let offset := indexData.length - numIndices * f.GetIndexSize
            some (f.storeGroup ⟨vertexData, adjustRegion indexData offset
              (numIndices * f.GetIndexSize) f.largeIndices_ base⟩)
        else
          some (f.storeGroup ⟨vertexData, indexData⟩)

/-- `ModelFactory::GetNumGeometries`. -/
def ModelFactory.GetNumGeometries (f : ModelFactory) : Nat := f.geometry_.length

/-- `ModelFactory::GetNumGeometryLevels`. -/
def ModelFactory.GetNumGeometryLevels (f : ModelFactory) (geometry : Nat) : Nat :=
  if geometry < f.GetNumGeometries then (f.geometry_.getD geometry []).length else 0

/-- Number of vertices held by a group: `vertexData.Size() / GetVertexSize()`. -/
def ModelFactory.numVerticesOf (f : ModelFactory) (g : ModelGeometryBuffer) : Nat :=
  g.vertexData.length / f.GetVertexSize

/-- Number of indices held by a group: `indexData.Size() / GetIndexSize()`. -/
def ModelFactory.numIndicesOf (f : ModelFactory) (g : ModelGeometryBuffer) : Nat :=
  g.indexData.length / f.GetIndexSize

/-- `ModelFactory::GetNumVertices`. -/
def ModelFactory.GetNumVertices (f : ModelFactory) (geometry level : Nat) : Nat :=
  if level < f.GetNumGeometryLevels geometry then
    f.numVerticesOf ((f.geometry_.getD geometry []).getD level default)
  else 0

/-- `ModelFactory::GetNumIndices`. -/
def ModelFactory.GetNumIndices (f : ModelFactory) (geometry level : Nat) : Nat :=
  if level < f.GetNumGeometryLevels geometry then
    f.numIndicesOf ((f.geometry_.getD geometry []).getD level default)
  else 0

/-- Engine `Geometry`, reduced to its draw range. -/
structure Geometry where
  indexStart : Nat
  indexCount : Nat
  deriving DecidableEq, Repr

instance : Inhabited Geometry := ⟨⟨0, 0⟩⟩

/-- Engine `Model` as `BuildModel` leaves it: the geometries per (geometry, level), and
the contents of its single vertex buffer and single index buffer. -/
structure Model where
  geometries : List (List Geometry)
  vertexCount : Nat
  vertexData : List Byte
  indexCount : Nat
  indexData : List Byte
  deriving DecidableEq, Repr

/-- The four accumulators of the merge loop of `BuildModel`. -/
structure MergeState where
  vertexData : List Byte
  indexData : List Byte
  geometryIndexOffset : List Nat
  geometryIndexCount : List Nat
  deriving DecidableEq, Repr

/-- Body of the inner merge loop of `BuildModel` for one group. -/
def ModelFactory.mergeGroup (f : ModelFactory) (s : MergeState)
    (geometryBuffer : ModelGeometryBuffer) : MergeState :=
  let geometryIndexOffset := s.geometryIndexOffset ++ [s.indexData.length / f.GetIndexSize]
  let vertexData := s.vertexData ++ geometryBuffer.vertexData
  let indexData := s.indexData ++ geometryBuffer.indexData
  let geometryIndexCount :=
    s.geometryIndexCount ++ [geometryBuffer.indexData.length / f.GetIndexSize]
  let base := (vertexData.length - geometryBuffer.vertexData.length) / f.GetVertexSize
  let offset := indexData.length - geometryBuffer.indexData.length
  { vertexData := vertexData
    indexData := adjustRegion indexData offset geometryBuffer.indexData.length
      f.largeIndices_ base
    geometryIndexOffset := geometryIndexOffset
    geometryIndexCount := geometryIndexCount }

/-- The filter loop of `BuildModel`: geometries with at least one LOD level. -/
def ModelFactory.filterGeometry (f : ModelFactory) : List (List ModelGeometryBuffer) :=
  f.geometry_.foldl (fun geometry levels =>
    if levels.length > 0 then geometry ++ [levels] else geometry) []

/-- The merge loops of `BuildModel` over the filtered geometries. -/
def ModelFactory.mergeAll (f : ModelFactory) (geometry : List (List ModelGeometryBuffer)) :
    MergeState :=
  geometry.foldl (fun s levels => levels.foldl f.mergeGroup s) ⟨[], [], [], []⟩

/-- Inner loop of the range set-up of `BuildModel`: the geometries of one entry, with
the running `group` counter. -/
def setupLevels (geometryIndexOffset geometryIndexCount : List Nat) :
    List ModelGeometryBuffer → Nat → List Geometry × Nat
  | [], group => ([], group)
  | _ :: rest, group =>
    let r := setupLevels geometryIndexOffset geometryIndexCount rest (group + 1)
    (⟨geometryIndexOffset.getD group 0, geometryIndexCount.getD group 0⟩ :: r.1, r.2)

/-- Outer loop of the range set-up of `BuildModel`. -/
def setupRanges (geometryIndexOffset geometryIndexCount : List Nat) :
    List (List ModelGeometryBuffer) → Nat → List (List Geometry)
  | [], _ => []
  | levels :: rest, group =>
    let r := setupLevels geometryIndexOffset geometryIndexCount levels group
    r.1 :: setupRanges geometryIndexOffset geometryIndexCount rest r.2

/-- `ModelFactory::BuildModel`, up to the bounding box.  `none` when the stride is zero
(the stride is a divisor of the merge loop and of the buffer sizing). -/
def ModelFactory.BuildModel (f : ModelFactory) : Option Model :=
  if f.GetVertexSize = 0 then none
  else
    let geometry := f.filterGeometry
    let s := f.mergeAll geometry
    let vertexCount := s.vertexData.length / f.GetVertexSize
    let indexCount := s.indexData.length / f.GetIndexSize
    some
      { geometries := setupRanges s.geometryIndexOffset s.geometryIndexCount geometry 0
        vertexCount := vertexCount
        vertexData := s.vertexData.take (vertexCount * f.GetVertexSize)
        indexCount := indexCount
        indexData := s.indexData.take (indexCount * f.GetIndexSize) }

/-- The groups `BuildModel` visits, in visiting order: those of the geometries with at
least one LOD level, by geometry and, within a geometry, by ascending level. -/
def ModelFactory.visitedGroups (f : ModelFactory) : List ModelGeometryBuffer :=
  (f.geometry_.filter (fun levels => decide (levels.length > 0))).flatten

/-- Index bytes the merge loop of `BuildModel` appends for a list of groups, `vertexBytes`
vertex bytes having been merged before. -/
def ModelFactory.mergedIndexData (f : ModelFactory) : Nat → List ModelGeometryBuffer → List Byte
  | _, [] => []
  | vertexBytes, g :: gs =>
    AdjustIndicesBase g.indexData f.largeIndices_ (vertexBytes / f.GetVertexSize)
      ++ f.mergedIndexData (vertexBytes + g.vertexData.length) gs

/-- Index offsets the merge loop of `BuildModel` records for a list of groups,
`indexBytes` index bytes having been merged before. -/
def ModelFactory.indexOffsets (f : ModelFactory) : Nat → List ModelGeometryBuffer → List Nat
  | _, [] => []
  | indexBytes, g :: gs =>
    indexBytes / f.GetIndexSize :: f.indexOffsets (indexBytes + g.indexData.length) gs

/-- Vertex bytes merged by `BuildModel` before the k-th visited group. -/
def ModelFactory.vertexBytesBefore (f : ModelFactory) (k : Nat) : Nat :=
  ((f.visitedGroups.take k).map (fun g => g.vertexData.length)).sum

/-- Index bytes merged by `BuildModel` before the k-th visited group. -/
def ModelFactory.indexBytesBefore (f : ModelFactory) (k : Nat) : Nat :=
  ((f.visitedGroups.take k).map (fun g => g.indexData.length)).sum

/-- Vertices merged by `BuildModel` before the k-th visited group. -/
def ModelFactory.verticesBefore (f : ModelFactory) (k : Nat) : Nat :=
  ((f.visitedGroups.take k).map f.numVerticesOf).sum

/-- The slice of the merged vertex buffer that belongs to the k-th visited group `g`. -/
def ModelFactory.vertexSlice (f : ModelFactory) (m : Model) (k : Nat)
    (g : ModelGeometryBuffer) : List Byte :=
  (m.vertexData.drop (f.vertexBytesBefore k)).take g.vertexData.length

/-- The indices of the slice of the merged index buffer that belongs to the k-th visited
group `g`. -/
def ModelFactory.indexSlice (f : ModelFactory) (m : Model) (k : Nat)
    (g : ModelGeometryBuffer) : List Nat :=
  indexValues f.GetIndexSize ((m.indexData.drop (f.indexBytesBefore k)).take g.indexData.length)

/-- Subtraction of `base` from an index, in the arithmetic of an index type of `w`
bytes. -/
def subtractBase (w base i : Nat) : Nat :=
  (i + (256 ^ w - base % 256 ^ w)) % 256 ^ w

/-! ### Sample factories -/

/-- A factory that went through `Initialize`, two `AddGeometry` calls on distinct
materials and one submission to the first. -/
def usedFactory : ModelFactory :=
  { vertexElements_ := [], vertexSize_ := 4, largeIndices_ := false, currentGeometry_ := 1,
    currentLevel_ := 0,
    geometry_ := [[⟨[1, 2, 3, 4], [0, 0]⟩], []],
    materials_ := [7, 8] }

/-- A factory with three material slots, the second of which never received geometry. -/
def mergeFactory : ModelFactory :=
  { vertexElements_ := [], vertexSize_ := 4, largeIndices_ := false, currentGeometry_ := 2,
    currentLevel_ := 0,
    geometry_ :=
      [[⟨[1, 2, 3, 4, 5, 6, 7, 8], [0, 0, 1, 0, 1, 0]⟩], [], [⟨[9, 9, 9, 9], [0, 0, 0, 0]⟩]],
    materials_ := [7, 9, 8] }

/-- The two groups of `mergeFactory`, submitted in the opposite order. -/
def swappedFactory : ModelFactory :=
  { vertexElements_ := [], vertexSize_ := 4, largeIndices_ := false, currentGeometry_ := 1,
    currentLevel_ := 0,
    geometry_ :=
      [[⟨[9, 9, 9, 9], [0, 0, 0, 0]⟩], [⟨[1, 2, 3, 4, 5, 6, 7, 8], [0, 0, 1, 0, 1, 0]⟩]],
    materials_ := [8, 7] }

/-! ## Definitions: signed distance field

Conventions of the embedding.

* A float of the field is an integer or `+infinity` (`FloatValue`): the field only ever
  holds sums of the integers `-1`, `0`, `1` and of `M_INFINITY`.
* A distance is the square root of a natural number or `+infinity` (`Distance`); the field
  stores the radicand, and two distances compare as their radicands do.
* Colour channels are rational numbers.
-/

/-- Engine `Color`. -/
structure Color where
  r_ : ℚ
  g_ : ℚ
  b_ : ℚ
  a_ : ℚ
  deriving DecidableEq

/-- Engine `Color::Luma`. -/
def Color.Luma (c : Color) : ℚ := c.r_ * (299 / 1000) + c.g_ * (587 / 1000) + c.b_ * (114 / 1000)

/-- Engine constant `M_LARGE_EPSILON`. -/
def M_LARGE_EPSILON : ℚ := 5 / 100000

/-- Engine `Image`, reduced to its size and its pixels in row-major order. -/
structure Image where
  width_ : Nat
  height_ : Nat
  data_ : List Color

/-- Engine `Image::GetPixel` for coordinates inside the image. -/
def Image.GetPixel (image : Image) (x y : Nat) : Color :=
  image.data_.getD (y * image.width_ + x) ⟨0, 0, 0, 0⟩

/-- Engine `IntVector2`. -/
structure IntVector2 where
  x_ : Int
  y_ : Int
  deriving DecidableEq, Repr

/-- A float that is an integer or `+infinity`. -/
inductive FloatValue where
  | finite (v : Int)
  | infinity
  deriving DecidableEq, Repr

/-- A float that is the square root of `radicand`, or `+infinity`. -/
inductive Distance where
  | sqrt (radicand : Nat)
  | infinity
  deriving DecidableEq, Repr

/-- Sum of a float of the field and an integer. -/
def FloatValue.add : FloatValue → Int → FloatValue
  | .finite v, o => .finite (v + o)
  | .infinity, _ => .infinity

/-- Comparison `a < b` of two distances. -/
def Distance.lt : Distance → Distance → Bool
  | .sqrt a, .sqrt b => decide (a < b)
  | .sqrt _, .infinity => true
  | .infinity, _ => false

/-- Engine `Vector2::Length` of `(x, y)`. -/
def Length : FloatValue → FloatValue → Distance
  | .finite x, .finite y => .sqrt (x * x + y * y).toNat
  | _, _ => .infinity

/-- Engine `Vector3` as the field stores it: offset `(x_, y_)` and distance `z_`. -/
structure Vector3 where
  x_ : FloatValue
  y_ : FloatValue
  z_ : Distance
  deriving DecidableEq, Repr

/-- `Vector3::ZERO`. -/
def Vector3.ZERO : Vector3 := ⟨.finite 0, .finite 0, .sqrt 0⟩

/-- `Vector3(M_INFINITY, M_INFINITY, M_INFINITY)`. -/
def Vector3.INFINITY : Vector3 := ⟨.infinity, .infinity, .infinity⟩

/-- The member variables of `SignedDistanceField`. -/
structure SignedDistanceField where
  width_ : Nat
  height_ : Nat
  data_ : List Vector3
  deriving DecidableEq, Repr

/-- `SignedDistanceField::Wrap`; `tmod` is the remainder of C++. -/
def SignedDistanceField.Wrap (s : SignedDistanceField) (xy : IntVector2) : IntVector2 :=
  let x := xy.x_.tmod s.width_
  let x := if x < 0 then x + s.width_ else x
  let y := xy.y_.tmod s.height_
  let y := if y < 0 then y + s.height_ else y
  ⟨x, y⟩

/-- The position `xy.y_ * width_ + xy.x_` of a pixel in `data_`, after `Wrap`. -/
def SignedDistanceField.pixelIndex (s : SignedDistanceField) (x y : Int) : Int :=
  let xy := s.Wrap ⟨x, y⟩
  xy.y_ * s.width_ + xy.x_

/-- `SignedDistanceField::GetPixel`. -/
def SignedDistanceField.GetPixel (s : SignedDistanceField) (x y : Int) : Vector3 :=
  s.data_.getD (s.pixelIndex x y).toNat Vector3.ZERO

/-- `SignedDistanceField::SetPixel`. -/
def SignedDistanceField.SetPixel (s : SignedDistanceField) (x y : Int) (value : Vector3) :
    SignedDistanceField :=
  { s with data_ := s.data_.set (s.pixelIndex x y).toNat value }

/-- `SignedDistanceField::UpdateMinDistance`; the second component is `currentDist` after
the call. -/
def SignedDistanceField.UpdateMinDistance (s : SignedDistanceField) (x y offsetX offsetY : Int)
    (currentDist : Distance) : SignedDistanceField × Distance :=
  let p := s.GetPixel (x + offsetX) (y + offsetY)
  let vx := p.x_.add offsetX
  let vy := p.y_.add offsetY
  let value : Vector3 := ⟨vx, vy, Length vx vy⟩
  if value.z_.lt currentDist then (s.SetPixel x y value, value.z_) else (s, currentDist)

/-- The gap test of the constructor for one pixel. -/
def isGapPixel (pixel : Color) (isTransparent : Bool) : Bool :=
  if isTransparent then decide (pixel.a_ < M_LARGE_EPSILON)
  else decide (pixel.Luma < M_LARGE_EPSILON)

/-- First loop of the constructor: gap pixels to infinity, the others to zero. -/
def SignedDistanceField.initialise (image : Image) (isTransparent : Bool)
    (s : SignedDistanceField) : SignedDistanceField :=
  (List.range s.height_).foldl (fun t (j : Nat) =>
    (List.range s.width_).foldl (fun t (i : Nat) =>
      if isGapPixel (image.GetPixel i j) isTransparent then t.SetPixel i j Vector3.INFINITY
      else t.SetPixel i j Vector3.ZERO) t) s

/-- Body of the second loop of the constructor for the pixel `(i, j)`. -/
def SignedDistanceField.forwardPixel (s : SignedDistanceField) (i j : Int) :
    SignedDistanceField :=
  let src := (s.GetPixel i j).z_
  let r := s.UpdateMinDistance i j (-1) (-1) src
  let r := r.1.UpdateMinDistance i j 0 (-1) r.2
  let r := r.1.UpdateMinDistance i j 1 (-1) r.2
  let r := r.1.UpdateMinDistance i j (-1) 0 r.2
  r.1

/-- Body of the third loop of the constructor for the pixel `(i, j)`. -/
def SignedDistanceField.backwardPixel (s : SignedDistanceField) (i j : Int) :
    SignedDistanceField :=
  let src := (s.GetPixel i j).z_
  let r := s.UpdateMinDistance i j 1 0 src
  let r := r.1.UpdateMinDistance i j (-1) 1 r.2
  let r := r.1.UpdateMinDistance i j 0 1 r.2
  let r := r.1.UpdateMinDistance i j 1 1 r.2
  r.1

/-- Second loop of the constructor: rows top to bottom, pixels left to right. -/
def SignedDistanceField.forwardPass (s : SignedDistanceField) : SignedDistanceField :=
  (List.range s.height_).foldl (fun t (j : Nat) =>
    (List.range s.width_).foldl (fun t (i : Nat) => t.forwardPixel i j) t) s

/-- Third loop of the constructor: rows bottom to top, pixels right to left. -/
def SignedDistanceField.backwardPass (s : SignedDistanceField) : SignedDistanceField :=
  (List.range s.height_).reverse.foldl (fun t (j : Nat) =>
    (List.range s.width_).reverse.foldl (fun t (i : Nat) => t.backwardPixel i j) t) s

/-- `SignedDistanceField::SignedDistanceField(image, isTransparent)`. -/
def SignedDistanceField.create (image : Image) (isTransparent : Bool) : SignedDistanceField :=
  let s : SignedDistanceField :=
    { width_ := image.width_
      height_ := image.height_
      data_ := List.replicate (image.width_ * image.height_) Vector3.ZERO }
  ((s.initialise image isTransparent).forwardPass).backwardPass

/-- `SignedDistanceField::GetNearestPixel`; `none` when the entry is infinite, where the
conversion to `int` has no defined result. -/
def SignedDistanceField.GetNearestPixel (s : SignedDistanceField) (x y : Int) :
    Option IntVector2 :=
  match (s.GetPixel x y).x_, (s.GetPixel x y).y_ with
  | .finite dx, .finite dy => some ⟨x + dx, y + dy⟩
  | _, _ => none

/-- The coordinate `x` reduced into `0 .. n - 1`. -/
def wrapCoord (n : Nat) (x : Int) : Nat := (x % (n : Int)).toNat

/-- The entry of the field stored for the pixel `(a, b)`. -/
def SignedDistanceField.cell (s : SignedDistanceField) (a b : Nat) : Vector3 :=
  s.data_.getD (b * s.width_ + a) Vector3.ZERO

/-- An entry of the field is finite when its distance is. -/
def Vector3.IsFinite (v : Vector3) : Prop := v.z_ ≠ Distance.infinity

/-- The gap mask of an image: the test of the constructor at the pixel `(a, b)`. -/
def Image.isGap (image : Image) (isTransparent : Bool) (a b : Nat) : Bool :=
  isGapPixel (image.GetPixel a b) isTransparent

/-- Invariant of the constructor loops for a field of `w` by `h` entries over the gap
mask `gap`: every entry is the infinite one or holds an integral offset, the length of
that offset, and the offset leads (after wrapping) to a pixel that is not a gap. -/
def SignedDistanceField.Sound (gap : Nat → Nat → Bool) (w h : Nat) (s : SignedDistanceField) :
    Prop :=
  s.width_ = w ∧ s.height_ = h ∧ s.data_.length = w * h
  ∧ ∀ a b, a < w → b < h →
      s.cell a b = Vector3.INFINITY
      ∨ ∃ dx dy : Int,
          s.cell a b = ⟨.finite dx, .finite dy, .sqrt (dx * dx + dy * dy).toNat⟩
          ∧ gap (wrapCoord w (a + dx)) (wrapCoord h (b + dy)) = false

/-! ### Sample image -/

/-- A 4 by 4 image, transparent except for the opaque white pixel `(0, 0)`. -/
def singlePixelImage : Image :=
  { width_ := 4, height_ := 4
    data_ := ⟨1, 1, 1, 1⟩ :: List.replicate 15 ⟨0, 0, 0, 0⟩ }

/-! ## Definitions: geometry utilities

Conventions of the embedding.

* Floats are rational numbers (`Vector3Q`, `Vector4Q`): sums, products and quotients are
  exact.  The engine's square root and its comparison tolerance are parameters.
* `FatIndex` is a natural number; an array passed by pointer is a list, and an access past
  its end has no defined result (`none`).
* A `for` loop over a float counter runs over the natural numbers it takes.
-/

/-- Engine `Vector3` with exact components. -/
structure Vector3Q where
  x_ : ℚ
  y_ : ℚ
  z_ : ℚ
  deriving DecidableEq

/-- Engine `Vector4` with exact components. -/
structure Vector4Q where
  x_ : ℚ
  y_ : ℚ
  z_ : ℚ
  w_ : ℚ
  deriving DecidableEq

/-- `Vector3::ZERO`. -/
def Vector3Q.ZERO : Vector3Q := ⟨0, 0, 0⟩

/-- `Vector4::ZERO`. -/
def Vector4Q.ZERO : Vector4Q := ⟨0, 0, 0, 0⟩

/-- Engine `Vector3::operator +`. -/
def Vector3Q.add (a b : Vector3Q) : Vector3Q := ⟨a.x_ + b.x_, a.y_ + b.y_, a.z_ + b.z_⟩

/-- Engine `Vector3::operator -`. -/
def Vector3Q.sub (a b : Vector3Q) : Vector3Q := ⟨a.x_ - b.x_, a.y_ - b.y_, a.z_ - b.z_⟩

/-- Engine `Vector3::operator *` by a scalar. -/
def Vector3Q.mul (a : Vector3Q) (k : ℚ) : Vector3Q := ⟨a.x_ * k, a.y_ * k, a.z_ * k⟩

/-- Engine `Vector4::operator -`. -/
def Vector4Q.sub (a b : Vector4Q) : Vector4Q :=
  ⟨a.x_ - b.x_, a.y_ - b.y_, a.z_ - b.z_, a.w_ - b.w_⟩

/-- Engine `Equals(lhs, rhs)` with the tolerance `epsilon`. -/
def Equals (epsilon lhs rhs : ℚ) : Bool :=
  decide (lhs + epsilon ≥ rhs) && decide (lhs - epsilon ≤ rhs)

/-- Modelled from the spec: the vertex record `FatVertex` of the header, which is not among
the sources: position, tangent, binormal, two normal channels, four UV channels, four
colour channels and four bone index/weight pairs. -/
structure FatVertex where
  position_ : Vector3Q := Vector3Q.ZERO
  geometryNormal_ : Vector3Q := Vector3Q.ZERO
  tangent_ : Vector3Q := Vector3Q.ZERO
  binormal_ : Vector3Q := Vector3Q.ZERO
  normal_ : Vector3Q := Vector3Q.ZERO
  uv_ : Fin 4 → Vector4Q := fun _ => Vector4Q.ZERO
  colors_ : Fin 4 → Vector4Q := fun _ => Vector4Q.ZERO
  boneIndices_ : Fin 4 → Nat := fun _ => 0
  boneWeights_ : Fin 4 → ℚ := fun _ => 0

instance : Inhabited FatVertex := ⟨{}⟩

/-- Engine `BoundingBox`: an undefined box, or the corners `min_` and `max_`. -/
structure BoundingBox where
  min_ : Vector3Q
  max_ : Vector3Q
  defined_ : Bool
  deriving DecidableEq

/-- Engine `BoundingBox::BoundingBox()`: the undefined box. -/
def BoundingBox.empty : BoundingBox := ⟨Vector3Q.ZERO, Vector3Q.ZERO, false⟩

/-- Engine `BoundingBox::Merge(const Vector3&)`. -/
def BoundingBox.Merge (box : BoundingBox) (point : Vector3Q) : BoundingBox :=
  if box.defined_ then
    { min_ := ⟨min box.min_.x_ point.x_, min box.min_.y_ point.y_, min box.min_.z_ point.z_⟩
      max_ := ⟨max box.max_.x_ point.x_, max box.max_.y_ point.y_, max box.max_.z_ point.z_⟩
      defined_ := true }
  else
    { min_ := point, max_ := point, defined_ := true }

/-- `CalculateBoundingBox`.  `none` when the assertion `numVertices > 0` fails or the array
holds fewer than `numVertices` vertices. -/
def CalculateBoundingBox (vertices : List FatVertex) (numVertices : Nat) : Option BoundingBox :=
  if numVertices = 0 then none
  else if vertices.length < numVertices then none
  else
    some ((List.range numVertices).foldl
      (fun box i => box.Merge (vertices.getD i default).position_) BoundingBox.empty)

/-- `CalculateTangent` with the tolerance `epsilon` of `Equals`; the pair is
`(tangent, binormal)`. -/
def CalculateTangent (epsilon : ℚ) (v0 v1 v2 : FatVertex) : Vector3Q × Vector3Q :=
  let vector1 := v1.position_.sub v0.position_
  let vector2 := v2.position_.sub v0.position_
  let uv1 := (v1.uv_ 0).sub (v0.uv_ 0)
  let uv2 := (v2.uv_ 0).sub (v0.uv_ 0)
  let cp := uv1.x_ * uv2.y_ - uv2.x_ * uv1.y_
  if Equals epsilon cp 0 then (Vector3Q.ZERO, Vector3Q.ZERO)
  else
    let den := 1 / cp
    (⟨(uv2.y_ * vector1.x_ - uv1.y_ * vector2.x_) * den,
      (uv2.y_ * vector1.y_ - uv1.y_ * vector2.y_) * den,
      (uv2.y_ * vector1.z_ - uv1.y_ * vector2.z_) * den⟩,
     ⟨(uv1.x_ * vector2.x_ - uv2.x_ * vector1.x_) * den,
      (uv1.x_ * vector2.y_ - uv2.x_ * vector1.y_) * den,
      (uv1.x_ * vector2.z_ - uv2.x_ * vector1.z_) * den⟩)

/-- The UV cross product `cp` of `CalculateTangent`. -/
def uvCrossProduct (v0 v1 v2 : FatVertex) : ℚ :=
  ((v1.uv_ 0).sub (v0.uv_ 0)).x_ * ((v2.uv_ 0).sub (v0.uv_ 0)).y_
    - ((v2.uv_ 0).sub (v0.uv_ 0)).x_ * ((v1.uv_ 0).sub (v0.uv_ 0)).y_

/-- A vertex at the position `(x, y, z)` with the UV `(u, v)`. -/
def sampleVertex (x y z u v : ℚ) : FatVertex :=
  { position_ := ⟨x, y, z⟩, uv_ := fun i => if i = 0 then ⟨u, v, 0, 0⟩ else Vector4Q.ZERO }

deriving instance DecidableEq for Image

/-- Engine `Texture2D`, reduced to the image `GetImage()` returns. -/
structure Texture2D where
  image_ : Image
  deriving DecidableEq

/-- Engine `IntRect`. -/
structure IntRect where
  left_ : Int
  top_ : Int
  right_ : Int
  bottom_ : Int
  deriving DecidableEq

/-- Engine `Variant`, reduced to the `Vector4` payload of a shader parameter. -/
abbrev Variant := Vector4Q

/-- Engine `TextureUnit`, by its number. -/
abbrev TextureUnit := Nat

/-- Engine `XMLFile` holding a render path, by its address. -/
abbrev RenderPathFile := Nat

/-- `OrthoCameraDescription`; the rotation is kept as its four quaternion components. -/
structure OrthoCameraDescription where
  position_ : Vector3Q
  rotation_ : Vector4Q
  farClip_ : ℚ
  size_ : ℚ × ℚ
  viewport_ : IntRect
  deriving DecidableEq

/-- `GeometryDescription`: a model, by its address, and its materials, `none` for a null
material. -/
structure GeometryDescription where
  model_ : Nat
  materials_ : List (Option Material)
  deriving DecidableEq

/-- `TextureDescription`. -/
structure TextureDescription where
  color_ : Color
  width_ : Nat
  height_ : Nat
  renderPath_ : Option RenderPathFile
  cameras_ : List OrthoCameraDescription
  geometries_ : List GeometryDescription
  textures_ : List (TextureUnit × String)
  parameters_ : List (String × Variant)
  deriving DecidableEq

/-- `TextureMap`: the textures registered so far, by name. -/
abbrev TextureMap := List (String × Texture2D)

/-- Engine `HashMap::TryGetValue`. -/
def TextureMap.TryGetValue (textures : TextureMap) (name : String) : Option Texture2D :=
  (textures.find? (fun entry => entry.1 == name)).map (fun entry => entry.2)

/-- Engine `HashMap::Populate`: the value stored under `name` becomes `texture`.  The
order of the entries of a hash map is not modelled. -/
def TextureMap.Populate (textures : TextureMap) (name : String) (texture : Texture2D) :
    TextureMap :=
  (name, texture) :: textures.filter (fun entry => !(entry.1 == name))

/-- Engine `ResourceCache`, reduced to the textures it can load, by name. -/
abbrev ResourceCache := List (String × Texture2D)

/-- A material cloned for one view: the source material, the textures set on the clone
and the shader parameters set on it. -/
structure ClonedMaterial where
  source_ : Material
  textures_ : List (TextureUnit × Texture2D)
  parameters_ : List (String × Variant)
  deriving DecidableEq

/-- The static model component created for one geometry description: its model and the
materials set on it, by slot. -/
structure StaticModelComponent where
  model_ : Nat
  materials_ : List (Nat × ClonedMaterial)
  deriving DecidableEq

/-- `ViewDescription`: the camera node (by the description its camera is set up from), the
model node (by its static model components), the cloned materials kept alive, the viewport
and the render path. -/
structure ViewDescription where
  camera_ : OrthoCameraDescription
  node_ : List StaticModelComponent
  objects_ : List ClonedMaterial
  viewport_ : IntRect
  renderPath_ : Option RenderPathFile
  deriving DecidableEq

/-- The texture overrides of `ConstructViewsForTexture` for one cloned material: every
named input found in `textures`, or else in the resource cache, is set on its unit. -/
def resolveTextures (resourceCache : Option ResourceCache) (desc : TextureDescription)
    (textures : TextureMap) : List (TextureUnit × Texture2D) :=
  desc.textures_.filterMap (fun unitDesc =>
    let texture := textures.TryGetValue unitDesc.2
    let texture :=
      match texture, resourceCache with
      | none, some cache => TextureMap.TryGetValue cache unitDesc.2
      | texture, _ => texture
    texture.map (fun t => (unitDesc.1, t)))

/-- The materials loop of `ConstructViewsForTexture` for one geometry description: the
slots with a material, each with its clone. -/
def cloneMaterials (resourceCache : Option ResourceCache) (desc : TextureDescription)
    (textures : TextureMap) (geometryDesc : GeometryDescription) : List (Nat × ClonedMaterial) :=
  (List.range geometryDesc.materials_.length).filterMap (fun i =>
    match geometryDesc.materials_.getD i none with
    | none => none
    | some material =>
      some (i, { source_ := material
                 textures_ := resolveTextures resourceCache desc textures
                 parameters_ := desc.parameters_ }))

/-- The body of the camera loop of `ConstructViewsForTexture`: the view built for one
camera description. -/
def constructView (resourceCache : Option ResourceCache) (desc : TextureDescription)
    (textures : TextureMap) (cameraDesc : OrthoCameraDescription) : ViewDescription :=
  let components := desc.geometries_.map (fun geometryDesc =>
    { model_ := geometryDesc.model_
      materials_ := cloneMaterials resourceCache desc textures geometryDesc :
      StaticModelComponent })
  { camera_ := cameraDesc
    node_ := components
    objects_ := (components.map (fun c => c.materials_.map (fun m => m.2))).flatten
    viewport_ := cameraDesc.viewport_
    renderPath_ := desc.renderPath_ }

/-- `ConstructViewsForTexture`: the views pushed for the camera descriptions, in order. -/
def ConstructViewsForTexture (resourceCache : Option ResourceCache) (desc : TextureDescription)
    (textures : TextureMap) : List ViewDescription :=
  desc.cameras_.foldl (fun views cameraDesc =>
    views ++ [constructView resourceCache desc textures cameraDesc]) []

/-- An image of `width` by `height` pixels that all read `color`. -/
def Image.filled (width height : Nat) (color : Color) : Image :=
  { width_ := width, height_ := height, data_ := List.replicate (width * height) color }

/-- The colour an image returns for a pixel set to `c`: an engine image keeps eight bits
per channel, and `quantize` is the round trip of one channel through that store. -/
def storedColor (quantize : ℚ → ℚ) (c : Color) : Color :=
  ⟨quantize c.r_, quantize c.g_, quantize c.b_, quantize c.a_⟩

/-- The image `SetSize(width, height, 4)` and `Clear(color)` leave: every pixel reads
`color` as the image stores it. -/
def Image.cleared (quantize : ℚ → ℚ) (width height : Nat) (color : Color) : Image :=
  Image.filled width height (storedColor quantize color)

/-- `RenderTexture`.  `RenderViews` drives the renderer of the engine; the texture it
returns for a size and a list of views is a parameter, and so is `quantize`, the round
trip of a colour channel through the image store. -/
def RenderTexture (RenderViews : Nat → Nat → List ViewDescription → Texture2D)
    (quantize : ℚ → ℚ) (resourceCache : Option ResourceCache) (desc : TextureDescription)
    (textures : TextureMap) : Texture2D :=
  if desc.cameras_.isEmpty ∨ desc.geometries_.isEmpty ∨ desc.renderPath_.isNone then
    { image_ := Image.cleared quantize desc.width_ desc.height_ desc.color_ }
  else
    let views := ConstructViewsForTexture resourceCache desc textures
    RenderViews desc.width_ desc.height_ views

/-- The member variables of `TextureFactory` that `Generate` uses. -/
structure TextureFactory where
  resourceCache_ : Option ResourceCache
  textureDescs_ : List (String × TextureDescription)
  textureMap_ : TextureMap
  deriving DecidableEq

/-- The loop of `TextureFactory::Generate` over the descriptions that remain; the result
is the return value and the texture map.  `renderTexture` is the call
`RenderTexture(context_, desc, textureMap_)`, `none` for a null texture. -/
def generateLoop (renderTexture : TextureDescription → TextureMap → Option Texture2D) :
    List (String × TextureDescription) → TextureMap → Bool × TextureMap
  | [], textureMap => (true, textureMap)
  | textureDesc :: rest, textureMap =>
    match renderTexture textureDesc.2 textureMap with
    | none => (false, textureMap)
    | some texture => generateLoop renderTexture rest (textureMap.Populate textureDesc.1 texture)

/-- A description with one camera, one geometry and a render path. -/
def sampleDescription : TextureDescription :=
  { color_ := ⟨1, 0, 0, 1⟩, width_ := 2, height_ := 2, renderPath_ := some 1
    cameras_ := [{ position_ := Vector3Q.ZERO, rotation_ := ⟨0, 0, 0, 1⟩, farClip_ := 1,
                   size_ := (1, 1), viewport_ := ⟨0, 0, 2, 2⟩ }]
    geometries_ := [{ model_ := 1, materials_ := [some 7] }]
    textures_ := [], parameters_ := [] }

/-- A renderer that paints every texture transparent black. -/
def blankRenderViews (width height : Nat) (_views : List ViewDescription) : Texture2D :=
  { image_ := Image.filled width height ⟨0, 0, 0, 0⟩ }

/-- A description of one pixel without cameras, of the colour `(1/2, 1/2, 1/2, 1)`. -/
def greyDescription : TextureDescription :=
  { sampleDescription with color_ := ⟨1 / 2, 1 / 2, 1 / 2, 1⟩, width_ := 1, height_ := 1,
                           cameras_ := [] }

/-- A factory with two descriptions, the first of width zero. -/
def sampleTextureFactory : TextureFactory :=
  { resourceCache_ := some []
    textureDescs_ := [("first", { sampleDescription with width_ := 0 }),
                      ("second", sampleDescription)]
    textureMap_ := [] }

/-- Rendering and registering every description of a list in order, from the texture map
`textureMap`; `none` when one of the results is null. -/
def registerAll (renderTexture : TextureDescription → TextureMap → Option Texture2D)
    (textureDescs : List (String × TextureDescription)) (textureMap : TextureMap) :
    Option TextureMap :=
  textureDescs.foldl (fun current textureDesc =>
    current.bind (fun m =>
      (renderTexture textureDesc.2 m).map (fun texture => m.Populate textureDesc.1 texture)))
    (some textureMap)

/-! ## Definitions: bounding box of the built model

`BuildModel` reads the layout back from the vertex buffer, whose `SetSize` lays the
elements out one after the other (engine `VertexBuffer::UpdateOffsets`).  The table of
element sizes of the engine and the decoding of twelve bytes as a `Vector3` are parameters.
Offsets and strides stay below `2 ^ 31`, where `unsigned` and `int` agree with the
naturals; `int positionOffset` is an `Option`, `none` for `-1`.
-/

/-- Engine `VertexBuffer::UpdateOffsets`: the elements with their offsets, from the running
offset `elementOffset`. -/
def UpdateOffsets (typeSize : VertexElementType → Nat) :
    List VertexElement → Nat → List VertexElement
  | [], _ => []
  | element :: rest, elementOffset =>
    { element with offset_ := elementOffset }
      :: UpdateOffsets typeSize rest (elementOffset + typeSize element.type_)

/-- Engine `VertexBuffer::GetVertexSize` for a layout: the sum of the element sizes. -/
def VertexBuffer.GetVertexSize (typeSize : VertexElementType → Nat)
    (elements : List VertexElement) : Nat :=
  (elements.map (fun element => typeSize element.type_)).sum

/-- The test of the position loop of `BuildModel`. -/
def isPositionElement (element : VertexElement) : Bool :=
  element.semantic_ = VertexElementSemantic.SEM_POSITION && element.index_ = 0

/-- The position loop of `BuildModel`: the value of `positionOffset` after the loop. -/
def findPositionOffset : List VertexElement → Option Nat
  | [] => none
  | element :: rest =>
    if isPositionElement element then
      if element.type_ ≠ VertexElementType.TYPE_VECTOR3
          ∧ element.type_ ≠ VertexElementType.TYPE_VECTOR4 then none
      else some element.offset_
    else findPositionOffset rest

/-- The `Vector3` that `*reinterpret_cast<const Vector3*>(data + offset)` reads. -/
def readVector3 (decode : List Byte → Vector3Q) (data : List Byte) (offset : Nat) : Vector3Q :=
  decode ((data.drop offset).take 12)

/-- The merge loop over the shadow data of `BuildModel`.  `none` when a read goes past the
end of the data; the reads grow with `i`, so the last one decides. -/
def ModelFactory.mergePositions (decode : List Byte → Vector3Q) (f : ModelFactory)
    (data : List Byte) (positionOffset vertexCount : Nat) : Option BoundingBox :=
  if vertexCount ≠ 0 ∧ data.length < positionOffset + f.vertexSize_ * (vertexCount - 1) + 12
  then none
  else
    some ((List.range vertexCount).foldl
      (fun box i => box.Merge (readVector3 decode data (positionOffset + f.vertexSize_ * i)))
      BoundingBox.empty)

/-- `ModelFactory::BuildModel` with its last part: the model and the box passed to
`SetBoundingBox`, `none` when `SetBoundingBox` is not called. -/
def ModelFactory.BuildModelBox (typeSize : VertexElementType → Nat)
    (decode : List Byte → Vector3Q) (f : ModelFactory) : Option (Model × Option BoundingBox) :=
  match f.BuildModel with
  | none => none
  | some model =>
    match findPositionOffset (UpdateOffsets typeSize f.vertexElements_ 0) with
    | none => some (model, none)
    | some positionOffset =>
      (f.mergePositions decode model.vertexData positionOffset model.vertexCount).map
        (fun boundingBox => (model, some boundingBox))

/-- The position of vertex `i` of the built model, as the merge loop reads it. -/
def ModelFactory.mergedPosition (typeSize : VertexElementType → Nat)
    (decode : List Byte → Vector3Q) (f : ModelFactory) (model : Model) (i : Nat) : Vector3Q :=
  readVector3 decode model.vertexData
    ((findPositionOffset (UpdateOffsets typeSize f.vertexElements_ 0)).getD 0 + f.vertexSize_ * i)

/-- Engine table `ELEMENT_TYPESIZES`. -/
def ELEMENT_TYPESIZES : VertexElementType → Nat
  | .TYPE_INT => 4
  | .TYPE_FLOAT => 4
  | .TYPE_VECTOR2 => 8
  | .TYPE_VECTOR3 => 12
  | .TYPE_VECTOR4 => 16
  | .TYPE_UBYTE4 => 4
  | .TYPE_UBYTE4_NORM => 4

/-- A decoding of twelve bytes that takes the first byte of each component as its value. -/
def decodeFirstBytes (bytes : List Byte) : Vector3Q :=
  ⟨((bytes.getD 0 0).val : ℚ), ((bytes.getD 4 0).val : ℚ), ((bytes.getD 8 0).val : ℚ)⟩

/-- A factory with a position and a colour channel, holding one group of two vertices. -/
def positionFactory : ModelFactory :=
  { vertexElements_ :=
      [⟨.TYPE_UBYTE4, .SEM_COLOR, 0, 0⟩, ⟨.TYPE_VECTOR3, .SEM_POSITION, 0, 0⟩]
    vertexSize_ := 16, largeIndices_ := false, currentGeometry_ := 0, currentLevel_ := 0,
    geometry_ := [[⟨[9, 9, 9, 9, 1, 0, 0, 0, 2, 0, 0, 0, 3, 0, 0, 0,
                     9, 9, 9, 9, 5, 0, 0, 0, 0, 0, 0, 0, 7, 0, 0, 0], [0, 0, 1, 0]⟩]],
    materials_ := [7] }

/-- A factory whose layout has two position elements, the first of type `Vector2` and the
second of type `Vector3`, holding one group of one vertex. -/
def duplicatePositionFactory : ModelFactory :=
  { vertexElements_ :=
      [⟨.TYPE_VECTOR2, .SEM_POSITION, 0, 0⟩, ⟨.TYPE_VECTOR3, .SEM_POSITION, 0, 0⟩]
    vertexSize_ := 20, largeIndices_ := false, currentGeometry_ := 0, currentLevel_ := 0,
    geometry_ := [[⟨[1, 0, 0, 0, 2, 0, 0, 0, 1, 0, 0, 0, 2, 0, 0, 0, 3, 0, 0, 0], [0, 0]⟩]],
    materials_ := [7] }

/-- The box is the componentwise minimum and maximum of the `n` points `pos 0`, ...,
`pos (n - 1)`: it is defined, contains every point, and each component of its corners is
that of some point. -/
def BoundingBox.IsMinMaxOf (box : BoundingBox) (pos : Nat → Vector3Q) (n : Nat) : Prop :=
  box.defined_ = true
  ∧ (∀ i, i < n →
      box.min_.x_ ≤ (pos i).x_ ∧ (pos i).x_ ≤ box.max_.x_
      ∧ box.min_.y_ ≤ (pos i).y_ ∧ (pos i).y_ ≤ box.max_.y_
      ∧ box.min_.z_ ≤ (pos i).z_ ∧ (pos i).z_ ≤ box.max_.z_)
  ∧ (∃ i, i < n ∧ box.min_.x_ = (pos i).x_)
  ∧ (∃ i, i < n ∧ box.min_.y_ = (pos i).y_)
  ∧ (∃ i, i < n ∧ box.min_.z_ = (pos i).z_)
  ∧ (∃ i, i < n ∧ box.max_.x_ = (pos i).x_)
  ∧ (∃ i, i < n ∧ box.max_.y_ = (pos i).y_)
  ∧ (∃ i, i < n ∧ box.max_.z_ = (pos i).z_)

/-! ## Definitions: gap filling

An engine image keeps eight bits per channel: `SetPixel` stores the colour it is given
as `GetPixel` will return it.  The round trip of one channel through the store is the
parameter `quantize`.  Reading outside the image clamps the coordinates and writing
outside it does nothing, as in the engine.  `GetNextLevel` of the engine, which halves an
image, is a parameter, and so is `indefinite`, the `int` that the conversion of an
infinite float gives.
-/

/-- Engine `Color::BLACK`. -/
def Color.BLACK : Color := ⟨0, 0, 0, 1⟩

/-- Engine `Color::operator *(float)`. -/
def Color.mul (c : Color) (k : ℚ) : Color := ⟨c.r_ * k, c.g_ * k, c.b_ * k, c.a_ * k⟩

/-- Engine `Clamp`. -/
def Clamp (value min max : Int) : Int :=
  if value < min then min else if value > max then max else value

/-- Engine `Image::GetPixel(int, int)`: black without data, else the pixel at the
coordinates clamped to the image. -/
def Image.GetPixelClamped (image : Image) (x y : Int) : Color :=
  if image.data_.isEmpty then Color.BLACK
  else
    image.GetPixel (Clamp x 0 (image.width_ - 1)).toNat (Clamp y 0 (image.height_ - 1)).toNat

/-- Engine `Image::SetPixel(int, int, const Color&)`: nothing outside the image. -/
def Image.SetPixel (quantize : ℚ → ℚ) (image : Image) (x y : Int) (color : Color) : Image :=
  if x < 0 ∨ x ≥ image.width_ ∨ y < 0 ∨ y ≥ image.height_ then image
  else
    { image with
      data_ := image.data_.set (y.toNat * image.width_ + x.toNat) (storedColor quantize color) }

/-- Body of the restore loop of `FillImageGaps` for the coordinates `(x, y)`. -/
def restorePixel (quantize : ℚ → ℚ) (inputImage : Image) (x y : Nat) : Image :=
  let pixel := inputImage.GetPixelClamped x y
  if pixel.a_ > M_LARGE_EPSILON then inputImage.SetPixel quantize x y (pixel.mul (1 / pixel.a_))
  else inputImage

/-- Body of the last loop of `FillImageGaps` for the pixel `(i, j)`, reading the fill
colour from `inputImage` and writing to `image`. -/
def fillPixel (quantize : ℚ → ℚ) (indefinite : Int) (sdf : SignedDistanceField)
    (downsampleFactor : Nat) (inputImage image : Image) (i j : Nat) : Image :=
  let nij := (sdf.GetNearestPixel ((i / downsampleFactor : Nat) : Int)
    ((j / downsampleFactor : Nat) : Int)).getD ⟨indefinite, indefinite⟩
  let fillColor := inputImage.GetPixelClamped nij.x_ nij.y_
  let pixel := image.GetPixelClamped i j
  image.SetPixel quantize i j
    (if pixel.a_ > M_LARGE_EPSILON then pixel
     else ⟨fillColor.r_, fillColor.g_, fillColor.b_, pixel.a_⟩)

/-- One step of the last loop of `FillImageGaps` on the image `current`: without
downsampling `inputImage` is the image itself, as it is by now. -/
def fillStep (quantize : ℚ → ℚ) (indefinite : Int) (sdf : SignedDistanceField)
    (downsample : Nat) (inputImage current : Image) (i j : Nat) : Image :=
  fillPixel quantize indefinite sdf (2 ^ downsample)
    (if downsample = 0 then current else inputImage) current i j

/-- The first part of `FillImageGaps`: `inputImage` after the downsampling loop and the
restore loop, which runs over the size of `image`. -/
def downsampledImage (GetNextLevel : Image → Image) (quantize : ℚ → ℚ) (image : Image)
    (downsample : Nat) : Image :=
  let inputImage := (List.range downsample).foldl (fun level _ => GetNextLevel level) image
  if downsample > 0 then
    (List.range image.height_).foldl (fun t (y : Nat) =>
      (List.range image.width_).foldl (fun t (x : Nat) => restorePixel quantize t x y) t)
      inputImage
  else inputImage

/-- The last loop of `FillImageGaps`. -/
def fillLoop (quantize : ℚ → ℚ) (indefinite : Int) (sdf : SignedDistanceField)
    (downsample : Nat) (inputImage image : Image) : Image :=
  (List.range image.height_).foldl (fun t (j : Nat) =>
    (List.range image.width_).foldl (fun t (i : Nat) =>
      fillStep quantize indefinite sdf downsample inputImage t i j) t) image

/-- `FillImageGaps` on an image that is not null (a null image is left alone); the result
is the image afterwards.  `none` when `downsample` is 32 or more, where `1 << downsample`
is undefined. -/
def FillImageGaps (GetNextLevel : Image → Image) (quantize : ℚ → ℚ) (indefinite : Int)
    (image : Image) (downsample : Nat) : Option Image :=
  if 32 ≤ downsample then none
  else
    let inputImage := downsampledImage GetNextLevel quantize image downsample
    let sdf := SignedDistanceField.create inputImage true
    some (fillLoop quantize indefinite sdf downsample inputImage image)

/-- The round trip of a channel through eight bits: `(int)(x * 255)` clamped to
`0 .. 255`, over 255. -/
def quantize8 (x : ℚ) : ℚ := ((Clamp ⌊x * 255⌋ 0 255 : Int) : ℚ) / 255

/-- A 2 by 2 image, opaque white except for the transparent black pixel `(0, 0)`. -/
def cornerGapImage : Image :=
  { width_ := 2, height_ := 2
    data_ := [⟨0, 0, 0, 0⟩, ⟨1, 1, 1, 1⟩, ⟨1, 1, 1, 1⟩, ⟨1, 1, 1, 1⟩] }

/-- A 3 by 3 image, opaque white except for the transparent black pixel `(1, 1)`. -/
def centreGapImage : Image :=
  { width_ := 3, height_ := 3
    data_ := [⟨1, 1, 1, 1⟩, ⟨1, 1, 1, 1⟩, ⟨1, 1, 1, 1⟩,
              ⟨1, 1, 1, 1⟩, ⟨0, 0, 0, 0⟩, ⟨1, 1, 1, 1⟩,
              ⟨1, 1, 1, 1⟩, ⟨1, 1, 1, 1⟩, ⟨1, 1, 1, 1⟩] }

/-- The image `current` has the size of `image`, the alpha of every pixel of `image`, and
every pixel of `image` whose alpha exceeds the threshold. -/
def Image.KeepsOpaque (image current : Image) : Prop :=
  current.width_ = image.width_ ∧ current.height_ = image.height_
  ∧ current.data_.length = image.data_.length
  ∧ ∀ n, (current.data_.getD n ⟨0, 0, 0, 0⟩).a_ = (image.data_.getD n ⟨0, 0, 0, 0⟩).a_
      ∧ ((image.data_.getD n ⟨0, 0, 0, 0⟩).a_ > M_LARGE_EPSILON →
          current.data_.getD n ⟨0, 0, 0, 0⟩ = image.data_.getD n ⟨0, 0, 0, 0⟩)

/-! ## Definitions: vertex interpolation

`LerpVertices` and `QLerpVertices` of `ModelFactory.cpp`, over exact components.  The
engine function `Vector3::Normalized` is a parameter.
-/

/-- Engine `Lerp(lhs, rhs, t)`: `lhs * (1 - t) + rhs * t`. -/
def Lerp (lhs rhs t : ℚ) : ℚ := lhs * (1 - t) + rhs * t

/-- Engine `Lerp` on `Vector3`. -/
def LerpVector3 (lhs rhs : Vector3Q) (t : ℚ) : Vector3Q :=
  (lhs.mul (1 - t)).add (rhs.mul t)

/-- Engine `Lerp` on `Vector4`. -/
def LerpVector4 (lhs rhs : Vector4Q) (t : ℚ) : Vector4Q :=
  ⟨lhs.x_ * (1 - t) + rhs.x_ * t, lhs.y_ * (1 - t) + rhs.y_ * t,
   lhs.z_ * (1 - t) + rhs.z_ * t, lhs.w_ * (1 - t) + rhs.w_ * t⟩

/-- Modelled from the spec: the vertex record `DefaultVertex` of the header
`ModelFactory.h`, which is not among the sources; its fields are those that `LerpVertices`
assigns, with four UV channels, four colour channels and four bones. -/
structure DefaultVertex where
  position_ : Vector3Q := Vector3Q.ZERO
  geometryNormal_ : Vector3Q := Vector3Q.ZERO
  tangent_ : Vector3Q := Vector3Q.ZERO
  binormal_ : Vector3Q := Vector3Q.ZERO
  normal_ : Vector3Q := Vector3Q.ZERO
  uv_ : Fin 4 → Vector4Q := fun _ => Vector4Q.ZERO
  colors_ : Fin 4 → Vector4Q := fun _ => Vector4Q.ZERO
  boneIndices_ : Fin 4 → Nat := fun _ => 0
  boneWeights_ : Fin 4 → ℚ := fun _ => 0

/-- `LerpVertices`. -/
def LerpVertices (normalized : Vector3Q → Vector3Q) (lhs rhs : DefaultVertex) (factor : ℚ) :
    DefaultVertex :=
  { position_ := LerpVector3 lhs.position_ rhs.position_ factor
    geometryNormal_ := normalized (LerpVector3 lhs.geometryNormal_ rhs.geometryNormal_ factor)
    tangent_ := normalized (LerpVector3 lhs.tangent_ rhs.tangent_ factor)
    binormal_ := normalized (LerpVector3 lhs.binormal_ rhs.binormal_ factor)
    normal_ := normalized (LerpVector3 lhs.normal_ rhs.normal_ factor)
    uv_ := fun i => LerpVector4 (lhs.uv_ i) (rhs.uv_ i) factor
    colors_ := fun i => LerpVector4 (lhs.colors_ i) (rhs.colors_ i) factor
    boneIndices_ := fun i => lhs.boneIndices_ i
    boneWeights_ := fun i => Lerp (lhs.boneWeights_ i) (rhs.boneWeights_ i) factor }

/-- `QLerpVertices`. -/
def QLerpVertices (normalized : Vector3Q → Vector3Q) (v0 v1 v2 v3 : DefaultVertex)
    (factor1 factor2 : ℚ) : DefaultVertex :=
  LerpVertices normalized (LerpVertices normalized v0 v1 factor1)
    (LerpVertices normalized v2 v3 factor1) factor2

/-- A vertex with all four bone indices `index` and all four bone weights `weight`. -/
def boneVertex (index : Nat) (weight : ℚ) : DefaultVertex :=
  { boneIndices_ := fun _ => index, boneWeights_ := fun _ => weight }

/-- Engine `Variant` as `GetOrCreateQuadModel` inspects it: the empty variant, a pointer
to a `Model`, a pointer to anything else, or a value of another type. -/
inductive GlobalVariant where
  | EMPTY
  | model (address : Nat)
  | object (address : Nat)
  | value (code : Nat)
  deriving DecidableEq, Repr

/-- Engine `Context`, reduced to `globalVars_` and the number of models created. -/
structure Context where
  globalVars_ : List (String × GlobalVariant)
  numModels_ : Nat
  deriving DecidableEq, Repr

/-- Engine `Context::GetGlobalVar`: the stored variant, `Variant::EMPTY` for a missing key. -/
def Context.GetGlobalVar (context : Context) (key : String) : GlobalVariant :=
  ((context.globalVars_.find? (fun entry => entry.1 == key)).map (fun entry => entry.2)).getD
    GlobalVariant.EMPTY

/-- Engine `Context::SetGlobalVar`: `globalVars_[key] = value`. -/
def Context.SetGlobalVar (context : Context) (key : String) (value : GlobalVariant) : Context :=
  { context with
    globalVars_ := (key, value) :: context.globalVars_.filter (fun entry => !(entry.1 == key)) }

/-- `CreateQuadModel`, reduced to the creation of a new `Model` object: the quad it builds
is not part of this reduction. -/
def CreateQuadModel (context : Context) : Nat × Context :=
  (context.numModels_, { context with numModels_ := context.numModels_ + 1 })

/-- The name under which `GetOrCreateQuadModel` looks the model up. -/
def modelName : String := "DefaultRenderTargetModel"

/-- `GetOrCreateQuadModel`: the model returned and the context afterwards. -/
def GetOrCreateQuadModel (context : Context) : Nat × Context :=
  let var := context.GetGlobalVar modelName
  match var with
  | .model address => (address, context)
  | _ =>
    let created := CreateQuadModel context
    (created.1, created.2.SetGlobalVar modelName var)

/-- A context without global variables in which no model was created. -/
def emptyContext : Context := { globalVars_ := [], numModels_ := 0 }

/-! ## Definitions: texture descriptions of the factory -/

/-- Engine `String::Compare(other, false) == 0`: equality up to the case of the letters
`A` to `Z`. -/
def equalsIgnoreCase (a b : String) : Bool := a.toLower == b.toLower

/-- The loop of `TextureFactory::FindTexture` over the descriptions that remain, `idx`
being the position of the first of them. -/
def findTextureFrom (name : String) : List (String × TextureDescription) → Int → Int
  | [], _ => -1
  | texture :: rest, idx =>
    if equalsIgnoreCase name texture.1 then idx else findTextureFrom name rest (idx + 1)

/-- `TextureFactory::FindTexture`. -/
def TextureFactory.FindTexture (t : TextureFactory) (name : String) : Int :=
  findTextureFrom name t.textureDescs_ 0

/-- `TextureFactory::AddTexture`: the return value and the factory afterwards. -/
def TextureFactory.AddTexture (t : TextureFactory) (name : String) (desc : TextureDescription) :
    Bool × TextureFactory :=
  if t.FindTexture name ≥ 0 then (false, t)
  else (true, { t with textureDescs_ := t.textureDescs_ ++ [(name, desc)] })

/-- `TextureFactory::RemoveAllTextures`. -/
def TextureFactory.RemoveAllTextures (t : TextureFactory) : TextureFactory :=
  { t with textureDescs_ := [] }

/-- A call that changes the description list of a texture factory. -/
inductive TextureCall where
  | AddTexture (name : String) (desc : TextureDescription)
  | RemoveAllTextures

/-- The factory after one call. -/
def TextureFactory.call (t : TextureFactory) : TextureCall → TextureFactory
  | .AddTexture name desc => (t.AddTexture name desc).2
  | .RemoveAllTextures => t.RemoveAllTextures

/-- The factory after a sequence of calls. -/
def TextureFactory.calls (t : TextureFactory) (calls : List TextureCall) : TextureFactory :=
  calls.foldl TextureFactory.call t

/-- The stored names are pairwise distinct up to case. -/
def TextureFactory.DistinctNames (t : TextureFactory) : Prop :=
  t.textureDescs_.Pairwise (fun a b => equalsIgnoreCase a.1 b.1 = false)

/-! ## Definitions: noise composition

`GeneratePerlinNoiseOctave` and `GeneratePerlinNoise` of `TextureFactory.cpp`, over exact
values.  The renderer, the resource cache, the contrast curve `SmoothStepEx` of the math
header and the colour of a default-constructed description are parameters.  A failed
`assert` and a division by zero have no result here (`none`).
-/

/-- Engine `Color::operator +`. -/
def Color.add (a b : Color) : Color := ⟨a.r_ + b.r_, a.g_ + b.g_, a.b_ + b.b_, a.a_ + b.a_⟩

/-- A call of one of the four operations that fill a `ModelFactory`. -/
inductive FactoryCall where
  | Initialize (vertexElements : List VertexElement) (largeIndices : Bool)
  | AddGeometry (material : Material) (allowReuse : Bool)
  | SetLevel (level : Nat)
  | AddPrimitives (vertexData : List Byte) (numVertices : Nat) (indexData : List Byte)
      (numIndices : Nat) (adjustIndices : Bool)

/-- The factory after one call; `none` when the call has no defined result. -/
def ModelFactory.call (vertexSizeOf : List VertexElement → Nat) (f : ModelFactory) :
    FactoryCall → Option ModelFactory
  | .Initialize vertexElements largeIndices =>
    some (f.Initialize vertexSizeOf vertexElements largeIndices)
  | .AddGeometry material allowReuse => some (f.AddGeometry material allowReuse)
  | .SetLevel level => some (f.SetLevel level)
  | .AddPrimitives vertexData numVertices indexData numIndices adjustIndices =>
    f.AddPrimitives vertexData numVertices indexData numIndices adjustIndices

/-- The factory after a sequence of calls; `none` when one of them has no defined
result. -/
def ModelFactory.calls (vertexSizeOf : List VertexElement → Nat) :
    ModelFactory → List FactoryCall → Option ModelFactory
  | f, [] => some f
  | f, c :: rest =>
    match f.call vertexSizeOf c with
    | none => none
    | some f1 => f1.calls vertexSizeOf rest

/-- The call is an `Initialize`. -/
def FactoryCall.isInitialize : FactoryCall → Bool
  | .Initialize _ _ => true
  | _ => false

/-- No `AddPrimitives` and no `Initialize` comes before the first `AddGeometry`. -/
def geometryFirst : List FactoryCall → Bool
  | [] => true
  | .AddGeometry _ _ :: _ => true
  | .SetLevel _ :: rest => geometryFirst rest
  | _ => false

/-- The group `AddPrimitives` stores for the group `geometryBuffer` under the cursor. -/
def ModelFactory.appendedGroup (f : ModelFactory) (geometryBuffer : ModelGeometryBuffer)
    (vertexData : List Byte) (numVertices : Nat) (indexData : List Byte) (numIndices : Nat)
    (adjustIndices : Bool) : ModelGeometryBuffer :=
  let vertexData := geometryBuffer.vertexData ++ vertexData.take (numVertices * f.GetVertexSize)
  let indexData := geometryBuffer.indexData ++ indexData.take (numIndices * f.GetIndexSize)
  if adjustIndices then
    ⟨vertexData, adjustRegion indexData (indexData.length - numIndices * f.GetIndexSize)
      (numIndices * f.GetIndexSize) f.largeIndices_
      (vertexData.length / f.GetVertexSize - numVertices)⟩
  else ⟨vertexData, indexData⟩

/-- Every group of the factory satisfies `P`. -/
def ModelFactory.AllGroups (f : ModelFactory) (P : ModelGeometryBuffer → Prop) : Prop :=
  ∀ levels ∈ f.geometry_, ∀ g ∈ levels, P g

theorem writeIndex_length (w v : Nat) : (writeIndex w v).length = w := by
  induction w generalizing v with
  | zero => rfl
  | succ w ih => simp [writeIndex, ih]

theorem readIndex_writeIndex (w v : Nat) : readIndex w (writeIndex w v) = v % 256 ^ w := by
  induction w generalizing v with
  | zero => simp [readIndex, writeIndex, Nat.mod_one]
  | succ w ih =>
    simp only [writeIndex, readIndex, ih]
    rw [pow_succ, mul_comm (256 ^ w) 256, Nat.mod_mul]

theorem readIndex_append (w : Nat) (a b : List Byte) (h : a.length = w) :
    readIndex w ((a ++ b).take w) = readIndex w a := by
  subst h; simp

theorem writeIndices_length (w : Nat) (vs : List Nat) :
    (writeIndices w vs).length = vs.length * w := by
  induction vs with
  | nil => simp [writeIndices]
  | cons v vs ih => simp [writeIndices, writeIndex_length, ih]; ring

theorem readIndices_length (w n : Nat) (bytes : List Byte) :
    (readIndices w n bytes).length = n := by
  induction n generalizing bytes with
  | zero => rfl
  | succ n ih => simp [readIndices, ih]

theorem readIndices_writeIndices (w : Nat) (vs : List Nat) (rest : List Byte) :
    readIndices w vs.length (writeIndices w vs ++ rest) = vs.map (· % 256 ^ w) := by
  induction vs with
  | nil => rfl
  | cons v vs ih =>
    simp only [List.length_cons, readIndices, writeIndices, List.map_cons, List.append_assoc]
    rw [readIndex_append w _ _ (writeIndex_length w v), readIndex_writeIndex]
    rw [List.drop_left' (writeIndex_length w v), ih]

theorem readIndices_take (w n : Nat) (bytes : List Byte) (m : Nat) (h : n * w ≤ m) :
    readIndices w n (bytes.take m) = readIndices w n bytes := by
  induction n generalizing bytes m with
  | zero => rfl
  | succ n ih =>
    have h1 : w ≤ m := by nlinarith
    simp only [readIndices]
    rw [List.take_take, Nat.min_eq_left h1, List.drop_take, ih]
    have : (n+1) * w = n * w + w := by ring
    omega

theorem readIndices_append (w n : Nat) (a b : List Byte) (h : n * w ≤ a.length) :
    readIndices w n (a ++ b) = readIndices w n a := by
  rw [← readIndices_take w n (a ++ b) a.length h, List.take_left']
  rfl

theorem AdjustIndicesBaseT_eq (w : Nat) (indexData : List Byte) (n baseIndex : Nat) :
    AdjustIndicesBaseT w indexData n baseIndex
      = writeIndices w ((readIndices w n indexData).map (fun i => (i + baseIndex) % 256 ^ w))
          ++ indexData.drop (n * w) := by
  induction n generalizing indexData with
  | zero => simp [AdjustIndicesBaseT, readIndices, writeIndices]
  | succ n ih =>
    simp only [AdjustIndicesBaseT, readIndices, List.map_cons, writeIndices, ih,
      List.append_assoc, List.drop_drop]
    have : w + n * w = (n + 1) * w := by ring
    rw [this]


theorem readIndices_add (w k n : Nat) (a b : List Byte) (h : a.length = k * w) :
    readIndices w (k + n) (a ++ b) = readIndices w k a ++ readIndices w n b := by
  induction k generalizing a with
  | zero =>
    have : a = [] := by simpa using h
    subst this; simp [readIndices]
  | succ k ih =>
    have hw : w ≤ a.length := by rw [h]; nlinarith
    have e : k + 1 + n = (k + n) + 1 := by ring
    rw [e]
    simp only [readIndices]
    rw [List.take_append_of_le_length hw, List.drop_append_of_le_length hw, ih]
    · rfl
    · rw [List.length_drop, h]
      have : (k + 1) * w = k * w + w := by ring
      omega

theorem indexValues_append (w : Nat) (a b : List Byte) (hw : 0 < w) (h : a.length % w = 0) :
    indexValues w (a ++ b) = indexValues w a ++ indexValues w b := by
  unfold indexValues
  obtain ⟨k, hk⟩ := Nat.dvd_of_mod_eq_zero h
  have hk' : a.length = k * w := by rw [hk, mul_comm]
  have e1 : (a ++ b).length / w = k + b.length / w := by
    rw [List.length_append, hk', Nat.add_comm, Nat.add_mul_div_right _ _ hw, Nat.add_comm]
  have e2 : a.length / w = k := by rw [hk', Nat.mul_div_cancel _ hw]
  rw [e1, e2, readIndices_add w k _ a b hk']

theorem AdjustIndicesBase_eq (indexData : List Byte) (largeIndices : Bool) (baseIndex : Nat) :
    AdjustIndicesBase indexData largeIndices baseIndex
      = writeIndices (if largeIndices then 4 else 2)
          ((indexValues (if largeIndices then 4 else 2) indexData).map
            (fun i => (i + baseIndex) % 256 ^ (if largeIndices then 4 else 2)))
        ++ indexData.drop
            (indexData.length / (if largeIndices then 4 else 2)
              * (if largeIndices then 4 else 2)) := by
  cases largeIndices <;> simp [AdjustIndicesBase, AdjustIndicesBaseT_eq, indexValues]

theorem adjustRegion_append (a b : List Byte) (largeIndices : Bool) (baseIndex : Nat) :
    adjustRegion (a ++ b) ((a ++ b).length - b.length) b.length largeIndices baseIndex
      = a ++ AdjustIndicesBase b largeIndices baseIndex := by
  have e : (a ++ b).length - b.length = a.length := by simp
  unfold adjustRegion
  rw [e]
  simp

theorem ModelFactory.GetIndexSize_pos (f : ModelFactory) : 0 < f.GetIndexSize := by
  unfold ModelFactory.GetIndexSize; split <;> decide

theorem not_mem_take_indexOf (a : Material) (l : List Material) :
    ∀ j, j < l.indexOf a → l[j]? ≠ some a := by
  induction l with
  | nil => intro j hj; simp at hj
  | cons b l ih =>
    intro j hj
    by_cases hb : b = a
    · rw [List.indexOf_cons_eq l hb] at hj; omega
    · rw [List.indexOf_cons_ne l hb] at hj
      cases j with
      | zero => simpa using hb
      | succ j =>
        simp only [List.getElem?_cons_succ]
        exact ih j (by omega)

/-- C5: what `Initialize` clears and what it keeps.  The geometry groups and both cursors
are cleared for every factory, the material list is kept as it was; on `usedFactory`
(reached from a fresh factory by the call sequence of the first conjunct) the two material
slots survive, the result differs from a freshly initialised factory, and selecting the
second material again followed by a submission indexes `geometry_` out of bounds, where
the freshly initialised factory accepts the same two calls. -/
theorem Initialize_keeps_materials :
    (Option.map (fun f => f.AddGeometry 8 true)
        (((ModelFactory.fresh.Initialize (fun _ => 4) [] false).AddGeometry 7 true).AddPrimitives
          [1, 2, 3, 4] 1 [0, 0] 1 true)
      = some usedFactory)
    ∧ (∀ (vertexSizeOf : List VertexElement → Nat) (f : ModelFactory)
        (vertexElements : List VertexElement) (largeIndices : Bool),
        (f.Initialize vertexSizeOf vertexElements largeIndices).geometry_ = []
        ∧ (f.Initialize vertexSizeOf vertexElements largeIndices).currentGeometry_ = 0
        ∧ (f.Initialize vertexSizeOf vertexElements largeIndices).currentLevel_ = 0
        ∧ (f.Initialize vertexSizeOf vertexElements largeIndices).materials_ = f.materials_)
    ∧ (usedFactory.Initialize (fun _ => 4) [] false).materials_ = [7, 8]
    ∧ usedFactory.Initialize (fun _ => 4) [] false
        ≠ ModelFactory.fresh.Initialize (fun _ => 4) [] false
    ∧ ((usedFactory.Initialize (fun _ => 4) [] false).AddGeometry 8 true).AddPrimitives
        [1, 2, 3, 4] 1 [0, 0] 1 true = none
    ∧ (((ModelFactory.fresh.Initialize (fun _ => 4) [] false).AddGeometry 8 true).AddPrimitives
        [1, 2, 3, 4] 1 [0, 0] 1 true).isSome = true := by
  refine ⟨by decide, fun _ _ _ _ => ⟨rfl, rfl, rfl, rfl⟩, by decide, by decide, by decide,
    by decide⟩

/-- C6: `SetLevel 2` on a geometry without levels.  `AddEmpty` grows the level list by one
entry only, so afterwards the level cursor `2` is not below the number of levels `1`, the
group under the cursor does not exist, and `AddPrimitives` indexes out of bounds. -/
theorem AddEmpty_skipped_level :
    Option.map (fun f => (f.currentLevel_, f.GetNumGeometryLevels f.currentGeometry_))
        ((((ModelFactory.fresh.Initialize (fun _ => 4) [] false).AddGeometry 7 true).SetLevel
          2).AddEmpty)
      = some (2, 1)
    ∧ Option.map (fun f => f.group? f.currentGeometry_ f.currentLevel_)
        ((((ModelFactory.fresh.Initialize (fun _ => 4) [] false).AddGeometry 7 true).SetLevel
          2).AddEmpty)
      = some none
    ∧ (((ModelFactory.fresh.Initialize (fun _ => 4) [] false).AddGeometry 7 true).SetLevel
        2).AddPrimitives [1, 2, 3, 4] 1 [0, 0] 1 true = none := by
  refine ⟨by decide, by decide, by decide⟩

/-- C7: `AddGeometry` appends a material slot and an empty geometry entry and moves the
geometry cursor to the new last slot exactly when the handle is absent from the material
list or reuse is disallowed; otherwise both lists are unchanged and the cursor is the index
of the first slot holding the handle. -/
theorem AddGeometry_spec (f : ModelFactory) (material : Material) (allowReuse : Bool) :
    ((material ∉ f.materials_ ∨ allowReuse = false) ↔
        ((f.AddGeometry material allowReuse).materials_ = f.materials_ ++ [material]
          ∧ (f.AddGeometry material allowReuse).geometry_ = f.geometry_ ++ [[]]
          ∧ (f.AddGeometry material allowReuse).currentGeometry_ + 1
              = (f.AddGeometry material allowReuse).materials_.length))
    ∧ (¬ (material ∉ f.materials_ ∨ allowReuse = false) →
        (f.AddGeometry material allowReuse).materials_ = f.materials_
          ∧ (f.AddGeometry material allowReuse).geometry_ = f.geometry_
          ∧ (f.AddGeometry material allowReuse).currentGeometry_ < f.materials_.length
          ∧ f.materials_[(f.AddGeometry material allowReuse).currentGeometry_]? = some material
          ∧ ∀ j, j < (f.AddGeometry material allowReuse).currentGeometry_ →
              f.materials_[j]? ≠ some material)
    ∧ (f.AddGeometry material allowReuse).currentLevel_ = f.currentLevel_
    ∧ (f.AddGeometry material allowReuse).vertexSize_ = f.vertexSize_
    ∧ (f.AddGeometry material allowReuse).largeIndices_ = f.largeIndices_ := by
  have hiff : (f.materials_.indexOf material = f.materials_.length ∨ allowReuse = false)
      ↔ (material ∉ f.materials_ ∨ allowReuse = false) := by
    rw [List.indexOf_eq_length]
  by_cases hc : material ∉ f.materials_ ∨ allowReuse = false
  · have hc' := hiff.mpr hc
    have e : f.AddGeometry material allowReuse
        = { f with
            currentGeometry_ := f.materials_.length
            materials_ := f.materials_ ++ [material]
            geometry_ := f.geometry_ ++ [[]] } := by
      simp only [ModelFactory.AddGeometry, if_pos hc']
    rw [e]
    refine ⟨⟨fun _ => ⟨rfl, rfl, by simp⟩, fun _ => hc⟩, fun h => absurd hc h, rfl, rfl, rfl⟩
  · have hc' : ¬ (f.materials_.indexOf material = f.materials_.length ∨ allowReuse = false) :=
      fun h => hc (hiff.mp h)
    have e : f.AddGeometry material allowReuse
        = { f with currentGeometry_ := f.materials_.indexOf material } := by
      simp only [ModelFactory.AddGeometry, if_neg hc']
    have hmem : material ∈ f.materials_ := by
      by_contra hm; exact hc (Or.inl hm)
    rw [e]
    refine ⟨⟨fun h => absurd h hc, fun h => ?_⟩, fun _ => ⟨rfl, rfl, ?_, ?_, ?_⟩, rfl, rfl, rfl⟩
    · exfalso
      have h1 := congrArg List.length h.1
      simp at h1
    · exact List.indexOf_lt_length.mpr hmem
    · have hlt : f.materials_.indexOf material < f.materials_.length :=
        List.indexOf_lt_length.mpr hmem
      show f.materials_[f.materials_.indexOf material]? = some material
      rw [List.getElem?_eq_getElem hlt]
      simp
    · exact not_mem_take_indexOf material f.materials_

theorem ModelFactory.filterGeometry_eq (f : ModelFactory) :
    f.filterGeometry = f.geometry_.filter (fun levels => decide (levels.length > 0)) := by
  have key : ∀ (l acc : List (List ModelGeometryBuffer)),
      l.foldl (fun geometry levels =>
        if levels.length > 0 then geometry ++ [levels] else geometry) acc
        = acc ++ l.filter (fun levels => decide (levels.length > 0)) := by
    intro l
    induction l with
    | nil => intro acc; simp
    | cons x l ih =>
      intro acc
      simp only [List.foldl_cons, ih]
      by_cases hx : x.length > 0
      · simp [hx, List.filter_cons]
      · simp [hx, List.filter_cons]
  have := key f.geometry_ []
  simpa [ModelFactory.filterGeometry] using this

theorem AdjustIndicesBase_length (indexData : List Byte) (largeIndices : Bool)
    (baseIndex : Nat) :
    (AdjustIndicesBase indexData largeIndices baseIndex).length = indexData.length := by
  rw [AdjustIndicesBase_eq, List.length_append, writeIndices_length, List.length_map,
    List.length_drop]
  unfold indexValues
  rw [readIndices_length]
  have := Nat.div_mul_le_self indexData.length (if largeIndices = true then 4 else 2)
  omega

theorem indexValues_AdjustIndicesBase (indexData : List Byte) (largeIndices : Bool)
    (baseIndex : Nat) :
    indexValues (if largeIndices then 4 else 2)
        (AdjustIndicesBase indexData largeIndices baseIndex)
      = (indexValues (if largeIndices then 4 else 2) indexData).map
          (fun i => (i + baseIndex) % 256 ^ (if largeIndices then 4 else 2)) := by
  have hlen := AdjustIndicesBase_length indexData largeIndices baseIndex
  have hn : (indexValues (if largeIndices then 4 else 2) indexData).length
      = indexData.length / (if largeIndices then 4 else 2) := by
    unfold indexValues; rw [readIndices_length]
  conv_lhs => unfold indexValues
  rw [hlen, AdjustIndicesBase_eq]
  have := readIndices_writeIndices (if largeIndices then 4 else 2)
    ((indexValues (if largeIndices then 4 else 2) indexData).map
      (fun i => (i + baseIndex) % 256 ^ (if largeIndices then 4 else 2)))
    (indexData.drop (indexData.length / (if largeIndices then 4 else 2)
      * (if largeIndices then 4 else 2)))
  rw [List.length_map, hn] at this
  rw [this, List.map_map]
  apply List.map_congr_left
  intro i _
  simp

theorem ModelFactory.mergeGroup_eq (f : ModelFactory) (s : MergeState)
    (g : ModelGeometryBuffer) :
    f.mergeGroup s g
      = { vertexData := s.vertexData ++ g.vertexData
          indexData := s.indexData
            ++ AdjustIndicesBase g.indexData f.largeIndices_
                (s.vertexData.length / f.GetVertexSize)
          geometryIndexOffset := s.geometryIndexOffset ++ [s.indexData.length / f.GetIndexSize]
          geometryIndexCount := s.geometryIndexCount ++ [f.numIndicesOf g] } := by
  have e : (s.vertexData ++ g.vertexData).length - g.vertexData.length
      = s.vertexData.length := by simp
  simp only [ModelFactory.mergeGroup, adjustRegion_append, e, ModelFactory.numIndicesOf]

theorem ModelFactory.foldl_mergeGroup (f : ModelFactory) (gs : List ModelGeometryBuffer) :
    ∀ s : MergeState,
      (gs.foldl f.mergeGroup s).vertexData
          = s.vertexData ++ (gs.map (fun g => g.vertexData)).flatten
      ∧ (gs.foldl f.mergeGroup s).indexData
          = s.indexData ++ f.mergedIndexData s.vertexData.length gs
      ∧ (gs.foldl f.mergeGroup s).geometryIndexOffset
          = s.geometryIndexOffset ++ f.indexOffsets s.indexData.length gs
      ∧ (gs.foldl f.mergeGroup s).geometryIndexCount
          = s.geometryIndexCount ++ gs.map f.numIndicesOf := by
  induction gs with
  | nil => intro s; simp [ModelFactory.mergedIndexData, ModelFactory.indexOffsets]
  | cons g gs ih =>
    intro s
    obtain ⟨h1, h2, h3, h4⟩ := ih (f.mergeGroup s g)
    simp only [List.foldl_cons, h1, h2, h3, h4]
    rw [f.mergeGroup_eq]
    simp [ModelFactory.mergedIndexData, ModelFactory.indexOffsets, AdjustIndicesBase_length]

theorem ModelFactory.mergeAll_eq (f : ModelFactory) :
    f.mergeAll f.filterGeometry
      = { vertexData := (f.visitedGroups.map (fun g => g.vertexData)).flatten
          indexData := f.mergedIndexData 0 f.visitedGroups
          geometryIndexOffset := f.indexOffsets 0 f.visitedGroups
          geometryIndexCount := f.visitedGroups.map f.numIndicesOf } := by
  have h := f.foldl_mergeGroup f.visitedGroups ⟨[], [], [], []⟩
  have e : f.mergeAll f.filterGeometry = f.visitedGroups.foldl f.mergeGroup ⟨[], [], [], []⟩ := by
    unfold ModelFactory.mergeAll ModelFactory.visitedGroups
    rw [f.filterGeometry_eq, List.foldl_flatten]
  rw [e]
  obtain ⟨h1, h2, h3, h4⟩ := h
  cases hr : f.visitedGroups.foldl f.mergeGroup ⟨[], [], [], []⟩ with
  | mk vd id off cnt =>
    rw [hr] at h1 h2 h3 h4
    simp at h1 h2 h3 h4
    simp [h1, h2, h3, h4]

theorem setupLevels_eq (off cnt : List Nat) (levels : List ModelGeometryBuffer) :
    ∀ group, setupLevels off cnt levels group
      = ((List.range' group levels.length).map
          (fun k => (⟨off.getD k 0, cnt.getD k 0⟩ : Geometry)), group + levels.length) := by
  induction levels with
  | nil => intro group; simp [setupLevels]
  | cons g levels ih =>
    intro group
    simp only [setupLevels, ih, List.length_cons, List.range'_succ, List.map_cons]
    congr 1
    omega

theorem setupRanges_flatten (off cnt : List Nat) (geometry : List (List ModelGeometryBuffer)) :
    ∀ group, (setupRanges off cnt geometry group).flatten
      = (List.range' group geometry.flatten.length).map
          (fun k => (⟨off.getD k 0, cnt.getD k 0⟩ : Geometry)) := by
  induction geometry with
  | nil => intro group; simp [setupRanges]
  | cons levels geometry ih =>
    intro group
    simp only [setupRanges, setupLevels_eq, List.flatten_cons, ih, List.length_append]
    rw [← List.map_append]
    congr 1
    have := List.range'_append group levels.length geometry.flatten.length 1
    rw [Nat.one_mul] at this
    rw [this, Nat.add_comm]

theorem setupRanges_map_length (off cnt : List Nat)
    (geometry : List (List ModelGeometryBuffer)) :
    ∀ group, (setupRanges off cnt geometry group).map List.length
      = geometry.map List.length := by
  induction geometry with
  | nil => intro group; simp [setupRanges]
  | cons levels geometry ih =>
    intro group
    simp [setupRanges, setupLevels_eq, ih]

theorem ModelFactory.indexOffsets_length (f : ModelFactory) (gs : List ModelGeometryBuffer) :
    ∀ ib, (f.indexOffsets ib gs).length = gs.length := by
  induction gs with
  | nil => intro ib; rfl
  | cons g gs ih => intro ib; simp [ModelFactory.indexOffsets, ih]

theorem ModelFactory.indexOffsets_getElem? (f : ModelFactory)
    (gs : List ModelGeometryBuffer) :
    ∀ ib k, k < gs.length →
      (f.indexOffsets ib gs)[k]?
        = some ((ib + ((gs.take k).map (fun g => g.indexData.length)).sum) / f.GetIndexSize) := by
  induction gs with
  | nil => intro ib k hk; simp at hk
  | cons g gs ih =>
    intro ib k hk
    cases k with
    | zero => simp [ModelFactory.indexOffsets]
    | succ k =>
      simp only [ModelFactory.indexOffsets, List.getElem?_cons_succ, List.take_succ_cons,
        List.map_cons, List.sum_cons]
      rw [ih _ k (by simpa using hk), Nat.add_assoc]

theorem ModelFactory.mergedIndexData_length (f : ModelFactory)
    (gs : List ModelGeometryBuffer) :
    ∀ vb, (f.mergedIndexData vb gs).length = (gs.map (fun g => g.indexData.length)).sum := by
  induction gs with
  | nil => intro vb; rfl
  | cons g gs ih =>
    intro vb
    simp [ModelFactory.mergedIndexData, AdjustIndicesBase_length, ih]

theorem sum_div_of_aligned (w : Nat) (l : List Nat) (h : ∀ x ∈ l, x % w = 0) :
    l.sum % w = 0 ∧ l.sum / w = (l.map (fun x => x / w)).sum := by
  induction l with
  | nil => simp
  | cons x l ih =>
    obtain ⟨ih1, ih2⟩ := ih (fun y hy => h y (List.mem_cons_of_mem _ hy))
    have hx : x % w = 0 := h x (List.mem_cons_self _ _)
    simp only [List.sum_cons, List.map_cons]
    constructor
    · rw [Nat.add_mod, hx, ih1]; simp
    · rw [Nat.add_div_of_dvd_right (Nat.dvd_of_mod_eq_zero hx), ih2]

theorem ModelFactory.BuildModel_eq (f : ModelFactory) (hs : 0 < f.GetVertexSize) :
    f.BuildModel = some
      { geometries := setupRanges (f.indexOffsets 0 f.visitedGroups)
          (f.visitedGroups.map f.numIndicesOf) f.filterGeometry 0
        vertexCount := (f.visitedGroups.map (fun g => g.vertexData)).flatten.length
          / f.GetVertexSize
        vertexData := (f.visitedGroups.map (fun g => g.vertexData)).flatten.take
          ((f.visitedGroups.map (fun g => g.vertexData)).flatten.length
            / f.GetVertexSize * f.GetVertexSize)
        indexCount := (f.mergedIndexData 0 f.visitedGroups).length / f.GetIndexSize
        indexData := (f.mergedIndexData 0 f.visitedGroups).take
          ((f.mergedIndexData 0 f.visitedGroups).length / f.GetIndexSize * f.GetIndexSize) } := by
  have h0 : f.GetVertexSize ≠ 0 := by omega
  simp only [ModelFactory.BuildModel, if_neg h0, f.mergeAll_eq]

theorem ModelFactory.visitedGroups_eq (f : ModelFactory) :
    f.visitedGroups = f.filterGeometry.flatten := by
  rw [f.filterGeometry_eq]; rfl

theorem sum_take_le_of_le (l : List Nat) (a b : Nat) (h : a ≤ b) :
    (l.take a).sum ≤ (l.take b).sum := by
  have h1 := List.sum_take_add_sum_drop (l.take b) a
  rw [List.take_take, Nat.min_eq_left h] at h1
  omega

/-- C2: draw ranges of `BuildModel`.  The groups are visited by geometry (those with at
least one LOD level) and ascending level; the range of the k-th visited group starts at the
sum of the index counts of the groups visited before it and has the group's own index
count, so that ranges of distinct groups do not overlap, each range starts where the
previous one ends, and together they cover the `indexCount` indices of the merged index
buffer. -/
theorem BuildModel_drawRanges (f : ModelFactory) (hs : 0 < f.GetVertexSize)
    (hal : ∀ g ∈ f.visitedGroups, g.indexData.length % f.GetIndexSize = 0) :
    ∃ m, f.BuildModel = some m
      ∧ m.geometries.map List.length
          = (f.geometry_.filter (fun levels => decide (levels.length > 0))).map List.length
      ∧ m.geometries.flatten.length = f.visitedGroups.length
      ∧ (∀ (k : Nat) (g : ModelGeometryBuffer), f.visitedGroups[k]? = some g →
          m.geometries.flatten[k]?
            = some (Geometry.mk ((f.visitedGroups.take k).map f.numIndicesOf).sum
                (f.numIndicesOf g)))
      ∧ (∀ (k l : Nat) (a b : Geometry), k < l → m.geometries.flatten[k]? = some a →
          m.geometries.flatten[l]? = some b → a.indexStart + a.indexCount ≤ b.indexStart)
      ∧ (∀ (k : Nat) (a b : Geometry), m.geometries.flatten[k]? = some a →
          m.geometries.flatten[k + 1]? = some b →
          b.indexStart = a.indexStart + a.indexCount)
      ∧ (∀ a : Geometry, m.geometries.flatten[0]? = some a → a.indexStart = 0)
      ∧ m.indexCount = (f.visitedGroups.map f.numIndicesOf).sum
      ∧ m.indexData.length = m.indexCount * f.GetIndexSize := by
  have hw := f.GetIndexSize_pos
  refine ⟨_, f.BuildModel_eq hs, ?_, ?_, ?_⟩
  · rw [setupRanges_map_length, f.filterGeometry_eq]
  · rw [setupRanges_flatten, List.length_map, List.length_range', ← f.visitedGroups_eq]
  -- the range of the k-th visited group
  have hk : ∀ (k : Nat) (g : ModelGeometryBuffer), f.visitedGroups[k]? = some g →
      (setupRanges (f.indexOffsets 0 f.visitedGroups) (f.visitedGroups.map f.numIndicesOf)
          f.filterGeometry 0).flatten[k]?
        = some (Geometry.mk ((f.visitedGroups.take k).map f.numIndicesOf).sum
            (f.numIndicesOf g)) := by
    intro k g hg
    have hlt : k < f.visitedGroups.length := (List.getElem?_eq_some_iff.mp hg).1
    rw [setupRanges_flatten, ← f.visitedGroups_eq, List.getElem?_map,
      List.getElem?_range' _ _ hlt]
    simp only [Option.map_some', Nat.zero_add, Nat.one_mul, List.getD_eq_getElem?_getD,
      f.indexOffsets_getElem? _ 0 k hlt, List.getElem?_map, hg, Option.getD_some]
    have hal' : ∀ x ∈ (f.visitedGroups.take k).map (fun g => g.indexData.length),
        x % f.GetIndexSize = 0 := by
      intro x hx
      obtain ⟨g', hg', rfl⟩ := List.mem_map.mp hx
      exact hal g' (List.mem_of_mem_take hg')
    rw [(sum_div_of_aligned _ _ hal').2, List.map_map]
    rfl
  have hfl : ∀ (k : Nat) (a : Geometry),
      (setupRanges (f.indexOffsets 0 f.visitedGroups) (f.visitedGroups.map f.numIndicesOf)
          f.filterGeometry 0).flatten[k]? = some a →
      k < f.visitedGroups.length
        ∧ a.indexStart = ((f.visitedGroups.take k).map f.numIndicesOf).sum
        ∧ a.indexStart + a.indexCount = ((f.visitedGroups.take (k + 1)).map f.numIndicesOf).sum := by
    intro k a ha
    have hlt : k < f.visitedGroups.length := by
      have := (List.getElem?_eq_some_iff.mp ha).1
      rwa [setupRanges_flatten, List.length_map, List.length_range', ← f.visitedGroups_eq]
        at this
    have hg : f.visitedGroups[k]? = some (f.visitedGroups[k]) := List.getElem?_eq_getElem hlt
    have := hk k _ hg
    rw [ha] at this
    injection this with this
    subst this
    refine ⟨hlt, rfl, ?_⟩
    rw [List.map_take, List.map_take,
      List.sum_take_succ _ k (by simpa using hlt)]
    simp
  have hal' : ∀ x ∈ f.visitedGroups.map (fun g => g.indexData.length),
      x % f.GetIndexSize = 0 := by
    intro x hx
    obtain ⟨g', hg', rfl⟩ := List.mem_map.mp hx
    exact hal g' hg'
  refine ⟨hk, ?_, ?_, ?_, ?_, ?_⟩
  · intro k l a b hkl ha hb
    obtain ⟨_, _, ha2⟩ := hfl k a ha
    obtain ⟨_, hb1, _⟩ := hfl l b hb
    rw [ha2, hb1, List.map_take, List.map_take]
    exact sum_take_le_of_le _ _ _ hkl
  · intro k a b ha hb
    obtain ⟨_, _, ha2⟩ := hfl k a ha
    obtain ⟨_, hb1, _⟩ := hfl (k + 1) b hb
    rw [ha2, hb1]
  · intro a ha
    obtain ⟨_, ha1, _⟩ := hfl 0 a ha
    simpa using ha1
  · show (f.mergedIndexData 0 f.visitedGroups).length / f.GetIndexSize = _
    rw [f.mergedIndexData_length, (sum_div_of_aligned _ _ hal').2, List.map_map]
    rfl
  · show ((f.mergedIndexData 0 f.visitedGroups).take _).length = _
    rw [List.length_take]
    exact Nat.min_eq_left (Nat.div_mul_le_self _ _)

/-- Witness of C2 on `mergeFactory`: the merged index buffer holds five indices. -/
theorem BuildModel_drawRanges_witness :
    ∃ m, mergeFactory.BuildModel = some m
      ∧ m.geometries.flatten[1]? = some (Geometry.mk 3 2)
      ∧ m.indexCount = 5 := by
  obtain ⟨m, h1, _, _, h4, _, _, _, h8, _⟩ :=
    BuildModel_drawRanges mergeFactory (by decide) (by decide)
  exact ⟨m, h1, h4 1 ⟨[9, 9, 9, 9], [0, 0, 0, 0]⟩ (by decide), h8⟩

/-- C8: the model of `BuildModel` has one geometry per factory entry with at least one
LOD level, in the original relative order and with the entry's number of levels; entries
without levels contribute nothing: every factory with the same stride and index width
whose entries with levels are the same, in the same order, builds the same model. -/
theorem BuildModel_drops_empty (f : ModelFactory) (hs : 0 < f.GetVertexSize) :
    ∃ m, f.BuildModel = some m
      ∧ m.geometries.length
          = (f.geometry_.filter (fun levels => decide (levels.length > 0))).length
      ∧ m.geometries.map List.length
          = (f.geometry_.filter (fun levels => decide (levels.length > 0))).map List.length
      ∧ (∀ levels ∈ m.geometries, 0 < levels.length)
      ∧ (∀ f1 : ModelFactory, f1.vertexSize_ = f.vertexSize_ →
          f1.largeIndices_ = f.largeIndices_ →
          f1.geometry_.filter (fun levels => decide (levels.length > 0))
            = f.geometry_.filter (fun levels => decide (levels.length > 0)) →
          f1.BuildModel = some m) := by
  have hmap : (setupRanges (f.indexOffsets 0 f.visitedGroups)
      (f.visitedGroups.map f.numIndicesOf) f.filterGeometry 0).map List.length
        = (f.geometry_.filter (fun levels => decide (levels.length > 0))).map List.length := by
    rw [setupRanges_map_length, f.filterGeometry_eq]
  refine ⟨_, f.BuildModel_eq hs, ?_, hmap, ?_, ?_⟩
  · have := congrArg List.length hmap
    simpa using this
  · intro levels hl
    have h1 : levels.length ∈ (setupRanges (f.indexOffsets 0 f.visitedGroups)
        (f.visitedGroups.map f.numIndicesOf) f.filterGeometry 0).map List.length :=
      List.mem_map_of_mem _ hl
    rw [hmap] at h1
    obtain ⟨l0, hl0, e⟩ := List.mem_map.mp h1
    have := (List.mem_filter.mp hl0).2
    rw [← e]
    simpa using this
  · intro f1 hv hl hgeo
    have e1 : f1.GetVertexSize = f.GetVertexSize := hv
    have e2 : f1.GetIndexSize = f.GetIndexSize := by
      unfold ModelFactory.GetIndexSize; rw [hl]
    have e3 : f1.filterGeometry = f.filterGeometry := by
      rw [f1.filterGeometry_eq, f.filterGeometry_eq, hgeo]
    have e4 : f1.mergeGroup = f.mergeGroup := by
      funext s g
      simp only [ModelFactory.mergeGroup, e1, e2, hl]
    have e5 : f1.mergeAll = f.mergeAll := by
      funext geometry
      simp only [ModelFactory.mergeAll, e4]
    rw [← f.BuildModel_eq hs]
    simp only [ModelFactory.BuildModel, e1, e2, e3, e5]

/-- Witness of C8 on `mergeFactory`: two geometries of one level each are built. -/
theorem BuildModel_drops_empty_witness :
    ∃ m, mergeFactory.BuildModel = some m
      ∧ m.geometries.length = 2
      ∧ m.geometries.map List.length = [1, 1] := by
  obtain ⟨m, h1, h2, h3, _⟩ := BuildModel_drops_empty mergeFactory (by decide)
  exact ⟨m, h1, h2, h3⟩

theorem take_div_mul_of_aligned (w : Nat) (l : List Byte) (h : l.length % w = 0) :
    l.take (l.length / w * w) = l := by
  have : l.length / w * w = l.length := Nat.div_mul_cancel (Nat.dvd_of_mod_eq_zero h)
  rw [this, List.take_length]

theorem ModelFactory.mergedIndexData_values_lt (f : ModelFactory)
    (gs : List ModelGeometryBuffer)
    (hal : ∀ g ∈ gs, g.indexData.length % f.GetIndexSize = 0)
    (hidx : ∀ g ∈ gs, ∀ i ∈ indexValues f.GetIndexSize g.indexData, i < f.numVerticesOf g) :
    ∀ vb,
      (vb + (gs.map (fun g => g.vertexData.length)).sum) / f.GetVertexSize
        ≤ 256 ^ f.GetIndexSize →
      ∀ j ∈ indexValues f.GetIndexSize (f.mergedIndexData vb gs),
        j < (vb + (gs.map (fun g => g.vertexData.length)).sum) / f.GetVertexSize := by
  have hw := f.GetIndexSize_pos
  induction gs with
  | nil => intro vb _ j hj; simp [ModelFactory.mergedIndexData, indexValues, readIndices] at hj
  | cons g gs ih =>
    intro vb hfit j hj
    have hg : g.indexData.length % f.GetIndexSize = 0 := hal g (List.mem_cons_self _ _)
    have hlen : (AdjustIndicesBase g.indexData f.largeIndices_ (vb / f.GetVertexSize)).length
        % f.GetIndexSize = 0 := by
      rw [AdjustIndicesBase_length]; exact hg
    simp only [List.map_cons, List.sum_cons] at hfit ⊢
    rw [← Nat.add_assoc] at hfit ⊢
    simp only [ModelFactory.mergedIndexData] at hj
    rw [indexValues_append _ _ _ hw hlen, List.mem_append] at hj
    have hmono : (vb + g.vertexData.length) / f.GetVertexSize
        ≤ (vb + g.vertexData.length + (gs.map (fun g => g.vertexData.length)).sum)
            / f.GetVertexSize :=
      Nat.div_le_div_right (Nat.le_add_right _ _)
    rcases hj with hj | hj
    · have hv := indexValues_AdjustIndicesBase g.indexData f.largeIndices_
        (vb / f.GetVertexSize)
      change indexValues f.GetIndexSize _ = (indexValues f.GetIndexSize _).map
        (fun i => (i + vb / f.GetVertexSize) % 256 ^ f.GetIndexSize) at hv
      rw [hv] at hj
      obtain ⟨i, hi, rfl⟩ := List.mem_map.mp hj
      have h1 : i < f.numVerticesOf g := hidx g (List.mem_cons_self _ _) i hi
      unfold ModelFactory.numVerticesOf at h1
      have h2 := Nat.add_div_le_add_div vb g.vertexData.length f.GetVertexSize
      have h3 : i + vb / f.GetVertexSize < 256 ^ f.GetIndexSize := by omega
      rw [Nat.mod_eq_of_lt h3]
      omega
    · exact ih (fun g' hg' => hal g' (List.mem_cons_of_mem _ hg'))
        (fun g' hg' => hidx g' (List.mem_cons_of_mem _ hg')) _ hfit j hj

/-- C3: when every group's stored indices are below the group's vertex count and the
total vertex count does not exceed the range of the index type, every index of the merged
index buffer of `BuildModel` is below the vertex count of the merged vertex buffer. -/
theorem BuildModel_indices_in_range (f : ModelFactory) (hs : 0 < f.GetVertexSize)
    (hal : ∀ g ∈ f.visitedGroups, g.indexData.length % f.GetIndexSize = 0)
    (hidx : ∀ g ∈ f.visitedGroups, ∀ i ∈ indexValues f.GetIndexSize g.indexData,
      i < f.numVerticesOf g)
    (hfit : (f.visitedGroups.map (fun g => g.vertexData.length)).sum / f.GetVertexSize
      ≤ 256 ^ f.GetIndexSize) :
    ∃ m, f.BuildModel = some m
      ∧ m.vertexCount
          = (f.visitedGroups.map (fun g => g.vertexData.length)).sum / f.GetVertexSize
      ∧ m.indexData.length = m.indexCount * f.GetIndexSize
      ∧ ∀ i ∈ indexValues f.GetIndexSize m.indexData, i < m.vertexCount := by
  have hflat : (f.visitedGroups.map (fun g => g.vertexData)).flatten.length
      = (f.visitedGroups.map (fun g => g.vertexData.length)).sum := by
    rw [List.length_flatten, List.map_map]; rfl
  have hal' : ∀ x ∈ f.visitedGroups.map (fun g => g.indexData.length),
      x % f.GetIndexSize = 0 := by
    intro x hx
    obtain ⟨g', hg', rfl⟩ := List.mem_map.mp hx
    exact hal g' hg'
  have hmlen : (f.mergedIndexData 0 f.visitedGroups).length % f.GetIndexSize = 0 := by
    rw [f.mergedIndexData_length]; exact (sum_div_of_aligned _ _ hal').1
  refine ⟨_, f.BuildModel_eq hs, ?_, ?_, ?_⟩
  · show _ / _ = _
    rw [hflat]
  · show ((f.mergedIndexData 0 f.visitedGroups).take _).length = _
    rw [List.length_take]
    exact Nat.min_eq_left (Nat.div_mul_le_self _ _)
  · intro i hi
    change i ∈ indexValues f.GetIndexSize ((f.mergedIndexData 0 f.visitedGroups).take _) at hi
    rw [take_div_mul_of_aligned _ _ hmlen] at hi
    show i < _ / _
    rw [hflat]
    have := f.mergedIndexData_values_lt f.visitedGroups hal hidx 0 (by simpa using hfit) i hi
    simpa using this

/-- Witness of C3 on `mergeFactory`: three merged vertices, all five indices below 3. -/
theorem BuildModel_indices_in_range_witness :
    ∃ m, mergeFactory.BuildModel = some m
      ∧ m.vertexCount = 3
      ∧ ∀ i ∈ indexValues 2 m.indexData, i < m.vertexCount := by
  obtain ⟨m, h1, h2, _, h4⟩ :=
    BuildModel_indices_in_range mergeFactory (by decide) (by decide) (by decide) (by decide)
  exact ⟨m, h1, h2, h4⟩

theorem readIndex_lt (w : Nat) : ∀ bytes : List Byte, readIndex w bytes < 256 ^ w := by
  induction w with
  | zero => intro bytes; simp [readIndex]
  | succ w ih =>
    intro bytes
    cases bytes with
    | nil => simp [readIndex]
    | cons b bs =>
      simp only [readIndex]
      have h1 := ih bs
      have h2 := b.isLt
      rw [pow_succ]
      omega

theorem readIndices_lt (w : Nat) : ∀ (n : Nat) (bytes : List Byte),
    ∀ i ∈ readIndices w n bytes, i < 256 ^ w := by
  intro n
  induction n with
  | zero => intro bytes i hi; simp [readIndices] at hi
  | succ n ih =>
    intro bytes i hi
    simp only [readIndices, List.mem_cons] at hi
    rcases hi with rfl | hi
    · exact readIndex_lt w _
    · exact ih _ i hi

theorem subtractBase_add (w base i : Nat) (hi : i < 256 ^ w) :
    subtractBase w base ((i + base) % 256 ^ w) = i := by
  unfold subtractBase
  have hM : 0 < 256 ^ w := Nat.pos_of_ne_zero (by positivity)
  have hb : base % 256 ^ w < 256 ^ w := Nat.mod_lt _ hM
  rw [Nat.mod_add_mod, Nat.add_assoc]
  have e : base + (256 ^ w - base % 256 ^ w)
      = 256 ^ w * (base / 256 ^ w + 1) := by
    have := Nat.div_add_mod base (256 ^ w)
    rw [Nat.mul_add, Nat.mul_one]
    omega
  rw [e, Nat.add_mul_mod_self_left, Nat.mod_eq_of_lt hi]

theorem flatten_slice {α : Type} (L : List (List α)) :
    ∀ (k : Nat) (l : List α), L[k]? = some l →
      (L.flatten.drop ((L.take k).map List.length).sum).take l.length = l := by
  induction L with
  | nil => intro k l h; simp at h
  | cons x L ih =>
    intro k l h
    cases k with
    | zero =>
      simp only [List.getElem?_cons_zero, Option.some.injEq] at h
      subst h
      simp
    | succ k =>
      simp only [List.getElem?_cons_succ] at h
      simp only [List.take_succ_cons, List.map_cons, List.sum_cons, List.flatten_cons]
      rw [List.drop_append_eq_append_drop]
      have h1 : x.length + ((L.take k).map List.length).sum - x.length
          = ((L.take k).map List.length).sum := by omega
      rw [List.drop_of_length_le (by omega), h1, List.nil_append]
      exact ih k l h

theorem ModelFactory.mergedIndexData_slice (f : ModelFactory)
    (gs : List ModelGeometryBuffer) :
    ∀ (vb k : Nat) (g : ModelGeometryBuffer), gs[k]? = some g →
      ((f.mergedIndexData vb gs).drop ((gs.take k).map (fun g => g.indexData.length)).sum).take
          g.indexData.length
        = AdjustIndicesBase g.indexData f.largeIndices_
            ((vb + ((gs.take k).map (fun g => g.vertexData.length)).sum) / f.GetVertexSize) := by
  induction gs with
  | nil => intro vb k g h; simp at h
  | cons x gs ih =>
    intro vb k g h
    cases k with
    | zero =>
      simp only [List.getElem?_cons_zero, Option.some.injEq] at h
      subst h
      simp only [List.take_zero, List.map_nil, List.sum_nil, List.drop_zero, Nat.add_zero,
        ModelFactory.mergedIndexData]
      rw [List.take_left' (AdjustIndicesBase_length _ _ _)]
    | succ k =>
      simp only [List.getElem?_cons_succ] at h
      simp only [List.take_succ_cons, List.map_cons, List.sum_cons,
        ModelFactory.mergedIndexData]
      rw [List.drop_append_eq_append_drop, AdjustIndicesBase_length]
      have h1 : x.indexData.length + ((gs.take k).map (fun g => g.indexData.length)).sum
          - x.indexData.length = ((gs.take k).map (fun g => g.indexData.length)).sum := by
        omega
      rw [List.drop_of_length_le (by rw [AdjustIndicesBase_length]; omega), h1,
        List.nil_append, ih _ k g h, Nat.add_assoc]

theorem ModelFactory.BuildModel_slices (f : ModelFactory) (hs : 0 < f.GetVertexSize)
    (hal : ∀ g ∈ f.visitedGroups, g.indexData.length % f.GetIndexSize = 0)
    (halv : ∀ g ∈ f.visitedGroups, g.vertexData.length % f.GetVertexSize = 0) :
    ∃ m, f.BuildModel = some m
      ∧ ∀ (k : Nat) (g : ModelGeometryBuffer), f.visitedGroups[k]? = some g →
          f.vertexSlice m k g = g.vertexData
          ∧ f.indexSlice m k g
              = (indexValues f.GetIndexSize g.indexData).map
                  (fun i => (i + f.verticesBefore k) % 256 ^ f.GetIndexSize)
          ∧ (f.indexSlice m k g).map (subtractBase f.GetIndexSize (f.verticesBefore k))
              = indexValues f.GetIndexSize g.indexData := by
  have hflat : (f.visitedGroups.map (fun g => g.vertexData)).flatten.length
      = (f.visitedGroups.map (fun g => g.vertexData.length)).sum := by
    rw [List.length_flatten, List.map_map]; rfl
  have hal' : ∀ x ∈ f.visitedGroups.map (fun g => g.indexData.length),
      x % f.GetIndexSize = 0 := by
    intro x hx
    obtain ⟨g', hg', rfl⟩ := List.mem_map.mp hx
    exact hal g' hg'
  have halv' : ∀ x ∈ f.visitedGroups.map (fun g => g.vertexData.length),
      x % f.GetVertexSize = 0 := by
    intro x hx
    obtain ⟨g', hg', rfl⟩ := List.mem_map.mp hx
    exact halv g' hg'
  have hmlen : (f.mergedIndexData 0 f.visitedGroups).length % f.GetIndexSize = 0 := by
    rw [f.mergedIndexData_length]; exact (sum_div_of_aligned _ _ hal').1
  have hvlen : (f.visitedGroups.map (fun g => g.vertexData)).flatten.length
      % f.GetVertexSize = 0 := by
    rw [hflat]; exact (sum_div_of_aligned _ _ halv').1
  refine ⟨_, f.BuildModel_eq hs, ?_⟩
  intro k g hg
  have hshift : f.indexSlice
      { geometries := setupRanges (f.indexOffsets 0 f.visitedGroups)
          (f.visitedGroups.map f.numIndicesOf) f.filterGeometry 0
        vertexCount := (f.visitedGroups.map (fun g => g.vertexData)).flatten.length
          / f.GetVertexSize
        vertexData := (f.visitedGroups.map (fun g => g.vertexData)).flatten.take
          ((f.visitedGroups.map (fun g => g.vertexData)).flatten.length
            / f.GetVertexSize * f.GetVertexSize)
        indexCount := (f.mergedIndexData 0 f.visitedGroups).length / f.GetIndexSize
        indexData := (f.mergedIndexData 0 f.visitedGroups).take
          ((f.mergedIndexData 0 f.visitedGroups).length / f.GetIndexSize * f.GetIndexSize) }
      k g
      = (indexValues f.GetIndexSize g.indexData).map
          (fun i => (i + f.verticesBefore k) % 256 ^ f.GetIndexSize) := by
    simp only [ModelFactory.indexSlice, ModelFactory.indexBytesBefore]
    rw [take_div_mul_of_aligned _ _ hmlen, f.mergedIndexData_slice _ 0 k g hg]
    have hv := indexValues_AdjustIndicesBase g.indexData f.largeIndices_
      ((0 + ((f.visitedGroups.take k).map (fun g => g.vertexData.length)).sum)
        / f.GetVertexSize)
    change indexValues f.GetIndexSize _ = (indexValues f.GetIndexSize _).map
      (fun i => (i + _) % 256 ^ f.GetIndexSize) at hv
    rw [hv]
    have hpre : ∀ x ∈ (f.visitedGroups.take k).map (fun g => g.vertexData.length),
        x % f.GetVertexSize = 0 := by
      intro x hx
      obtain ⟨g', hg', rfl⟩ := List.mem_map.mp hx
      exact halv g' (List.mem_of_mem_take hg')
    have hbase : (0 + ((f.visitedGroups.take k).map (fun g => g.vertexData.length)).sum)
        / f.GetVertexSize = f.verticesBefore k := by
      rw [Nat.zero_add, (sum_div_of_aligned _ _ hpre).2, List.map_map]
      rfl
    rw [hbase]
  refine ⟨?_, hshift, ?_⟩
  · simp only [ModelFactory.vertexSlice, ModelFactory.vertexBytesBefore]
    rw [take_div_mul_of_aligned _ _ hvlen]
    have h1 : (f.visitedGroups.map (fun g => g.vertexData))[k]? = some g.vertexData := by
      rw [List.getElem?_map, hg]; rfl
    have h2 := flatten_slice (f.visitedGroups.map (fun g => g.vertexData)) k g.vertexData h1
    rw [← List.map_take, List.map_map] at h2
    exact h2
  · rw [hshift, List.map_map]
    conv_rhs => rw [← List.map_id (indexValues f.GetIndexSize g.indexData)]
    apply List.map_congr_left
    intro i hi
    simp only [Function.comp, id]
    exact subtractBase_add _ _ _ (readIndices_lt _ _ _ i hi)

/-- C4: for every group merged by `BuildModel`, its slice of the merged vertex buffer is
the group's own vertex bytes and its slice of the merged index buffer is the group's own
indices raised by the number of vertices merged before it, so that subtracting that number
gives back the group's indices; hence a group has the same vertex slice and the same
base-relative indices in every factory that holds it, whatever its position in the
visiting order. -/
theorem BuildModel_group_contents (f : ModelFactory) (hs : 0 < f.GetVertexSize)
    (hal : ∀ g ∈ f.visitedGroups, g.indexData.length % f.GetIndexSize = 0)
    (halv : ∀ g ∈ f.visitedGroups, g.vertexData.length % f.GetVertexSize = 0) :
    ∃ m, f.BuildModel = some m
      ∧ (∀ (k : Nat) (g : ModelGeometryBuffer), f.visitedGroups[k]? = some g →
          f.vertexSlice m k g = g.vertexData
          ∧ f.indexSlice m k g
              = (indexValues f.GetIndexSize g.indexData).map
                  (fun i => (i + f.verticesBefore k) % 256 ^ f.GetIndexSize)
          ∧ (f.indexSlice m k g).map (subtractBase f.GetIndexSize (f.verticesBefore k))
              = indexValues f.GetIndexSize g.indexData)
      ∧ (∀ f2 : ModelFactory, f2.vertexSize_ = f.vertexSize_ →
          f2.largeIndices_ = f.largeIndices_ →
          (∀ g ∈ f2.visitedGroups, g.indexData.length % f2.GetIndexSize = 0) →
          (∀ g ∈ f2.visitedGroups, g.vertexData.length % f2.GetVertexSize = 0) →
          ∃ m2, f2.BuildModel = some m2
            ∧ ∀ (k k2 : Nat) (g : ModelGeometryBuffer), f.visitedGroups[k]? = some g →
                f2.visitedGroups[k2]? = some g →
                f2.vertexSlice m2 k2 g = f.vertexSlice m k g
                ∧ (f2.indexSlice m2 k2 g).map
                      (subtractBase f2.GetIndexSize (f2.verticesBefore k2))
                    = (f.indexSlice m k g).map
                      (subtractBase f.GetIndexSize (f.verticesBefore k))) := by
  obtain ⟨m, hm, hsl⟩ := f.BuildModel_slices hs hal halv
  refine ⟨m, hm, hsl, ?_⟩
  intro f2 hv hl hal2 halv2
  have hs2 : 0 < f2.GetVertexSize := by
    have : f2.GetVertexSize = f.GetVertexSize := hv
    omega
  have e2 : f2.GetIndexSize = f.GetIndexSize := by
    unfold ModelFactory.GetIndexSize; rw [hl]
  obtain ⟨m2, hm2, hsl2⟩ := f2.BuildModel_slices hs2 hal2 halv2
  refine ⟨m2, hm2, ?_⟩
  intro k k2 g hg hg2
  obtain ⟨a1, _, a3⟩ := hsl k g hg
  obtain ⟨b1, _, b3⟩ := hsl2 k2 g hg2
  rw [a1, b1, a3, b3, e2]
  exact ⟨rfl, rfl⟩

/-- Witness of C4 on `mergeFactory` and `swappedFactory`: the one-vertex group is the
second group of the first and the first group of the second, with the same contents. -/
theorem BuildModel_group_contents_witness :
    ∃ m m2, mergeFactory.BuildModel = some m ∧ swappedFactory.BuildModel = some m2
      ∧ mergeFactory.vertexSlice m 1 ⟨[9, 9, 9, 9], [0, 0, 0, 0]⟩ = [9, 9, 9, 9]
      ∧ mergeFactory.indexSlice m 1 ⟨[9, 9, 9, 9], [0, 0, 0, 0]⟩ = [2, 2]
      ∧ swappedFactory.vertexSlice m2 0 ⟨[9, 9, 9, 9], [0, 0, 0, 0]⟩
          = mergeFactory.vertexSlice m 1 ⟨[9, 9, 9, 9], [0, 0, 0, 0]⟩ := by
  obtain ⟨m, h1, h2, h3⟩ :=
    BuildModel_group_contents mergeFactory (by decide) (by decide) (by decide)
  obtain ⟨m2, h4, h5⟩ := h3 swappedFactory rfl rfl (by decide) (by decide)
  obtain ⟨a1, a2, _⟩ := h2 1 ⟨[9, 9, 9, 9], [0, 0, 0, 0]⟩ (by decide)
  exact ⟨m, m2, h1, h4, a1, a2,
    (h5 1 0 ⟨[9, 9, 9, 9], [0, 0, 0, 0]⟩ (by decide) (by decide)).1⟩

/-! ## Theorems: signed distance field -/

theorem emod_unique (x r q : Int) (w : Int) (h : x = r + w * q) (h0 : 0 ≤ r) (h1 : r < w) :
    x % w = r := by
  rw [h, Int.add_mul_emod_self_left, Int.emod_eq_of_lt h0 h1]

theorem neg_lt_tmod (x : Int) (w : Nat) (hw : 0 < w) : -(w : Int) < x.tmod w := by
  cases x with
  | ofNat n =>
    have : 0 ≤ (Int.ofNat n).tmod w := Int.tmod_nonneg _ (Int.ofNat_nonneg n)
    have hw' : (0 : Int) < w := by exact_mod_cast hw
    omega
  | negSucc n =>
    have e : (Int.negSucc n).tmod (w : Int) = -(((n + 1) % w : Nat) : Int) := rfl
    rw [e]
    have := Nat.mod_lt (n + 1) hw
    omega

theorem wrap_eq_emod (x : Int) (w : Nat) (hw : 0 < w) :
    (if x.tmod w < 0 then x.tmod w + w else x.tmod w) = x % (w : Int) := by
  have hw' : (0 : Int) < w := by exact_mod_cast hw
  have h1 := Int.tmod_add_tdiv x w
  have h2 := Int.tmod_lt_of_pos x hw'
  have h3 := neg_lt_tmod x w hw
  by_cases hneg : x.tmod w < 0
  · rw [if_pos hneg]
    symm
    apply emod_unique x _ (x.tdiv w - 1) w _ (by omega) (by omega)
    rw [Int.mul_sub, Int.mul_one]
    omega
  · rw [if_neg hneg]
    symm
    exact emod_unique x _ (x.tdiv w) w (by omega) (by omega) h2

theorem wrapCoord_lt (n : Nat) (x : Int) (hn : 0 < n) : wrapCoord n x < n := by
  unfold wrapCoord
  have hn' : (0 : Int) < n := by exact_mod_cast hn
  have h1 := Int.emod_lt_of_pos x hn'
  have h2 := Int.emod_nonneg x (Int.ne_of_gt hn')
  omega

theorem wrapCoord_cast (n : Nat) (x : Int) (hn : 0 < n) : ((wrapCoord n x : Nat) : Int) = x % n := by
  unfold wrapCoord
  have hn' : (0 : Int) < n := by exact_mod_cast hn
  exact Int.toNat_of_nonneg (Int.emod_nonneg x (Int.ne_of_gt hn'))

theorem wrapCoord_of_lt (n a : Nat) (h : a < n) : wrapCoord n (a : Int) = a := by
  unfold wrapCoord
  rw [Int.emod_eq_of_lt (Int.ofNat_nonneg a) (by exact_mod_cast h)]
  simp

theorem wrapCoord_add (n : Nat) (x d : Int) (hn : 0 < n) :
    wrapCoord n ((wrapCoord n x : Nat) + d) = wrapCoord n (x + d) := by
  unfold wrapCoord
  have hn' : (0 : Int) < n := by exact_mod_cast hn
  rw [Int.toNat_of_nonneg (Int.emod_nonneg x (Int.ne_of_gt hn')), Int.emod_add_emod]

theorem SignedDistanceField.pixelIndex_eq (s : SignedDistanceField) (x y : Int)
    (hw : 0 < s.width_) (hh : 0 < s.height_) :
    (s.pixelIndex x y).toNat = wrapCoord s.height_ y * s.width_ + wrapCoord s.width_ x := by
  unfold SignedDistanceField.pixelIndex SignedDistanceField.Wrap
  simp only [wrap_eq_emod _ _ hw, wrap_eq_emod _ _ hh]
  rw [← wrapCoord_cast _ x hw, ← wrapCoord_cast _ y hh]
  have : ((wrapCoord s.height_ y : Nat) : Int) * (s.width_ : Int) + (wrapCoord s.width_ x : Nat)
      = ((wrapCoord s.height_ y * s.width_ + wrapCoord s.width_ x : Nat) : Int) := by
    push_cast; rfl
  rw [this, Int.toNat_ofNat]

theorem SignedDistanceField.GetPixel_eq (s : SignedDistanceField) (x y : Int)
    (hw : 0 < s.width_) (hh : 0 < s.height_) :
    s.GetPixel x y = s.cell (wrapCoord s.width_ x) (wrapCoord s.height_ y) := by
  unfold SignedDistanceField.GetPixel SignedDistanceField.cell
  rw [s.pixelIndex_eq x y hw hh]

theorem index_inj (w a b i j : Nat) (ha : a < w) (hi : i < w) (h : b * w + a = j * w + i) :
    a = i ∧ b = j := by
  have hw : 0 < w := by omega
  have h1 : (b * w + a) % w = a := by
    rw [Nat.add_comm, Nat.add_mul_mod_self_right, Nat.mod_eq_of_lt ha]
  have h2 : (j * w + i) % w = i := by
    rw [Nat.add_comm, Nat.add_mul_mod_self_right, Nat.mod_eq_of_lt hi]
  have h3 : (b * w + a) / w = b := by
    rw [Nat.add_comm, Nat.add_mul_div_right _ _ hw, Nat.div_eq_of_lt ha, Nat.zero_add]
  have h4 : (j * w + i) / w = j := by
    rw [Nat.add_comm, Nat.add_mul_div_right _ _ hw, Nat.div_eq_of_lt hi, Nat.zero_add]
  rw [h] at h1 h3
  exact ⟨by omega, by omega⟩

theorem index_lt (w h a b : Nat) (ha : a < w) (hb : b < h) : b * w + a < w * h := by
  have : (b + 1) * w ≤ h * w := Nat.mul_le_mul_right w hb
  have e : (b + 1) * w = b * w + w := by ring
  have e2 : h * w = w * h := Nat.mul_comm _ _
  omega

theorem SignedDistanceField.cell_SetPixel (s : SignedDistanceField) (x y : Int) (v : Vector3)
    (hw : 0 < s.width_) (hh : 0 < s.height_) (hlen : s.data_.length = s.width_ * s.height_)
    (a b : Nat) (ha : a < s.width_) :
    (s.SetPixel x y v).cell a b
      = if a = wrapCoord s.width_ x ∧ b = wrapCoord s.height_ y then v else s.cell a b := by
  have hx := wrapCoord_lt s.width_ x hw
  have hy := wrapCoord_lt s.height_ y hh
  unfold SignedDistanceField.SetPixel SignedDistanceField.cell
  simp only [s.pixelIndex_eq x y hw hh, List.getD_eq_getElem?_getD, List.getElem?_set]
  by_cases hc : a = wrapCoord s.width_ x ∧ b = wrapCoord s.height_ y
  · obtain ⟨rfl, rfl⟩ := hc
    have hlt := index_lt s.width_ s.height_ _ _ hx hy
    simp [hlen, hlt]
  · rw [if_neg hc]
    have hne : ¬ (wrapCoord s.height_ y * s.width_ + wrapCoord s.width_ x = b * s.width_ + a) := by
      intro h
      have := index_inj s.width_ _ _ _ _ hx ha h
      exact hc ⟨this.1.symm, this.2.symm⟩
    rw [if_neg hne]

theorem Distance.lt_sqrt_left (r : Nat) (d : Distance) (h : (Distance.sqrt r).lt d = false) :
    d ≠ Distance.infinity := by
  intro hd
  subst hd
  simp [Distance.lt] at h

theorem Distance.lt_infinity_left (d : Distance) : Distance.infinity.lt d = false := rfl

theorem SignedDistanceField.UpdateMinDistance_spec (gap : Nat → Nat → Bool) (w h : Nat)
    (s : SignedDistanceField) (hS : s.Sound gap w h) (i j : Nat) (hi : i < w) (hj : j < h)
    (ox oy : Int) (cd : Distance) (hcd : cd = (s.cell i j).z_) :
    (s.UpdateMinDistance i j ox oy cd).1.Sound gap w h
    ∧ (s.UpdateMinDistance i j ox oy cd).2 = ((s.UpdateMinDistance i j ox oy cd).1.cell i j).z_
    ∧ (∀ a b, a < w → b < h → (s.cell a b).IsFinite →
        ((s.UpdateMinDistance i j ox oy cd).1.cell a b).IsFinite)
    ∧ ((s.cell (wrapCoord w (i + ox)) (wrapCoord h (j + oy))).IsFinite →
        ((s.UpdateMinDistance i j ox oy cd).1.cell i j).IsFinite) := by
  obtain ⟨hW, hH, hlen, hcells⟩ := hS
  have hw : 0 < s.width_ := by omega
  have hh : 0 < s.height_ := by omega
  have hw' : 0 < w := by omega
  have hh' : 0 < h := by omega
  have hp : s.GetPixel (i + ox) (j + oy)
      = s.cell (wrapCoord w (i + ox)) (wrapCoord h (j + oy)) := by
    rw [s.GetPixel_eq _ _ hw hh, hW, hH]
  have ha' := wrapCoord_lt w (i + ox) hw'
  have hb' := wrapCoord_lt h (j + oy) hh'
  rcases hcells _ _ ha' hb' with hinf | ⟨dx, dy, hfin, htgt⟩
  · -- the neighbour is infinite: nothing changes
    have e : s.UpdateMinDistance i j ox oy cd = (s, cd) := by
      simp only [SignedDistanceField.UpdateMinDistance, hp, hinf, Vector3.INFINITY,
        FloatValue.add, Length, Distance.lt_infinity_left]
      rfl
    rw [e]
    refine ⟨⟨hW, hH, hlen, hcells⟩, hcd, fun _ _ _ _ hf => hf, ?_⟩
    intro hf
    rw [hinf] at hf
    exact absurd rfl hf
  · -- the neighbour is finite
    by_cases hlt : (Distance.sqrt ((dx + ox) * (dx + ox) + (dy + oy) * (dy + oy)).toNat).lt cd
        = true
    · have e : s.UpdateMinDistance i j ox oy cd
          = (s.SetPixel i j ⟨.finite (dx + ox), .finite (dy + oy),
              .sqrt ((dx + ox) * (dx + ox) + (dy + oy) * (dy + oy)).toNat⟩,
            .sqrt ((dx + ox) * (dx + ox) + (dy + oy) * (dy + oy)).toNat) := by
        simp only [SignedDistanceField.UpdateMinDistance, hp, hfin, FloatValue.add, Length, hlt,
          if_true]
      rw [e]
      have hcell : ∀ a b, a < w → b < h →
          (s.SetPixel i j ⟨.finite (dx + ox), .finite (dy + oy),
              .sqrt ((dx + ox) * (dx + ox) + (dy + oy) * (dy + oy)).toNat⟩).cell a b
            = if a = i ∧ b = j then ⟨.finite (dx + ox), .finite (dy + oy),
              .sqrt ((dx + ox) * (dx + ox) + (dy + oy) * (dy + oy)).toNat⟩ else s.cell a b := by
        intro a b ha hb
        rw [s.cell_SetPixel _ _ _ hw hh (by rw [hlen, hW, hH]) a b (by omega), hW, hH,
          wrapCoord_of_lt _ _ hi, wrapCoord_of_lt _ _ hj]
      refine ⟨⟨hW, hH, ?_, ?_⟩, ?_, ?_, ?_⟩
      · simp [SignedDistanceField.SetPixel, hlen]
      · intro a b ha hb
        rw [hcell a b ha hb]
        by_cases hc : a = i ∧ b = j
        · rw [if_pos hc]
          obtain ⟨rfl, rfl⟩ := hc
          right
          refine ⟨dx + ox, dy + oy, rfl, ?_⟩
          rw [← htgt, wrapCoord_add _ _ _ hw', wrapCoord_add _ _ _ hh']
          congr 2 <;> ring
        · rw [if_neg hc]
          exact hcells a b ha hb
      · rw [hcell i j hi hj, if_pos ⟨rfl, rfl⟩]
      · intro a b ha hb hf
        rw [hcell a b ha hb]
        by_cases hc : a = i ∧ b = j
        · rw [if_pos hc]; intro hcon; cases hcon
        · rw [if_neg hc]; exact hf
      · intro _
        rw [hcell i j hi hj, if_pos ⟨rfl, rfl⟩]
        intro hcon; cases hcon
    · have hlt' : (Distance.sqrt ((dx + ox) * (dx + ox) + (dy + oy) * (dy + oy)).toNat).lt cd
          = false := by
        cases hq : (Distance.sqrt ((dx + ox) * (dx + ox) + (dy + oy) * (dy + oy)).toNat).lt cd
        · rfl
        · exact absurd hq hlt
      have e : s.UpdateMinDistance i j ox oy cd = (s, cd) := by
        simp only [SignedDistanceField.UpdateMinDistance, hp, hfin, FloatValue.add, Length, hlt']
        rfl
      rw [e]
      refine ⟨⟨hW, hH, hlen, hcells⟩, hcd, fun _ _ _ _ hf => hf, ?_⟩
      intro _
      have := Distance.lt_sqrt_left _ _ hlt'
      rw [hcd] at this
      exact this

theorem SignedDistanceField.four_updates (gap : Nat → Nat → Bool) (w h : Nat)
    (s : SignedDistanceField) (hS : s.Sound gap w h) (i j : Nat) (hi : i < w) (hj : j < h)
    (x1 y1 x2 y2 x3 y3 x4 y4 : Int) (t : SignedDistanceField) :
    ((((s.UpdateMinDistance i j x1 y1 (s.GetPixel i j).z_).1.UpdateMinDistance i j x2 y2
        (s.UpdateMinDistance i j x1 y1 (s.GetPixel i j).z_).2).1.UpdateMinDistance i j x3 y3
        ((s.UpdateMinDistance i j x1 y1 (s.GetPixel i j).z_).1.UpdateMinDistance i j x2 y2
          (s.UpdateMinDistance i j x1 y1 (s.GetPixel i j).z_).2).2).1.UpdateMinDistance i j x4 y4
        (((s.UpdateMinDistance i j x1 y1 (s.GetPixel i j).z_).1.UpdateMinDistance i j x2 y2
          (s.UpdateMinDistance i j x1 y1 (s.GetPixel i j).z_).2).1.UpdateMinDistance i j x3 y3
          ((s.UpdateMinDistance i j x1 y1 (s.GetPixel i j).z_).1.UpdateMinDistance i j x2 y2
            (s.UpdateMinDistance i j x1 y1 (s.GetPixel i j).z_).2).2).2).1
      = t →
    t.Sound gap w h
    ∧ (∀ a b, a < w → b < h → (s.cell a b).IsFinite → (t.cell a b).IsFinite)
    ∧ ((s.cell (wrapCoord w (i + x1)) (wrapCoord h (j + y1))).IsFinite → (t.cell i j).IsFinite)
    ∧ ((s.cell (wrapCoord w (i + x4)) (wrapCoord h (j + y4))).IsFinite →
        (t.cell i j).IsFinite) := by
  intro ht
  have hw : 0 < s.width_ := by have := hS.1; omega
  have hh : 0 < s.height_ := by have := hS.2.1; omega
  have h0 : (s.GetPixel i j).z_ = (s.cell i j).z_ := by
    rw [s.GetPixel_eq _ _ hw hh, hS.1, hS.2.1, wrapCoord_of_lt _ _ hi, wrapCoord_of_lt _ _ hj]
  obtain ⟨a1, b1, c1, d1⟩ := s.UpdateMinDistance_spec gap w h hS i j hi hj x1 y1 _ h0
  obtain ⟨a2, b2, c2, _⟩ := SignedDistanceField.UpdateMinDistance_spec gap w h _ a1 i j hi hj
    x2 y2 _ b1
  obtain ⟨a3, b3, c3, _⟩ := SignedDistanceField.UpdateMinDistance_spec gap w h _ a2 i j hi hj
    x3 y3 _ b2
  obtain ⟨a4, _, c4, d4⟩ := SignedDistanceField.UpdateMinDistance_spec gap w h _ a3 i j hi hj
    x4 y4 _ b3
  rw [ht] at a4 c4 d4
  have hw' : 0 < w := by omega
  have hh' : 0 < h := by omega
  refine ⟨a4, ?_, ?_, ?_⟩
  · intro a b ha hb hf
    exact c4 a b ha hb (c3 a b ha hb (c2 a b ha hb (c1 a b ha hb hf)))
  · intro hf
    exact c4 i j hi hj (c3 i j hi hj (c2 i j hi hj (d1 hf)))
  · intro hf
    apply d4
    exact c3 _ _ (wrapCoord_lt w _ hw') (wrapCoord_lt h _ hh')
      (c2 _ _ (wrapCoord_lt w _ hw') (wrapCoord_lt h _ hh')
        (c1 _ _ (wrapCoord_lt w _ hw') (wrapCoord_lt h _ hh') hf))

theorem SignedDistanceField.forwardPixel_spec (gap : Nat → Nat → Bool) (w h : Nat)
    (s : SignedDistanceField) (hS : s.Sound gap w h) (i j : Nat) (hi : i < w) (hj : j < h) :
    (s.forwardPixel i j).Sound gap w h
    ∧ (∀ a b, a < w → b < h → (s.cell a b).IsFinite → ((s.forwardPixel i j).cell a b).IsFinite)
    ∧ ((s.cell (wrapCoord w (i + -1)) (wrapCoord h (j + -1))).IsFinite →
        ((s.forwardPixel i j).cell i j).IsFinite)
    ∧ ((s.cell (wrapCoord w (i + -1)) (wrapCoord h (j + 0))).IsFinite →
        ((s.forwardPixel i j).cell i j).IsFinite) :=
  SignedDistanceField.four_updates gap w h s hS i j hi hj (-1) (-1) 0 (-1) 1 (-1) (-1) 0 _ rfl

theorem SignedDistanceField.backwardPixel_spec (gap : Nat → Nat → Bool) (w h : Nat)
    (s : SignedDistanceField) (hS : s.Sound gap w h) (i j : Nat) (hi : i < w) (hj : j < h) :
    (s.backwardPixel i j).Sound gap w h
    ∧ (∀ a b, a < w → b < h → (s.cell a b).IsFinite → ((s.backwardPixel i j).cell a b).IsFinite)
    ∧ ((s.cell (wrapCoord w (i + 1)) (wrapCoord h (j + 0))).IsFinite →
        ((s.backwardPixel i j).cell i j).IsFinite)
    ∧ ((s.cell (wrapCoord w (i + 1)) (wrapCoord h (j + 1))).IsFinite →
        ((s.backwardPixel i j).cell i j).IsFinite) :=
  SignedDistanceField.four_updates gap w h s hS i j hi hj 1 0 (-1) 1 0 1 1 1 _ rfl

theorem raster_forward {σ : Type} (w h : Nat) (step : σ → Nat → Nat → σ) (P : Nat → σ → Prop)
    (hstep : ∀ s i j, i < w → j < h → P (j * w + i) s → P (j * w + i + 1) (step s i j))
    (s : σ) (h0 : P 0 s) :
    P (h * w) ((List.range h).foldl (fun t j =>
      (List.range w).foldl (fun t i => step t i j) t) s) := by
  have inner : ∀ j, j < h → ∀ t, P (j * w) t → ∀ n, n ≤ w →
      P (j * w + n) ((List.range n).foldl (fun t i => step t i j) t) := by
    intro j hj t ht n
    induction n with
    | zero => intro _; simpa using ht
    | succ n ih =>
      intro hn
      rw [List.range_succ, List.foldl_append]
      exact hstep _ n j (by omega) hj (ih (by omega))
  have outer : ∀ m, m ≤ h →
      P (m * w) ((List.range m).foldl (fun t j =>
        (List.range w).foldl (fun t i => step t i j) t) s) := by
    intro m
    induction m with
    | zero => intro _; simpa using h0
    | succ m ih =>
      intro hm
      rw [List.range_succ, List.foldl_append]
      have := inner m (by omega) _ (ih (by omega)) w (le_refl w)
      have e : (m + 1) * w = m * w + w := by ring
      rw [e]
      exact this
  exact outer h (le_refl h)

theorem raster_backward {σ : Type} (w h : Nat) (step : σ → Nat → Nat → σ) (P : Nat → σ → Prop)
    (hstep : ∀ s i j, i < w → j < h → P (j * w + i + 1) s → P (j * w + i) (step s i j))
    (s : σ) (h0 : P (h * w) s) :
    P 0 ((List.range h).reverse.foldl (fun t j =>
      (List.range w).reverse.foldl (fun t i => step t i j) t) s) := by
  have inner : ∀ j, j < h → ∀ n, n ≤ w → ∀ t, P (j * w + n) t →
      P (j * w) ((List.range n).reverse.foldl (fun t i => step t i j) t) := by
    intro j hj n
    induction n with
    | zero => intro _ t ht; simpa using ht
    | succ n ih =>
      intro hn t ht
      rw [List.range_succ, List.reverse_append, List.reverse_singleton, List.singleton_append,
        List.foldl_cons]
      exact ih (by omega) _ (hstep t n j (by omega) hj ht)
  have outer : ∀ m, m ≤ h → ∀ t, P (m * w) t →
      P 0 ((List.range m).reverse.foldl (fun t j =>
        (List.range w).reverse.foldl (fun t i => step t i j) t) t) := by
    intro m
    induction m with
    | zero => intro _ t ht; simpa using ht
    | succ m ih =>
      intro hm t ht
      rw [List.range_succ, List.reverse_append, List.reverse_singleton, List.singleton_append,
        List.foldl_cons]
      apply ih (by omega)
      have e : (m + 1) * w = m * w + w := by ring
      rw [e] at ht
      exact inner m (by omega) w (le_refl w) t ht
  exact outer h (le_refl h) s h0

theorem wrapCoord_pred (n i : Nat) (hi : i < n) :
    wrapCoord n ((i : Int) + -1) = if i = 0 then n - 1 else i - 1 := by
  by_cases h0 : i = 0
  · subst h0
    rw [if_pos rfl]
    unfold wrapCoord
    have e : ((0 : Nat) : Int) + -1 = ((n - 1 : Nat) : Int) + (n : Int) * (-1) := by
      omega
    rw [e, Int.add_mul_emod_self_left,
      Int.emod_eq_of_lt (Int.ofNat_nonneg _) (by omega)]
    simp
  · rw [if_neg h0]
    have e : ((i : Nat) : Int) + -1 = ((i - 1 : Nat) : Int) := by omega
    rw [e, wrapCoord_of_lt _ _ (by omega)]

theorem wrapCoord_succ (n i : Nat) (hi : i < n) :
    wrapCoord n ((i : Int) + 1) = if i + 1 = n then 0 else i + 1 := by
  by_cases h0 : i + 1 = n
  · rw [if_pos h0]
    unfold wrapCoord
    have e : ((i : Nat) : Int) + 1 = (n : Int) := by omega
    rw [e, Int.emod_self]
    rfl
  · rw [if_neg h0]
    have e : ((i : Nat) : Int) + 1 = ((i + 1 : Nat) : Int) := by omega
    rw [e, wrapCoord_of_lt _ _ (by omega)]

theorem wrapCoord_zero_add (n j : Nat) (hj : j < n) : wrapCoord n ((j : Int) + 0) = j := by
  rw [Int.add_zero, wrapCoord_of_lt _ _ hj]

theorem SignedDistanceField.forwardPass_spec (gap : Nat → Nat → Bool) (w h : Nat)
    (s : SignedDistanceField) (hS : s.Sound gap w h) (a0 b0 : Nat) (ha0 : a0 < w)
    (hb0 : b0 < h) (hsrc : (s.cell a0 b0).IsFinite) :
    s.forwardPass.Sound gap w h
    ∧ ∀ a b, a < w → b < h → b0 * w + a0 ≤ b * w + a → (s.forwardPass.cell a b).IsFinite := by
  have key := raster_forward w h (fun t i j => t.forwardPixel (i : Int) (j : Int))
    (fun n t => t.Sound gap w h ∧ (t.cell a0 b0).IsFinite
      ∧ ∀ a b, a < w → b < h → b0 * w + a0 < b * w + a → b * w + a < n → (t.cell a b).IsFinite)
    ?_ s ⟨hS, hsrc, fun a b _ _ _ hlt => absurd hlt (Nat.not_lt_zero _)⟩
  · have e : s.forwardPass = (List.range h).foldl (fun t j =>
        (List.range w).foldl (fun t i => t.forwardPixel (i : Int) (j : Int)) t) s := by
      unfold SignedDistanceField.forwardPass
      rw [hS.1, hS.2.1]
    rw [e]
    obtain ⟨k1, k2, k3⟩ := key
    refine ⟨k1, ?_⟩
    intro a b ha hb hle
    rcases Nat.eq_or_lt_of_le hle with heq | hlt
    · obtain ⟨rfl, rfl⟩ := index_inj w a0 b0 a b ha0 ha heq
      exact k2
    · exact k3 a b ha hb hlt (by
        have := index_lt w h a b ha hb
        rw [Nat.mul_comm h w]; exact this)
  · intro t i j hi hj ⟨hT, hfin0, hfin⟩
    obtain ⟨p1, p2, p3, p4⟩ := t.forwardPixel_spec gap w h hT i j hi hj
    refine ⟨p1, p2 a0 b0 ha0 hb0 hfin0, ?_⟩
    intro a b ha hb hgt hlt
    rcases Nat.lt_or_ge (b * w + a) (j * w + i) with hlt2 | hge
    · exact p2 a b ha hb (hfin a b ha hb hgt hlt2)
    · have heq : b * w + a = j * w + i := by omega
      obtain ⟨rfl, rfl⟩ := index_inj w a b i j ha hi heq
      -- the raster predecessor of the pixel is finite
      have hpred : ∀ a1 b1, a1 < w → b1 < h → b1 * w + a1 + 1 = b * w + a →
          (t.cell a1 b1).IsFinite := by
        intro a1 b1 ha1 hb1 e1
        rcases Nat.eq_or_lt_of_le (show b0 * w + a0 ≤ b1 * w + a1 by omega) with h1 | h1
        · obtain ⟨rfl, rfl⟩ := index_inj w a0 b0 a1 b1 ha0 ha1 h1
          exact hfin0
        · exact hfin a1 b1 ha1 hb1 h1 (by omega)
      by_cases ha : a = 0
      · subst ha
        have hb1 : 1 ≤ b := by
          rcases Nat.eq_zero_or_pos b with hb0' | hb0'
          · subst hb0'; simp at hgt
          · exact hb0'
        apply p3
        rw [wrapCoord_pred w 0 hi, if_pos rfl, wrapCoord_pred h b hj, if_neg (by omega)]
        apply hpred (w - 1) (b - 1) (by omega) (by omega)
        have e : b * w = (b - 1) * w + w := by
          have : b = (b - 1) + 1 := by omega
          conv_lhs => rw [this, Nat.add_mul, Nat.one_mul]
        omega
      · apply p4
        rw [wrapCoord_pred w a hi, if_neg ha, wrapCoord_zero_add h b hj]
        apply hpred (a - 1) b (by omega) hj
        omega

theorem SignedDistanceField.backwardPass_spec (gap : Nat → Nat → Bool) (w h : Nat)
    (s : SignedDistanceField) (hS : s.Sound gap w h)
    (hlast : ∀ a b, a < w → b < h → b * w + a + 1 = w * h → (s.cell a b).IsFinite) :
    s.backwardPass.Sound gap w h
    ∧ ∀ a b, a < w → b < h → (s.backwardPass.cell a b).IsFinite := by
  have key := raster_backward w h (fun t i j => t.backwardPixel (i : Int) (j : Int))
    (fun n t => t.Sound gap w h
      ∧ ∀ a b, a < w → b < h → min n (w * h - 1) ≤ b * w + a → (t.cell a b).IsFinite)
    ?_ s ⟨hS, ?_⟩
  · have e : s.backwardPass = (List.range h).reverse.foldl (fun t j =>
        (List.range w).reverse.foldl (fun t i => t.backwardPixel (i : Int) (j : Int)) t) s := by
      unfold SignedDistanceField.backwardPass
      rw [hS.1, hS.2.1]
    rw [e]
    obtain ⟨k1, k2⟩ := key
    exact ⟨k1, fun a b ha hb => k2 a b ha hb (by simp)⟩
  · intro t i j hi hj ⟨hT, hfin⟩
    obtain ⟨p1, p2, p3, p4⟩ := t.backwardPixel_spec gap w h hT i j hi hj
    refine ⟨p1, ?_⟩
    intro a b ha hb hge
    have hn := index_lt w h i j hi hj
    have hmin : min (j * w + i) (w * h - 1) = j * w + i := by omega
    rw [hmin] at hge
    rcases Nat.lt_or_ge (j * w + i) (b * w + a) with hgt | hle
    · exact p2 a b ha hb (hfin a b ha hb (by omega))
    · have heq : b * w + a = j * w + i := by omega
      obtain ⟨rfl, rfl⟩ := index_inj w a b i j ha hi heq
      by_cases hl : b * w + a + 1 = w * h
      · exact p2 a b ha hb (hfin a b ha hb (by omega))
      · have hsucc : ∀ a1 b1, a1 < w → b1 < h → b1 * w + a1 = b * w + a + 1 →
            (t.cell a1 b1).IsFinite := by
          intro a1 b1 ha1 hb1 e1
          exact hfin a1 b1 ha1 hb1 (by omega)
        by_cases ha1 : a + 1 = w
        · have hb1 : b + 1 < h := by
            rcases Nat.lt_or_ge (b + 1) h with h1 | h1
            · exact h1
            · exfalso
              have hb' : b + 1 = h := by omega
              apply hl
              rw [← hb', ← ha1]
              ring
          apply p4
          rw [wrapCoord_succ w a hi, if_pos ha1, wrapCoord_succ h b hj, if_neg (by omega)]
          apply hsucc 0 (b + 1) (by omega) hb1
          rw [Nat.add_mul, Nat.one_mul]
          omega
        · apply p3
          rw [wrapCoord_succ w a hi, if_neg ha1, wrapCoord_zero_add h b hj]
          apply hsucc (a + 1) b (by omega) hj
          omega
  · intro a b ha hb hge
    apply hlast a b ha hb
    have hn := index_lt w h a b ha hb
    have e : min (h * w) (w * h - 1) = w * h - 1 := by
      rw [Nat.mul_comm h w]; omega
    rw [e] at hge
    omega

theorem SignedDistanceField.initialise_spec (image : Image) (isTransparent : Bool) (w h : Nat) :
    let t := SignedDistanceField.initialise image isTransparent
      ⟨w, h, List.replicate (w * h) Vector3.ZERO⟩
    t.width_ = w ∧ t.height_ = h ∧ t.data_.length = w * h
    ∧ ∀ a b, a < w → b < h →
        t.cell a b = if image.isGap isTransparent a b then Vector3.INFINITY else Vector3.ZERO := by
  have key := raster_forward w h
    (fun (t : SignedDistanceField) i j =>
      if isGapPixel (image.GetPixel i j) isTransparent then t.SetPixel i j Vector3.INFINITY
      else t.SetPixel i j Vector3.ZERO)
    (fun n t => t.width_ = w ∧ t.height_ = h ∧ t.data_.length = w * h
      ∧ ∀ a b, a < w → b < h → b * w + a < n →
        t.cell a b
          = if image.isGap isTransparent a b then Vector3.INFINITY else Vector3.ZERO)
    ?_ ⟨w, h, List.replicate (w * h) Vector3.ZERO⟩
    ⟨rfl, rfl, by simp, fun a b _ _ hlt => absurd hlt (Nat.not_lt_zero _)⟩
  · obtain ⟨k1, k2, k3, k4⟩ := key
    refine ⟨k1, k2, k3, ?_⟩
    intro a b ha hb
    exact k4 a b ha hb (by
      have := index_lt w h a b ha hb
      rw [Nat.mul_comm h w]; exact this)
  · intro t i j hi hj ⟨hW, hH, hlen, hcells⟩
    have hw : 0 < t.width_ := by omega
    have hh : 0 < t.height_ := by omega
    have e : (if isGapPixel (image.GetPixel i j) isTransparent = true then
          t.SetPixel i j Vector3.INFINITY else t.SetPixel i j Vector3.ZERO)
        = t.SetPixel i j (if image.isGap isTransparent i j then Vector3.INFINITY
            else Vector3.ZERO) := by
      unfold Image.isGap
      split <;> rfl
    simp only [e]
    refine ⟨hW, hH, by simp [SignedDistanceField.SetPixel, hlen], ?_⟩
    intro a b ha hb hlt
    rw [t.cell_SetPixel _ _ _ hw hh (by rw [hlen, hW, hH]) a b (by omega), hW, hH,
      wrapCoord_of_lt _ _ hi, wrapCoord_of_lt _ _ hj]
    by_cases hc : a = i ∧ b = j
    · obtain ⟨rfl, rfl⟩ := hc
      rw [if_pos ⟨rfl, rfl⟩]
    · rw [if_neg hc]
      apply hcells a b ha hb
      rcases Nat.lt_or_ge (b * w + a) (j * w + i) with h1 | h1
      · exact h1
      · exfalso
        have heq : b * w + a = j * w + i := by omega
        exact hc (index_inj w a b i j ha hi heq)

theorem SignedDistanceField.create_spec (image : Image) (isTransparent : Bool) (a0 b0 : Nat)
    (ha0 : a0 < image.width_) (hb0 : b0 < image.height_)
    (hsrc : image.isGap isTransparent a0 b0 = false) :
    (SignedDistanceField.create image isTransparent).Sound (image.isGap isTransparent)
      image.width_ image.height_
    ∧ ∀ a b, a < image.width_ → b < image.height_ →
        ((SignedDistanceField.create image isTransparent).cell a b).IsFinite := by
  obtain ⟨i1, i2, i3, i4⟩ :=
    SignedDistanceField.initialise_spec image isTransparent image.width_ image.height_
  have hw : 0 < image.width_ := by omega
  have hh : 0 < image.height_ := by omega
  have hS1 : (SignedDistanceField.initialise image isTransparent
      ⟨image.width_, image.height_,
        List.replicate (image.width_ * image.height_) Vector3.ZERO⟩).Sound
      (image.isGap isTransparent) image.width_ image.height_ := by
    refine ⟨i1, i2, i3, ?_⟩
    intro a b ha hb
    rw [i4 a b ha hb]
    cases hg : image.isGap isTransparent a b
    · right
      refine ⟨0, 0, rfl, ?_⟩
      simp only [Int.add_zero]
      rw [wrapCoord_of_lt _ _ ha, wrapCoord_of_lt _ _ hb]
      exact hg
    · left
      rfl
  have hsrc1 : ((SignedDistanceField.initialise image isTransparent
      ⟨image.width_, image.height_,
        List.replicate (image.width_ * image.height_) Vector3.ZERO⟩).cell a0 b0).IsFinite := by
    rw [i4 a0 b0 ha0 hb0, hsrc]
    intro hcon
    cases hcon
  obtain ⟨f1, f2⟩ := SignedDistanceField.forwardPass_spec _ _ _ _ hS1 a0 b0 ha0 hb0 hsrc1
  have hlast : ∀ a b, a < image.width_ → b < image.height_ →
      b * image.width_ + a + 1 = image.width_ * image.height_ →
      ((SignedDistanceField.initialise image isTransparent
        ⟨image.width_, image.height_,
          List.replicate (image.width_ * image.height_) Vector3.ZERO⟩).forwardPass.cell
        a b).IsFinite := by
    intro a b ha hb hl
    apply f2 a b ha hb
    have := index_lt image.width_ image.height_ a0 b0 ha0 hb0
    omega
  exact SignedDistanceField.backwardPass_spec _ _ _ _ f1 hlast

/-- C9: for an image with a pixel `(a0, b0)` that is not a gap, the entry of the field
built by the constructor at every pixel `(x, y)` is finite, and `GetNearestPixel x y`,
wrapped into the image, is a pixel of the image that is not a gap; when `(a0, b0)` is the
only pixel that is not a gap, it is the pixel every pixel resolves to. -/
theorem GetNearestPixel_nonGap (image : Image) (isTransparent : Bool) (a0 b0 : Nat)
    (ha0 : a0 < image.width_) (hb0 : b0 < image.height_)
    (hsrc : image.isGap isTransparent a0 b0 = false)
    (x y : Nat) (hx : x < image.width_) (hy : y < image.height_) :
    ((SignedDistanceField.create image isTransparent).GetPixel x y).IsFinite
    ∧ ∃ (n : IntVector2) (a b : Nat),
        (SignedDistanceField.create image isTransparent).GetNearestPixel x y = some n
        ∧ a < image.width_ ∧ b < image.height_
        ∧ (SignedDistanceField.create image isTransparent).Wrap n = ⟨a, b⟩
        ∧ image.isGap isTransparent a b = false
        ∧ ((∀ a1 b1, a1 < image.width_ → b1 < image.height_ →
              image.isGap isTransparent a1 b1 = false → a1 = a0 ∧ b1 = b0) →
            a = a0 ∧ b = b0) := by
  obtain ⟨⟨hW, hH, hlen, hcells⟩, hfin⟩ :=
    SignedDistanceField.create_spec image isTransparent a0 b0 ha0 hb0 hsrc
  have hw : 0 < (SignedDistanceField.create image isTransparent).width_ := by omega
  have hh : 0 < (SignedDistanceField.create image isTransparent).height_ := by omega
  have hw' : 0 < image.width_ := by omega
  have hh' : 0 < image.height_ := by omega
  have hget : (SignedDistanceField.create image isTransparent).GetPixel x y
      = (SignedDistanceField.create image isTransparent).cell x y := by
    rw [SignedDistanceField.GetPixel_eq _ _ _ hw hh, hW, hH, wrapCoord_of_lt _ _ hx,
      wrapCoord_of_lt _ _ hy]
  have hf := hfin x y hx hy
  refine ⟨by rw [hget]; exact hf, ?_⟩
  rcases hcells x y hx hy with hinf | ⟨dx, dy, hval, htgt⟩
  · rw [hinf] at hf
    exact absurd rfl hf
  · refine ⟨⟨x + dx, y + dy⟩, wrapCoord image.width_ (x + dx), wrapCoord image.height_ (y + dy),
      ?_, wrapCoord_lt _ _ hw', wrapCoord_lt _ _ hh', ?_, htgt, ?_⟩
    · unfold SignedDistanceField.GetNearestPixel
      rw [hget, hval]
    · unfold SignedDistanceField.Wrap
      simp only [wrap_eq_emod _ _ hw, wrap_eq_emod _ _ hh]
      rw [hW, hH, wrapCoord_cast _ _ hw', wrapCoord_cast _ _ hh']
    · intro huniq
      exact huniq _ _ (wrapCoord_lt _ _ hw') (wrapCoord_lt _ _ hh') htgt

/-- Witness of C9 on `singlePixelImage`: the pixel `(3, 3)` resolves to `(0, 0)`. -/
theorem GetNearestPixel_nonGap_witness :
    ((SignedDistanceField.create singlePixelImage true).GetPixel 3 3).IsFinite
    ∧ ∃ (n : IntVector2) (a b : Nat),
        (SignedDistanceField.create singlePixelImage true).GetNearestPixel 3 3 = some n
        ∧ (SignedDistanceField.create singlePixelImage true).Wrap n = ⟨a, b⟩
        ∧ singlePixelImage.isGap true a b = false := by
  obtain ⟨h1, n, a, b, h2, _, _, h3, h4, _⟩ :=
    GetNearestPixel_nonGap singlePixelImage true 0 0 (by decide) (by decide) (by decide!)
      3 3 (by decide) (by decide)
  exact ⟨h1, n, a, b, h2, h3, h4⟩

theorem SignedDistanceField.initialise_congr (image1 image2 : Image) (t1 t2 : Bool)
    (s : SignedDistanceField)
    (hmask : ∀ a, a < s.width_ → ∀ b, b < s.height_ →
      image1.isGap t1 a b = image2.isGap t2 a b) :
    SignedDistanceField.initialise image1 t1 s = SignedDistanceField.initialise image2 t2 s := by
  unfold SignedDistanceField.initialise
  apply List.foldl_ext
  intro t j hj
  apply List.foldl_ext
  intro u i hi
  have h := hmask i (List.mem_range.mp hi) j (List.mem_range.mp hj)
  unfold Image.isGap at h
  rw [h]

/-- C10: on every 4 by 4 image whose only pixel that is not a gap is `(0, 0)`, the entry
of the field at `(3, 3)` has offset `(1, 1)` and distance `sqrt 2`, so `GetNearestPixel 3 3`
is `(4, 4)`, which wraps to `(0, 0)`; the offset `(-3, -3)` to the unwrapped pixel has the
larger distance `sqrt 18`. -/
theorem GetNearestPixel_toroidal (image : Image) (isTransparent : Bool)
    (hw : image.width_ = 4) (hh : image.height_ = 4)
    (hmask : ∀ a, a < 4 → ∀ b, b < 4 →
      (image.isGap isTransparent a b = false ↔ a = 0 ∧ b = 0)) :
    (SignedDistanceField.create image isTransparent).GetPixel 3 3
        = ⟨.finite 1, .finite 1, .sqrt 2⟩
    ∧ (SignedDistanceField.create image isTransparent).GetNearestPixel 3 3 = some ⟨4, 4⟩
    ∧ (SignedDistanceField.create image isTransparent).Wrap ⟨4, 4⟩ = ⟨0, 0⟩
    ∧ Length (.finite (-3)) (.finite (-3)) = .sqrt 18
    ∧ (Distance.sqrt 2).lt (.sqrt 18) = true := by
  have hsingle : ∀ a, a < 4 → ∀ b, b < 4 →
      (singlePixelImage.isGap true a b = false ↔ a = 0 ∧ b = 0) := by decide!
  have hcreate : SignedDistanceField.create image isTransparent
      = SignedDistanceField.create singlePixelImage true := by
    unfold SignedDistanceField.create
    rw [hw, hh]
    have e : SignedDistanceField.initialise image isTransparent
          ⟨4, 4, List.replicate (4 * 4) Vector3.ZERO⟩
        = SignedDistanceField.initialise singlePixelImage true
          ⟨4, 4, List.replicate (4 * 4) Vector3.ZERO⟩ := by
      apply SignedDistanceField.initialise_congr
      intro a ha b hb
      have h1 := hmask a ha b hb
      have h2 := hsingle a ha b hb
      cases h3 : image.isGap isTransparent a b with
      | false => exact (h2.mpr (h1.mp h3)).symm
      | true =>
        cases h4 : singlePixelImage.isGap true a b with
        | true => rfl
        | false =>
          have := h1.mpr (h2.mp h4)
          rw [h3] at this
          exact this
    exact congrArg (fun t => t.forwardPass.backwardPass) e
  rw [hcreate]
  refine ⟨by decide!, by decide!, by decide!, by decide, by decide⟩

/-- Witness of C10 on `singlePixelImage`, read as an alpha mask. -/
theorem GetNearestPixel_toroidal_witness :
    (SignedDistanceField.create singlePixelImage true).GetPixel 3 3
        = ⟨.finite 1, .finite 1, .sqrt 2⟩
    ∧ (SignedDistanceField.create singlePixelImage true).GetNearestPixel 3 3 = some ⟨4, 4⟩ := by
  obtain ⟨h1, h2, _⟩ := GetNearestPixel_toroidal singlePixelImage true rfl rfl (by decide!)
  exact ⟨h1, h2⟩

theorem Vector3Q.ext_iff (a b : Vector3Q) :
    a = b ↔ a.x_ = b.x_ ∧ a.y_ = b.y_ ∧ a.z_ = b.z_ := by
  cases a; cases b; simp

theorem Equals_false_ne_zero (epsilon cp : ℚ) (heps : 0 ≤ epsilon)
    (h : Equals epsilon cp 0 = false) : cp ≠ 0 := by
  intro h0
  subst h0
  have : Equals epsilon 0 0 = true := by
    simp [Equals, heps]
  rw [this] at h
  cases h

theorem CalculateTangent_system (epsilon : ℚ) (v0 v1 v2 : FatVertex) (heps : 0 ≤ epsilon)
    (h : Equals epsilon (uvCrossProduct v0 v1 v2) 0 = false) :
    v1.position_.sub v0.position_
        = ((CalculateTangent epsilon v0 v1 v2).1.mul ((v1.uv_ 0).sub (v0.uv_ 0)).x_).add
            ((CalculateTangent epsilon v0 v1 v2).2.mul ((v1.uv_ 0).sub (v0.uv_ 0)).y_)
    ∧ v2.position_.sub v0.position_
        = ((CalculateTangent epsilon v0 v1 v2).1.mul ((v2.uv_ 0).sub (v0.uv_ 0)).x_).add
            ((CalculateTangent epsilon v0 v1 v2).2.mul ((v2.uv_ 0).sub (v0.uv_ 0)).y_) := by
  have hcp := Equals_false_ne_zero epsilon _ heps h
  unfold uvCrossProduct at h hcp
  simp only [CalculateTangent, h, Bool.false_eq_true, if_false]
  constructor
  · rw [Vector3Q.ext_iff]
    simp only [Vector3Q.add, Vector3Q.mul, Vector3Q.sub]
    refine ⟨?_, ?_, ?_⟩ <;> field_simp <;> ring
  · rw [Vector3Q.ext_iff]
    simp only [Vector3Q.add, Vector3Q.mul, Vector3Q.sub]
    refine ⟨?_, ?_, ?_⟩ <;> field_simp <;> ring

/-- C14: when the UV cross product is not within `epsilon` of zero, the tangent `T` and the
binormal `B` of `CalculateTangent` solve the system `v1 - v0 = T * uv1.x + B * uv1.y`,
`v2 - v0 = T * uv2.x + B * uv2.y` exactly. -/
theorem CalculateTangent_solves (epsilon : ℚ) (v0 v1 v2 : FatVertex) (heps : 0 ≤ epsilon)
    (h : Equals epsilon (uvCrossProduct v0 v1 v2) 0 = false) :
    v1.position_.sub v0.position_
        = ((CalculateTangent epsilon v0 v1 v2).1.mul ((v1.uv_ 0).sub (v0.uv_ 0)).x_).add
            ((CalculateTangent epsilon v0 v1 v2).2.mul ((v1.uv_ 0).sub (v0.uv_ 0)).y_)
    ∧ v2.position_.sub v0.position_
        = ((CalculateTangent epsilon v0 v1 v2).1.mul ((v2.uv_ 0).sub (v0.uv_ 0)).x_).add
            ((CalculateTangent epsilon v0 v1 v2).2.mul ((v2.uv_ 0).sub (v0.uv_ 0)).y_) :=
  CalculateTangent_system epsilon v0 v1 v2 heps h

/-- Witness of C14 on a right triangle mapped to the unit UV triangle: the tangent is the
first edge and the binormal the second. -/
theorem CalculateTangent_solves_witness :
    CalculateTangent (1 / 1000000) (sampleVertex 0 0 0 0 0) (sampleVertex 2 0 0 1 0)
        (sampleVertex 0 2 0 0 1) = (⟨2, 0, 0⟩, ⟨0, 2, 0⟩)
    ∧ (sampleVertex 2 0 0 1 0).position_.sub (sampleVertex 0 0 0 0 0).position_
        = ((CalculateTangent (1 / 1000000) (sampleVertex 0 0 0 0 0) (sampleVertex 2 0 0 1 0)
            (sampleVertex 0 2 0 0 1)).1.mul 1).add
          ((CalculateTangent (1 / 1000000) (sampleVertex 0 0 0 0 0) (sampleVertex 2 0 0 1 0)
            (sampleVertex 0 2 0 0 1)).2.mul 0) := by
  have h := CalculateTangent_solves (1 / 1000000) (sampleVertex 0 0 0 0 0)
    (sampleVertex 2 0 0 1 0) (sampleVertex 0 2 0 0 1) (by decide!) (by decide!)
  refine ⟨by decide!, ?_⟩
  have h1 := h.1
  have e1 : (((sampleVertex 2 0 0 1 0).uv_ 0).sub ((sampleVertex 0 0 0 0 0).uv_ 0)).x_ = 1 := by
    decide!
  have e2 : (((sampleVertex 2 0 0 1 0).uv_ 0).sub ((sampleVertex 0 0 0 0 0).uv_ 0)).y_ = 0 := by
    decide!
  rw [e1, e2] at h1
  exact h1

theorem BoundingBox.Merge_defined (box : BoundingBox) (p : Vector3Q) :
    (box.Merge p).defined_ = true := by
  unfold BoundingBox.Merge; split <;> rfl

theorem foldl_Merge_component (c : Vector3Q → ℚ)
    (hmin : ∀ (box : BoundingBox) (p : Vector3Q),
      c (box.Merge p).min_ = if box.defined_ then min (c box.min_) (c p) else c p)
    (hmax : ∀ (box : BoundingBox) (p : Vector3Q),
      c (box.Merge p).max_ = if box.defined_ then max (c box.max_) (c p) else c p)
    (pos : Nat → Vector3Q) (n : Nat) :
    ((List.range (n + 1)).foldl (fun box i => box.Merge (pos i)) BoundingBox.empty).defined_
        = true
    ∧ (∀ i, i < n + 1 →
        c ((List.range (n + 1)).foldl (fun box i => box.Merge (pos i)) BoundingBox.empty).min_
            ≤ c (pos i)
        ∧ c (pos i)
            ≤ c ((List.range (n + 1)).foldl (fun box i => box.Merge (pos i))
                BoundingBox.empty).max_)
    ∧ (∃ i, i < n + 1 ∧
        c ((List.range (n + 1)).foldl (fun box i => box.Merge (pos i)) BoundingBox.empty).min_
          = c (pos i))
    ∧ (∃ i, i < n + 1 ∧
        c ((List.range (n + 1)).foldl (fun box i => box.Merge (pos i)) BoundingBox.empty).max_
          = c (pos i)) := by
  induction n with
  | zero =>
    have e : (List.range (0 + 1)).foldl (fun box i => box.Merge (pos i)) BoundingBox.empty
        = BoundingBox.empty.Merge (pos 0) := by
      simp [List.range_succ]
    rw [e]
    have h1 := hmin BoundingBox.empty (pos 0)
    have h2 := hmax BoundingBox.empty (pos 0)
    simp only [BoundingBox.empty, Bool.false_eq_true, if_false] at h1 h2
    refine ⟨BoundingBox.Merge_defined _ _, ?_, ⟨0, by omega, h1⟩, ⟨0, by omega, h2⟩⟩
    intro i hi
    have : i = 0 := by omega
    subst this
    change c (BoundingBox.empty.Merge (pos 0)).min_ ≤ c (pos 0)
      ∧ c (pos 0) ≤ c (BoundingBox.empty.Merge (pos 0)).max_
    simp only [BoundingBox.empty] at *
    rw [h1, h2]
    exact ⟨le_refl _, le_refl _⟩
  | succ n ih =>
    obtain ⟨hd, hall, ⟨imin, himin, hemin⟩, ⟨imax, himax, hemax⟩⟩ := ih
    rw [List.range_succ (n + 1), List.foldl_append]
    simp only [List.foldl_cons, List.foldl_nil]
    have h1 := hmin ((List.range (n + 1)).foldl (fun box i => box.Merge (pos i))
      BoundingBox.empty) (pos (n + 1))
    have h2 := hmax ((List.range (n + 1)).foldl (fun box i => box.Merge (pos i))
      BoundingBox.empty) (pos (n + 1))
    rw [hd, if_pos rfl] at h1 h2
    refine ⟨BoundingBox.Merge_defined _ _, ?_, ?_, ?_⟩
    · intro i hi
      rw [h1, h2]
      rcases Nat.lt_or_ge i (n + 1) with hlt | hge
      · obtain ⟨a, b⟩ := hall i hlt
        exact ⟨le_trans (min_le_left _ _) a, le_trans b (le_max_left _ _)⟩
      · have : i = n + 1 := by omega
        subst this
        exact ⟨min_le_right _ _, le_max_right _ _⟩
    · rw [h1]
      rcases le_total
        (c ((List.range (n + 1)).foldl (fun box i => box.Merge (pos i)) BoundingBox.empty).min_)
        (c (pos (n + 1))) with hle | hle
      · exact ⟨imin, by omega, by rw [min_eq_left hle]; exact hemin⟩
      · exact ⟨n + 1, by omega, min_eq_right hle⟩
    · rw [h2]
      rcases le_total
        (c ((List.range (n + 1)).foldl (fun box i => box.Merge (pos i)) BoundingBox.empty).max_)
        (c (pos (n + 1))) with hle | hle
      · exact ⟨n + 1, by omega, max_eq_right hle⟩
      · exact ⟨imax, by omega, by rw [max_eq_left hle]; exact hemax⟩

/-- C16: for a non-empty vertex array the box of `CalculateBoundingBox` is defined,
contains the position of every vertex componentwise, and each component of its `min_` and
of its `max_` is the component of the position of some vertex. -/
theorem CalculateBoundingBox_contains (vertices : List FatVertex) (numVertices : Nat)
    (h0 : 0 < numVertices) (hn : numVertices ≤ vertices.length) :
    ∃ box, CalculateBoundingBox vertices numVertices = some box
      ∧ box.defined_ = true
      ∧ (∀ i, i < numVertices →
          box.min_.x_ ≤ (vertices.getD i default).position_.x_
          ∧ (vertices.getD i default).position_.x_ ≤ box.max_.x_
          ∧ box.min_.y_ ≤ (vertices.getD i default).position_.y_
          ∧ (vertices.getD i default).position_.y_ ≤ box.max_.y_
          ∧ box.min_.z_ ≤ (vertices.getD i default).position_.z_
          ∧ (vertices.getD i default).position_.z_ ≤ box.max_.z_)
      ∧ (∃ i, i < numVertices ∧ box.min_.x_ = (vertices.getD i default).position_.x_)
      ∧ (∃ i, i < numVertices ∧ box.min_.y_ = (vertices.getD i default).position_.y_)
      ∧ (∃ i, i < numVertices ∧ box.min_.z_ = (vertices.getD i default).position_.z_)
      ∧ (∃ i, i < numVertices ∧ box.max_.x_ = (vertices.getD i default).position_.x_)
      ∧ (∃ i, i < numVertices ∧ box.max_.y_ = (vertices.getD i default).position_.y_)
      ∧ (∃ i, i < numVertices ∧ box.max_.z_ = (vertices.getD i default).position_.z_) := by
  obtain ⟨n, rfl⟩ : ∃ n, numVertices = n + 1 := ⟨numVertices - 1, by omega⟩
  have hx := foldl_Merge_component (fun v => v.x_)
    (fun box p => by unfold BoundingBox.Merge; split <;> rfl)
    (fun box p => by unfold BoundingBox.Merge; split <;> rfl)
    (fun i => (vertices.getD i default).position_) n
  have hy := foldl_Merge_component (fun v => v.y_)
    (fun box p => by unfold BoundingBox.Merge; split <;> rfl)
    (fun box p => by unfold BoundingBox.Merge; split <;> rfl)
    (fun i => (vertices.getD i default).position_) n
  have hz := foldl_Merge_component (fun v => v.z_)
    (fun box p => by unfold BoundingBox.Merge; split <;> rfl)
    (fun box p => by unfold BoundingBox.Merge; split <;> rfl)
    (fun i => (vertices.getD i default).position_) n
  have e : CalculateBoundingBox vertices (n + 1)
      = some ((List.range (n + 1)).foldl
          (fun box i => box.Merge (vertices.getD i default).position_) BoundingBox.empty) := by
    have h1 : ¬ (n + 1 = 0) := by omega
    have h2 : ¬ (vertices.length < n + 1) := by omega
    simp only [CalculateBoundingBox, if_neg h1, if_neg h2]
  refine ⟨_, e, hx.1, ?_, hx.2.2.1, hy.2.2.1, hz.2.2.1, hx.2.2.2, hy.2.2.2, hz.2.2.2⟩
  intro i hi
  exact ⟨(hx.2.1 i hi).1, (hx.2.1 i hi).2, (hy.2.1 i hi).1, (hy.2.1 i hi).2,
    (hz.2.1 i hi).1, (hz.2.1 i hi).2⟩

/-- Witness of C16 on the three corners of a right triangle. -/
theorem CalculateBoundingBox_contains_witness :
    ∃ box, CalculateBoundingBox
        [sampleVertex 0 0 0 0 0, sampleVertex 2 0 0 1 0, sampleVertex 0 2 0 0 1] 3 = some box
      ∧ box.defined_ = true
      ∧ ∃ i, i < 3 ∧ box.max_.x_
          = (([sampleVertex 0 0 0 0 0, sampleVertex 2 0 0 1 0, sampleVertex 0 2 0 0 1] :
              List FatVertex).getD i default).position_.x_ := by
  obtain ⟨box, h1, h2, _, _, _, _, h3, _⟩ := CalculateBoundingBox_contains
    [sampleVertex 0 0 0 0 0, sampleVertex 2 0 0 1 0, sampleVertex 0 2 0 0 1] 3
    (by decide) (by decide)
  exact ⟨box, h1, h2, h3⟩

/-- Every pixel of a filled image is the fill colour. -/
theorem Image.filled_GetPixel (width height : Nat) (color : Color) (x y : Nat)
    (hx : x < width) (hy : y < height) :
    (Image.filled width height color).GetPixel x y = color := by
  have h : y * width + x < width * height := by
    calc y * width + x < y * width + width := by omega
      _ = (y + 1) * width := by ring
      _ ≤ height * width := Nat.mul_le_mul_right _ hy
      _ = width * height := Nat.mul_comm _ _
  simp only [Image.GetPixel, Image.filled, List.getD_eq_getElem?_getD]
  rw [List.getElem?_eq_getElem (by simpa using h)]
  simp

/-- The views of `ConstructViewsForTexture` are the images of the camera descriptions. -/
theorem ConstructViewsForTexture_eq_map (resourceCache : Option ResourceCache)
    (desc : TextureDescription) (textures : TextureMap) :
    ConstructViewsForTexture resourceCache desc textures
      = desc.cameras_.map (constructView resourceCache desc textures) := by
  unfold ConstructViewsForTexture
  have key : ∀ (cs : List OrthoCameraDescription) (acc : List ViewDescription)
      (g : OrthoCameraDescription → ViewDescription),
      cs.foldl (fun views c => views ++ [g c]) acc = acc ++ cs.map g := by
    intro cs
    induction cs with
    | nil => intro acc g; simp
    | cons c cs ih => intro acc g; simp [ih]
  exact (key desc.cameras_ [] _).trans (by simp)

/-- C18, as stated, fails: for a description without cameras of the colour
`(1/2, 1/2, 1/2, 1)`, the pixel of the texture of `RenderTexture` reads
`(127/255, 127/255, 127/255, 1)`, the colour as eight bits per channel keep it, and not the
colour of the description. -/
theorem RenderTexture_flat_stored :
    greyDescription.cameras_ = []
    ∧ (RenderTexture blankRenderViews quantize8 none greyDescription []).image_.GetPixel 0 0
        = ⟨127 / 255, 127 / 255, 127 / 255, 1⟩
    ∧ (RenderTexture blankRenderViews quantize8 none greyDescription []).image_.GetPixel 0 0
        ≠ greyDescription.color_ := by
  refine ⟨rfl, by decide!, by decide!⟩

/-- C18, amended: `RenderTexture` returns the flat texture of `desc.width_` by
`desc.height_` pixels, every pixel reading `desc.color_` as the image stores it (and so
`desc.color_` itself when its channels survive the store), whatever the renderer is, if
and only if the description has no cameras, or no geometries, or no render path;
otherwise its result is what the renderer makes of the views, which are one per camera,
in order, each with all the geometries. -/
theorem RenderTexture_flat_iff (quantize : ℚ → ℚ) (resourceCache : Option ResourceCache)
    (desc : TextureDescription) (textures : TextureMap) :
    ((desc.cameras_ = [] ∨ desc.geometries_ = [] ∨ desc.renderPath_ = none) ↔
      ∀ RenderViews : Nat → Nat → List ViewDescription → Texture2D,
        RenderTexture RenderViews quantize resourceCache desc textures
          = { image_ := Image.cleared quantize desc.width_ desc.height_ desc.color_ })
    ∧ (Image.cleared quantize desc.width_ desc.height_ desc.color_).width_ = desc.width_
    ∧ (Image.cleared quantize desc.width_ desc.height_ desc.color_).height_ = desc.height_
    ∧ (∀ x y, x < desc.width_ → y < desc.height_ →
        (Image.cleared quantize desc.width_ desc.height_ desc.color_).GetPixel x y
          = storedColor quantize desc.color_)
    ∧ (storedColor quantize desc.color_ = desc.color_ →
        ∀ x y, x < desc.width_ → y < desc.height_ →
          (Image.cleared quantize desc.width_ desc.height_ desc.color_).GetPixel x y
            = desc.color_)
    ∧ (¬ (desc.cameras_ = [] ∨ desc.geometries_ = [] ∨ desc.renderPath_ = none) →
        (∀ RenderViews : Nat → Nat → List ViewDescription → Texture2D,
          RenderTexture RenderViews quantize resourceCache desc textures
            = RenderViews desc.width_ desc.height_
                (ConstructViewsForTexture resourceCache desc textures))
        ∧ (ConstructViewsForTexture resourceCache desc textures).map (fun v => v.camera_)
            = desc.cameras_
        ∧ ∀ v ∈ ConstructViewsForTexture resourceCache desc textures,
            v.node_.length = desc.geometries_.length ∧ v.renderPath_ = desc.renderPath_) := by
  have hcond : (desc.cameras_.isEmpty ∨ desc.geometries_.isEmpty ∨ desc.renderPath_.isNone)
      ↔ (desc.cameras_ = [] ∨ desc.geometries_ = [] ∨ desc.renderPath_ = none) := by
    simp [List.isEmpty_iff, Option.isNone_iff_eq_none]
  have hrender : ¬ (desc.cameras_ = [] ∨ desc.geometries_ = [] ∨ desc.renderPath_ = none) →
      ∀ RenderViews : Nat → Nat → List ViewDescription → Texture2D,
        RenderTexture RenderViews quantize resourceCache desc textures
          = RenderViews desc.width_ desc.height_
              (ConstructViewsForTexture resourceCache desc textures) := by
    intro h RenderViews
    unfold RenderTexture
    rw [if_neg (fun hc => h (hcond.1 hc))]
  have hpixel : ∀ x y, x < desc.width_ → y < desc.height_ →
      (Image.cleared quantize desc.width_ desc.height_ desc.color_).GetPixel x y
        = storedColor quantize desc.color_ :=
    fun x y hx hy => Image.filled_GetPixel _ _ _ x y hx hy
  refine ⟨⟨?_, ?_⟩, rfl, rfl, hpixel, ?_, ?_⟩
  · intro h RenderViews
    unfold RenderTexture
    rw [if_pos (hcond.2 h)]
  · intro h
    by_contra hc
    have h1 := h (fun _ _ _ => { image_ := Image.filled (desc.width_ + 1) 0 desc.color_ })
    rw [hrender hc] at h1
    have h2 := congrArg (fun t => t.image_.width_) h1
    simp [Image.filled, Image.cleared] at h2
  · intro hfix x y hx hy
    rw [hpixel x y hx hy, hfix]
  · intro h
    have e := ConstructViewsForTexture_eq_map resourceCache desc textures
    refine ⟨hrender h, ?_, ?_⟩
    · rw [e, List.map_map]
      have : ((fun v => v.camera_) ∘ constructView resourceCache desc textures) = id := by
        funext c; rfl
      rw [this, List.map_id]
    · intro v hv
      rw [e] at hv
      obtain ⟨c, -, rfl⟩ := List.mem_map.1 hv
      exact ⟨by simp [constructView], rfl⟩

/-- Witness of the amended C18 on a description with one camera, one geometry and a
render path. -/
theorem RenderTexture_flat_iff_witness :
    ¬ (sampleDescription.cameras_ = [] ∨ sampleDescription.geometries_ = []
        ∨ sampleDescription.renderPath_ = none)
    ∧ ((∀ RenderViews : Nat → Nat → List ViewDescription → Texture2D,
          RenderTexture RenderViews quantize8 none sampleDescription []
            = RenderViews sampleDescription.width_ sampleDescription.height_
                (ConstructViewsForTexture none sampleDescription []))
        ∧ (ConstructViewsForTexture none sampleDescription []).map (fun v => v.camera_)
            = sampleDescription.cameras_
        ∧ ∀ v ∈ ConstructViewsForTexture none sampleDescription [],
            v.node_.length = sampleDescription.geometries_.length
              ∧ v.renderPath_ = sampleDescription.renderPath_) :=
  ⟨by simp [sampleDescription],
   (RenderTexture_flat_iff quantize8 none sampleDescription []).2.2.2.2.2
     (by simp [sampleDescription])⟩

/-- Registering no description leaves the texture map as it is. -/
theorem registerAll_nil (renderTexture : TextureDescription → TextureMap → Option Texture2D)
    (m : TextureMap) : registerAll renderTexture [] m = some m := rfl

/-- Unfolding `registerAll` at the first description. -/
theorem registerAll_cons (renderTexture : TextureDescription → TextureMap → Option Texture2D)
    (textureDesc : String × TextureDescription) (rest : List (String × TextureDescription))
    (m : TextureMap) :
    registerAll renderTexture (textureDesc :: rest) m
      = (renderTexture textureDesc.2 m).bind (fun texture =>
          registerAll renderTexture rest (m.Populate textureDesc.1 texture)) := by
  have hnone : ∀ l : List (String × TextureDescription),
      l.foldl (fun current textureDesc =>
        current.bind (fun m =>
          (renderTexture textureDesc.2 m).map (fun texture => m.Populate textureDesc.1 texture)))
        none = none := by
    intro l
    induction l with
    | nil => rfl
    | cons a l ih => simpa using ih
  unfold registerAll
  rw [List.foldl_cons]
  cases h : renderTexture textureDesc.2 m with
  | none =>
    simp only [Option.some_bind, h, Option.map_none', Option.none_bind]
    exact hnone rest
  | some texture =>
    simp only [Option.some_bind, h, Option.map_some']

/-- The loop of `Generate` stops at the first null texture. -/
theorem generateLoop_failure (renderTexture : TextureDescription → TextureMap → Option Texture2D)
    (pre : List (String × TextureDescription)) (textureDesc : String × TextureDescription)
    (post : List (String × TextureDescription)) (m0 m : TextureMap)
    (hpre : registerAll renderTexture pre m0 = some m)
    (hfail : renderTexture textureDesc.2 m = none) :
    generateLoop renderTexture (pre ++ textureDesc :: post) m0 = (false, m) := by
  induction pre generalizing m0 with
  | nil =>
    rw [registerAll_nil] at hpre
    cases hpre
    simp [generateLoop, hfail]
  | cons a pre ih =>
    rw [registerAll_cons] at hpre
    cases h : renderTexture a.2 m0 with
    | none => rw [h] at hpre; cases hpre
    | some texture =>
      rw [h] at hpre
      simp only [List.cons_append, generateLoop, h]
      exact ih _ hpre

/-- The fold of `Merge` over a non-empty range of points is their minimum and maximum. -/
theorem foldl_Merge_IsMinMaxOf (pos : Nat → Vector3Q) (n : Nat) (hn : 0 < n) :
    ((List.range n).foldl (fun box i => box.Merge (pos i)) BoundingBox.empty).IsMinMaxOf
      pos n := by
  obtain ⟨n, rfl⟩ : ∃ m, n = m + 1 := ⟨n - 1, by omega⟩
  have hx := foldl_Merge_component (fun v => v.x_)
    (fun box p => by unfold BoundingBox.Merge; split <;> rfl)
    (fun box p => by unfold BoundingBox.Merge; split <;> rfl) pos n
  have hy := foldl_Merge_component (fun v => v.y_)
    (fun box p => by unfold BoundingBox.Merge; split <;> rfl)
    (fun box p => by unfold BoundingBox.Merge; split <;> rfl) pos n
  have hz := foldl_Merge_component (fun v => v.z_)
    (fun box p => by unfold BoundingBox.Merge; split <;> rfl)
    (fun box p => by unfold BoundingBox.Merge; split <;> rfl) pos n
  refine ⟨hx.1, ?_, hx.2.2.1, hy.2.2.1, hz.2.2.1, hx.2.2.2, hy.2.2.2, hz.2.2.2⟩
  intro i hi
  exact ⟨(hx.2.1 i hi).1, (hx.2.1 i hi).2, (hy.2.1 i hi).1, (hy.2.1 i hi).2,
    (hz.2.1 i hi).1, (hz.2.1 i hi).2⟩

/-- The offset found by the position loop leaves room for a `Vector3` inside the vertex. -/
theorem findPositionOffset_bound (typeSize : VertexElementType → Nat)
    (hv3 : 12 ≤ typeSize .TYPE_VECTOR3) (hv4 : 12 ≤ typeSize .TYPE_VECTOR4)
    (elements : List VertexElement) (elementOffset offset : Nat)
    (h : findPositionOffset (UpdateOffsets typeSize elements elementOffset) = some offset) :
    offset + 12 ≤ elementOffset + VertexBuffer.GetVertexSize typeSize elements := by
  induction elements generalizing elementOffset with
  | nil => simp [UpdateOffsets, findPositionOffset] at h
  | cons e rest ih =>
    simp only [UpdateOffsets, findPositionOffset, isPositionElement] at h
    simp only [VertexBuffer.GetVertexSize, List.map_cons, List.sum_cons]
    split at h
    · split at h
      · cases h
      · rename_i hty
        cases h
        have : e.type_ = .TYPE_VECTOR3 ∨ e.type_ = .TYPE_VECTOR4 := by
          by_contra hc
          push_neg at hc
          exact hty hc
        rcases this with e3 | e4
        · rw [e3]; omega
        · rw [e4]; omega
    · have := ih _ h
      simp only [VertexBuffer.GetVertexSize] at this
      omega

/-- The position loop finds an offset exactly when the first position element has type
`Vector3` or `Vector4`. -/
theorem findPositionOffset_isSome (typeSize : VertexElementType → Nat)
    (elements : List VertexElement) (elementOffset : Nat) :
    (findPositionOffset (UpdateOffsets typeSize elements elementOffset)).isSome
      ↔ ∃ element, elements.find? isPositionElement = some element
          ∧ (element.type_ = .TYPE_VECTOR3 ∨ element.type_ = .TYPE_VECTOR4) := by
  induction elements generalizing elementOffset with
  | nil => simp [UpdateOffsets, findPositionOffset]
  | cons e rest ih =>
    simp only [UpdateOffsets, findPositionOffset]
    have hp : isPositionElement { e with offset_ := elementOffset } = isPositionElement e := rfl
    rw [hp]
    by_cases h : isPositionElement e = true
    · rw [if_pos h, List.find?_cons_of_pos _ h]
      by_cases hty : e.type_ = .TYPE_VECTOR3 ∨ e.type_ = .TYPE_VECTOR4
      · rw [if_neg (by push_neg; intro h3; rcases hty with h | h; exact absurd h h3; exact h)]
        simp only [Option.isSome_some, true_iff]
        exact ⟨e, rfl, hty⟩
      · rw [if_pos (by push_neg at hty; exact hty)]
        simp only [Option.isSome_none, Bool.false_eq_true, false_iff]
        rintro ⟨e2, he, hty2⟩
        cases he
        exact hty hty2
    · rw [if_neg h, List.find?_cons_of_neg _ h]
      exact ih _

/-- In a list with at most one element satisfying `p`, the first such element is the
only one. -/
theorem find?_of_filter_length_le_one {α : Type} (p : α → Bool) (Q : α → Prop) (l : List α)
    (h : (l.filter p).length ≤ 1) :
    (∃ a, l.find? p = some a ∧ Q a) ↔ ∃ a ∈ l, p a = true ∧ Q a := by
  constructor
  · rintro ⟨a, ha, hq⟩
    exact ⟨a, List.mem_of_find?_eq_some ha, List.find?_some ha, hq⟩
  · rintro ⟨a, hmem, hp, hq⟩
    cases hf : l.find? p with
    | none =>
      have := List.find?_eq_none.1 hf a hmem
      exact absurd hp this
    | some b =>
      have hb : b ∈ l.filter p :=
        List.mem_filter.2 ⟨List.mem_of_find?_eq_some hf, List.find?_some hf⟩
      have ha : a ∈ l.filter p := List.mem_filter.2 ⟨hmem, hp⟩
      have hab : b = a := by
        match hl : l.filter p, h, ha, hb with
        | [], _, ha, _ => cases ha
        | [x], _, ha, hb =>
          rw [List.mem_singleton] at ha hb
          rw [ha, hb]
        | _ :: _ :: _, h, _, _ => simp at h
      exact ⟨b, rfl, hab ▸ hq⟩

/-- C17, as stated, fails: the layout of `duplicatePositionFactory` contains a position
element (semantic POSITION, index 0) of type `Vector3`, behind one of type `Vector2`; the
position loop of `BuildModel` stops at the first of the two, finds no offset, and the model
is returned without a call of `SetBoundingBox`. -/
theorem BuildModel_second_position_ignored :
    (∃ element ∈ duplicatePositionFactory.vertexElements_,
        (element.semantic_ = .SEM_POSITION ∧ element.index_ = 0)
        ∧ element.type_ = .TYPE_VECTOR3)
    ∧ duplicatePositionFactory.vertexSize_
        = VertexBuffer.GetVertexSize ELEMENT_TYPESIZES duplicatePositionFactory.vertexElements_
    ∧ findPositionOffset
        (UpdateOffsets ELEMENT_TYPESIZES duplicatePositionFactory.vertexElements_ 0) = none
    ∧ duplicatePositionFactory.BuildModel.isSome = true
    ∧ Option.map (fun r => r.2.isSome)
        (duplicatePositionFactory.BuildModelBox ELEMENT_TYPESIZES decodeFirstBytes)
      = some false := by
  refine ⟨⟨⟨.TYPE_VECTOR3, .SEM_POSITION, 0, 0⟩, by decide, ⟨rfl, rfl⟩, rfl⟩, by decide,
    by decide, by decide, by decide⟩

/-- C17, amended: for a factory whose stride is not zero and is that of its layout,
`BuildModel` returns the model with its merged buffers and draw ranges whatever the layout
is; it calls `SetBoundingBox` if and only if the first position element (semantic
POSITION, index 0) of the layout has type `Vector3` or `Vector4`, which for a layout with
at most one position element is to say that the layout contains such an element; the box
set is the componentwise minimum and maximum of the positions of all merged vertices, and
the empty box when there is no vertex. -/
theorem BuildModel_boundingBox (typeSize : VertexElementType → Nat)
    (decode : List Byte → Vector3Q) (f : ModelFactory)
    (hs : 0 < f.GetVertexSize)
    (hsize : f.vertexSize_ = VertexBuffer.GetVertexSize typeSize f.vertexElements_)
    (hv3 : 12 ≤ typeSize .TYPE_VECTOR3) (hv4 : 12 ≤ typeSize .TYPE_VECTOR4) :
    ∃ model boundingBox,
      f.BuildModel = some model
      ∧ f.BuildModelBox typeSize decode = some (model, boundingBox)
      ∧ (boundingBox.isSome ↔
          ∃ element, f.vertexElements_.find? isPositionElement = some element
            ∧ (element.type_ = .TYPE_VECTOR3 ∨ element.type_ = .TYPE_VECTOR4))
      ∧ ((f.vertexElements_.filter isPositionElement).length ≤ 1 →
          (boundingBox.isSome ↔
            ∃ element ∈ f.vertexElements_,
              (element.semantic_ = .SEM_POSITION ∧ element.index_ = 0)
              ∧ (element.type_ = .TYPE_VECTOR3 ∨ element.type_ = .TYPE_VECTOR4)))
      ∧ ∀ box, boundingBox = some box →
          (model.vertexCount = 0 → box = BoundingBox.empty)
          ∧ (0 < model.vertexCount →
              box.IsMinMaxOf (f.mergedPosition typeSize decode model) model.vertexCount) := by
  have hstride : 0 < f.vertexSize_ := hs
  obtain ⟨model, hm, hlen⟩ : ∃ model, f.BuildModel = some model
      ∧ model.vertexData.length = model.vertexCount * f.vertexSize_ := by
    refine ⟨_, f.BuildModel_eq hs, ?_⟩
    simp only [List.length_take, ModelFactory.GetVertexSize]
    exact min_eq_left (Nat.div_mul_le_self _ _)
  have hfirst : ∀ boundingBox : Option BoundingBox,
      (boundingBox.isSome ↔
        (findPositionOffset (UpdateOffsets typeSize f.vertexElements_ 0)).isSome) →
      (boundingBox.isSome ↔
          ∃ element, f.vertexElements_.find? isPositionElement = some element
            ∧ (element.type_ = .TYPE_VECTOR3 ∨ element.type_ = .TYPE_VECTOR4))
      ∧ ((f.vertexElements_.filter isPositionElement).length ≤ 1 →
          (boundingBox.isSome ↔
            ∃ element ∈ f.vertexElements_,
              (element.semantic_ = .SEM_POSITION ∧ element.index_ = 0)
              ∧ (element.type_ = .TYPE_VECTOR3 ∨ element.type_ = .TYPE_VECTOR4))) := by
    intro boundingBox hb
    have h1 := hb.trans (findPositionOffset_isSome typeSize f.vertexElements_ 0)
    refine ⟨h1, fun huniq => h1.trans ?_⟩
    rw [find?_of_filter_length_le_one _ _ _ huniq]
    simp [isPositionElement]
  cases hoff : findPositionOffset (UpdateOffsets typeSize f.vertexElements_ 0) with
  | none =>
    refine ⟨model, none, hm, ?_, (hfirst none (by simp [hoff])).1,
      (hfirst none (by simp [hoff])).2, ?_⟩
    · simp only [ModelFactory.BuildModelBox, hm, hoff]
    · intro box hbox; cases hbox
  | some positionOffset =>
    have hbound := findPositionOffset_bound typeSize hv3 hv4 f.vertexElements_ 0
      positionOffset hoff
    rw [Nat.zero_add, ← hsize] at hbound
    have hguard : ¬ (model.vertexCount ≠ 0 ∧ model.vertexData.length
        < positionOffset + f.vertexSize_ * (model.vertexCount - 1) + 12) := by
      rintro ⟨h0, hlt⟩
      obtain ⟨n, hn⟩ : ∃ n, model.vertexCount = n + 1 := ⟨model.vertexCount - 1, by omega⟩
      rw [hlen, hn] at hlt
      have e : (n + 1) * f.vertexSize_ = f.vertexSize_ * n + f.vertexSize_ := by ring
      rw [e, Nat.add_sub_cancel] at hlt
      omega
    have hbox : f.BuildModelBox typeSize decode = some (model, some
        ((List.range model.vertexCount).foldl
          (fun box i => box.Merge (f.mergedPosition typeSize decode model i))
          BoundingBox.empty)) := by
      simp only [ModelFactory.BuildModelBox, hm, hoff, ModelFactory.mergePositions,
        if_neg hguard, Option.map_some', ModelFactory.mergedPosition, Option.getD_some]
    refine ⟨model, _, hm, hbox, (hfirst _ (by simp [hoff])).1, (hfirst _ (by simp [hoff])).2, ?_⟩
    intro box hb
    cases hb
    refine ⟨fun h0 => by rw [h0]; rfl, fun hpos => foldl_Merge_IsMinMaxOf _ _ hpos⟩

/-- Witness of the amended C17 on a factory with a colour and a position channel. -/
theorem BuildModel_boundingBox_witness :
    ∃ model boundingBox,
      positionFactory.BuildModel = some model
      ∧ positionFactory.BuildModelBox ELEMENT_TYPESIZES decodeFirstBytes
          = some (model, boundingBox)
      ∧ boundingBox.isSome := by
  obtain ⟨model, boundingBox, h1, h2, h3, -⟩ :=
    BuildModel_boundingBox ELEMENT_TYPESIZES decodeFirstBytes positionFactory
      (by decide) (by decide) (by decide) (by decide)
  exact ⟨model, boundingBox, h1, h2, h3.2 ⟨⟨.TYPE_VECTOR3, .SEM_POSITION, 0, 0⟩, by decide,
    Or.inl rfl⟩⟩

theorem Clamp_of_lt (i w : Nat) (h : i < w) : Clamp (i : Int) 0 ((w : Int) - 1) = i := by
  unfold Clamp
  rw [if_neg (by omega), if_neg (by omega)]

/-- Writing a pixel inside the image. -/
theorem Image.SetPixel_inside (quantize : ℚ → ℚ) (image : Image) (i j : Nat) (color : Color)
    (hi : i < image.width_) (hj : j < image.height_) :
    image.SetPixel quantize i j color
      = { image with
          data_ := image.data_.set (j * image.width_ + i) (storedColor quantize color) } := by
  unfold Image.SetPixel
  rw [if_neg (by omega)]
  simp

/-- Reading a stored pixel inside the image. -/
theorem Image.GetPixelClamped_inside (image : Image) (i j : Nat)
    (hi : i < image.width_) (hj : j < image.height_)
    (hlt : j * image.width_ + i < image.data_.length) :
    image.GetPixelClamped i j = image.data_.getD (j * image.width_ + i) ⟨0, 0, 0, 0⟩ := by
  unfold Image.GetPixelClamped
  have hne : image.data_.isEmpty = false := by
    cases h : image.data_ with
    | nil => rw [h] at hlt; simp at hlt
    | cons a l => rfl
  rw [hne, Clamp_of_lt i _ hi, Clamp_of_lt j _ hj]
  simp [Image.GetPixel]

/-- One step of the last loop keeps the alpha of every pixel and the opaque pixels. -/
theorem fillPixel_KeepsOpaque (quantize : ℚ → ℚ) (indefinite : Int)
    (sdf : SignedDistanceField) (downsampleFactor : Nat) (inputImage image current : Image)
    (i j : Nat) (hstored : ∀ c ∈ image.data_, storedColor quantize c = c)
    (hi : i < image.width_) (hj : j < image.height_) (h : image.KeepsOpaque current) :
    image.KeepsOpaque
      (fillPixel quantize indefinite sdf downsampleFactor inputImage current i j) := by
  obtain ⟨hw, hh, hlen, hpix⟩ := h
  unfold fillPixel
  simp only []
  rw [Image.SetPixel_inside _ _ _ _ _ (by omega) (by omega)]
  refine ⟨hw, hh, by simpa using hlen, ?_⟩
  intro n
  simp only [List.getD_eq_getElem?_getD, List.getElem?_set]
  by_cases hn : j * current.width_ + i = n
  · by_cases hlt : n < current.data_.length
    · subst hn
      have horig : image.data_.getD (j * current.width_ + i) ⟨0, 0, 0, 0⟩ ∈ image.data_ := by
        rw [List.getD_eq_getElem?_getD, List.getElem?_eq_getElem (by omega)]
        exact List.getElem_mem _
      have hst := hstored _ horig
      have hpx := hpix (j * current.width_ + i)
      rw [Image.GetPixelClamped_inside _ _ _ (by omega) (by omega) hlt]
      simp only [List.getD_eq_getElem?_getD] at hpx horig hst ⊢
      simp only [if_true, hlt, if_pos]
      by_cases ha : (current.data_[j * current.width_ + i]?.getD ⟨0, 0, 0, 0⟩).a_
          > M_LARGE_EPSILON
      · rw [if_pos ha]
        have ha2 : (image.data_[j * current.width_ + i]?.getD ⟨0, 0, 0, 0⟩).a_
            > M_LARGE_EPSILON := by rw [← hpx.1]; exact ha
        rw [hpx.2 ha2]
        simp only [Option.getD_some, hst]
        exact ⟨trivial, fun _ => trivial⟩
      · rw [if_neg ha]
        have ha2 : ¬ (image.data_[j * current.width_ + i]?.getD ⟨0, 0, 0, 0⟩).a_
            > M_LARGE_EPSILON := by rw [← hpx.1]; exact ha
        have hqa := congrArg Color.a_ hst
        simp only [storedColor] at hqa
        simp only [Option.getD_some, storedColor, hpx.1, hqa, true_and]
        intro hc
        exact absurd hc ha2
    · subst hn
      have hpx := hpix (j * current.width_ + i)
      simp only [List.getD_eq_getElem?_getD] at hpx
      simp only [if_true, hlt, if_false]
      have e1 : current.data_[j * current.width_ + i]? = none :=
        List.getElem?_eq_none (by omega)
      rw [e1] at hpx
      exact hpx
  · have hpx := hpix n
    simp only [List.getD_eq_getElem?_getD] at hpx
    simp only [if_neg hn]
    exact hpx

/-- The last loop keeps the alpha of every pixel and the opaque pixels. -/
theorem fillLoop_KeepsOpaque (quantize : ℚ → ℚ) (indefinite : Int)
    (sdf : SignedDistanceField) (downsample : Nat) (inputImage image : Image)
    (hstored : ∀ c ∈ image.data_, storedColor quantize c = c) :
    image.KeepsOpaque (fillLoop quantize indefinite sdf downsample inputImage image) :=
  raster_forward image.width_ image.height_
    (fun t i j => fillStep quantize indefinite sdf downsample inputImage t i j)
    (fun _ t => image.KeepsOpaque t)
    (fun s i j hi hj hs => fillPixel_KeepsOpaque quantize indefinite _ _ _ image s i j
      hstored hi hj hs)
    image ⟨rfl, rfl, rfl, fun _ => ⟨rfl, fun _ => rfl⟩⟩

/-- C12: for every image whose colours are stored colours and every `downsample` below
32, `FillImageGaps` returns, and the image afterwards has the same size, the alpha of every
pixel is what it was, and every pixel whose alpha exceeds `M_LARGE_EPSILON` is unchanged:
only the colour channels of pixels at or below the threshold can differ. -/
theorem FillImageGaps_preserves (GetNextLevel : Image → Image) (quantize : ℚ → ℚ)
    (indefinite : Int) (image : Image) (downsample : Nat)
    (hd : downsample < 32)
    (hstored : ∀ c ∈ image.data_, storedColor quantize c = c) :
    ∃ result, FillImageGaps GetNextLevel quantize indefinite image downsample = some result
      ∧ result.width_ = image.width_ ∧ result.height_ = image.height_
      ∧ result.data_.length = image.data_.length
      ∧ ∀ x y, x < image.width_ → y < image.height_ →
          (result.GetPixel x y).a_ = (image.GetPixel x y).a_
          ∧ ((image.GetPixel x y).a_ > M_LARGE_EPSILON →
              result.GetPixel x y = image.GetPixel x y) := by
  obtain ⟨hw, hh, hlen, hpix⟩ := fillLoop_KeepsOpaque quantize indefinite
    (SignedDistanceField.create (downsampledImage GetNextLevel quantize image downsample) true)
    downsample (downsampledImage GetNextLevel quantize image downsample) image hstored
  refine ⟨_, by unfold FillImageGaps; rw [if_neg (by omega)], hw, hh, hlen, ?_⟩
  intro x y _ _
  have hp := hpix (y * image.width_ + x)
  simp only [Image.GetPixel, hw]
  exact hp

/-- Witness of C12 on the 3 by 3 image with a transparent centre. -/
theorem FillImageGaps_preserves_witness :
    ∃ result, FillImageGaps id quantize8 0 centreGapImage 0 = some result
      ∧ (result.GetPixel 1 1).a_ = (centreGapImage.GetPixel 1 1).a_
      ∧ result.GetPixel 0 0 = centreGapImage.GetPixel 0 0 := by
  obtain ⟨result, h, -, -, -, hpix⟩ :=
    FillImageGaps_preserves id quantize8 0 centreGapImage 0 (by decide) (by decide!)
  exact ⟨result, h, (hpix 1 1 (by decide) (by decide)).1,
    (hpix 0 0 (by decide) (by decide)).2 (by decide!)⟩

/-- C11 fails for a transparent pixel in the first row: in the 2 by 2 image that is
opaque white except for the transparent black pixel `(0, 0)`, the field gives the offset
`(0, -1)` for that pixel (its nearest pixel across the edge), `GetNearestPixel` returns
`(0, -1)`, which the image read clamps back to `(0, 0)`, and `FillImageGaps` with
`downsample` 0 leaves the pixel black; a transparent pixel away from the first row and
column, as the centre of the 3 by 3 image, does get the colour of its neighbours. -/
theorem FillImageGaps_corner_gap :
    (SignedDistanceField.create cornerGapImage true).GetNearestPixel 0 0 = some ⟨0, -1⟩
    ∧ cornerGapImage.GetPixelClamped 0 (-1) = ⟨0, 0, 0, 0⟩
    ∧ FillImageGaps id quantize8 0 cornerGapImage 0 = some cornerGapImage
    ∧ cornerGapImage.GetPixel 0 0 = ⟨0, 0, 0, 0⟩
    ∧ (∀ x, x < 2 → ∀ y, y < 2 → (x, y) ≠ (0, 0) →
        cornerGapImage.GetPixel x y = ⟨1, 1, 1, 1⟩)
    ∧ (FillImageGaps id quantize8 0 centreGapImage 0).map (fun r => r.GetPixel 1 1)
        = some ⟨1, 1, 1, 0⟩ := by
  decide!

theorem Lerp_zero (lhs rhs : ℚ) : Lerp lhs rhs 0 = lhs := by
  unfold Lerp; ring

theorem Lerp_one (lhs rhs : ℚ) : Lerp lhs rhs 1 = rhs := by
  unfold Lerp; ring

theorem LerpVector3_zero (lhs rhs : Vector3Q) : LerpVector3 lhs rhs 0 = lhs := by
  cases lhs; cases rhs
  simp [LerpVector3, Vector3Q.mul, Vector3Q.add]

theorem LerpVector3_one (lhs rhs : Vector3Q) : LerpVector3 lhs rhs 1 = rhs := by
  cases lhs; cases rhs
  simp [LerpVector3, Vector3Q.mul, Vector3Q.add]

theorem LerpVector4_zero (lhs rhs : Vector4Q) : LerpVector4 lhs rhs 0 = lhs := by
  cases lhs; cases rhs
  simp [LerpVector4]

theorem LerpVector4_one (lhs rhs : Vector4Q) : LerpVector4 lhs rhs 1 = rhs := by
  cases lhs; cases rhs
  simp [LerpVector4]

/-- C27: at the factor pairs `(0, 0)`, `(1, 0)`, `(0, 1)` and `(1, 1)` the vertex of
`QLerpVertices` has the position, the four UV channels, the four colour channels and the
four bone weights of `v0`, `v1`, `v2` and `v3` respectively, and for all factors its
position is the bilinear blend `Lerp(Lerp(p0, p1, f1), Lerp(p2, p3, f1), f2)`. -/
theorem QLerpVertices_corners (normalized : Vector3Q → Vector3Q) (v0 v1 v2 v3 : DefaultVertex) :
    ((QLerpVertices normalized v0 v1 v2 v3 0 0).position_ = v0.position_
      ∧ (QLerpVertices normalized v0 v1 v2 v3 0 0).uv_ = v0.uv_
      ∧ (QLerpVertices normalized v0 v1 v2 v3 0 0).colors_ = v0.colors_
      ∧ (QLerpVertices normalized v0 v1 v2 v3 0 0).boneWeights_ = v0.boneWeights_)
    ∧ ((QLerpVertices normalized v0 v1 v2 v3 1 0).position_ = v1.position_
      ∧ (QLerpVertices normalized v0 v1 v2 v3 1 0).uv_ = v1.uv_
      ∧ (QLerpVertices normalized v0 v1 v2 v3 1 0).colors_ = v1.colors_
      ∧ (QLerpVertices normalized v0 v1 v2 v3 1 0).boneWeights_ = v1.boneWeights_)
    ∧ ((QLerpVertices normalized v0 v1 v2 v3 0 1).position_ = v2.position_
      ∧ (QLerpVertices normalized v0 v1 v2 v3 0 1).uv_ = v2.uv_
      ∧ (QLerpVertices normalized v0 v1 v2 v3 0 1).colors_ = v2.colors_
      ∧ (QLerpVertices normalized v0 v1 v2 v3 0 1).boneWeights_ = v2.boneWeights_)
    ∧ ((QLerpVertices normalized v0 v1 v2 v3 1 1).position_ = v3.position_
      ∧ (QLerpVertices normalized v0 v1 v2 v3 1 1).uv_ = v3.uv_
      ∧ (QLerpVertices normalized v0 v1 v2 v3 1 1).colors_ = v3.colors_
      ∧ (QLerpVertices normalized v0 v1 v2 v3 1 1).boneWeights_ = v3.boneWeights_)
    ∧ ∀ factor1 factor2 : ℚ,
        (QLerpVertices normalized v0 v1 v2 v3 factor1 factor2).position_
          = LerpVector3 (LerpVector3 v0.position_ v1.position_ factor1)
              (LerpVector3 v2.position_ v3.position_ factor1) factor2 := by
  refine ⟨⟨?_, ?_, ?_, ?_⟩, ⟨?_, ?_, ?_, ?_⟩, ⟨?_, ?_, ?_, ?_⟩, ⟨?_, ?_, ?_, ?_⟩,
    fun _ _ => rfl⟩ <;>
  first
  | (funext i
     simp only [QLerpVertices, LerpVertices, LerpVector4_zero, LerpVector4_one, Lerp_zero,
       Lerp_one])
  | simp only [QLerpVertices, LerpVertices, LerpVector3_zero, LerpVector3_one]

/-- C29: `LerpVertices` takes all four bone indices from `lhs` whatever `rhs` and the factor
are; at factor 1 the bone weights are those of `rhs`, so the result differs from `rhs`
whenever the bone indices of `lhs` and `rhs` differ. -/
theorem LerpVertices_boneIndices (normalized : Vector3Q → Vector3Q) (lhs rhs : DefaultVertex)
    (factor : ℚ) :
    (LerpVertices normalized lhs rhs factor).boneIndices_ = lhs.boneIndices_
    ∧ (LerpVertices normalized lhs rhs 1).boneWeights_ = rhs.boneWeights_
    ∧ (lhs.boneIndices_ ≠ rhs.boneIndices_ → LerpVertices normalized lhs rhs 1 ≠ rhs) := by
  refine ⟨rfl, ?_, ?_⟩
  · funext i
    simp only [LerpVertices, Lerp_one]
  · intro h e
    have e2 := congrArg DefaultVertex.boneIndices_ e
    exact h e2

/-- Witness of C29 on two vertices with the bone indices 1 and 2. -/
theorem LerpVertices_boneIndices_witness :
    (boneVertex 1 0).boneIndices_ ≠ (boneVertex 2 1).boneIndices_
    ∧ LerpVertices id (boneVertex 1 0) (boneVertex 2 1) 1 ≠ boneVertex 2 1
    ∧ (LerpVertices id (boneVertex 1 0) (boneVertex 2 1) 1).boneWeights_
        = (boneVertex 2 1).boneWeights_ :=
  have h : (boneVertex 1 0).boneIndices_ ≠ (boneVertex 2 1).boneIndices_ :=
    fun e => absurd (congrFun e 0) (by decide)
  ⟨h, (LerpVertices_boneIndices id (boneVertex 1 0) (boneVertex 2 1) 1).2.2 h,
    (LerpVertices_boneIndices id (boneVertex 1 0) (boneVertex 2 1) 1).2.1⟩

/-- The components of `Wrap` are the remainders of Euclidean division. -/
theorem SignedDistanceField.Wrap_eq (s : SignedDistanceField) (x y : Int)
    (hw : 0 < s.width_) (hh : 0 < s.height_) :
    s.Wrap ⟨x, y⟩ = ⟨x % (s.width_ : Int), y % (s.height_ : Int)⟩ := by
  simp only [SignedDistanceField.Wrap]
  rw [wrap_eq_emod x s.width_ hw, wrap_eq_emod y s.height_ hh]

/-- C25: for a field with `width_ > 0` and `height_ > 0` and every pair of integers,
`Wrap` returns coordinates inside the field that are congruent to the given ones modulo
`width_` and `height_`; so `GetPixel` is periodic in both coordinates, and the position
that `GetPixel` and `SetPixel` index lies inside a data array of `width_ * height_`
entries. -/
theorem Wrap_in_range (s : SignedDistanceField) (x y : Int)
    (hw : 0 < s.width_) (hh : 0 < s.height_) :
    (0 ≤ (s.Wrap ⟨x, y⟩).x_ ∧ (s.Wrap ⟨x, y⟩).x_ < s.width_
      ∧ (s.Wrap ⟨x, y⟩).x_ % (s.width_ : Int) = x % (s.width_ : Int))
    ∧ (0 ≤ (s.Wrap ⟨x, y⟩).y_ ∧ (s.Wrap ⟨x, y⟩).y_ < s.height_
      ∧ (s.Wrap ⟨x, y⟩).y_ % (s.height_ : Int) = y % (s.height_ : Int))
    ∧ (∀ a b : Int,
        s.GetPixel (x + a * s.width_) (y + b * s.height_) = s.GetPixel x y
        ∧ ∀ value, s.SetPixel (x + a * s.width_) (y + b * s.height_) value
            = s.SetPixel x y value)
    ∧ (s.data_.length = s.width_ * s.height_ →
        0 ≤ s.pixelIndex x y ∧ (s.pixelIndex x y).toNat < s.data_.length) := by
  have hw' : (0 : Int) < s.width_ := by exact_mod_cast hw
  have hh' : (0 : Int) < s.height_ := by exact_mod_cast hh
  have e := s.Wrap_eq x y hw hh
  have hx0 := Int.emod_nonneg x (ne_of_gt hw')
  have hx1 := Int.emod_lt_of_pos x hw'
  have hy0 := Int.emod_nonneg y (ne_of_gt hh')
  have hy1 := Int.emod_lt_of_pos y hh'
  have hper : ∀ a b : Int,
      s.pixelIndex (x + a * s.width_) (y + b * s.height_) = s.pixelIndex x y := by
    intro a b
    simp only [SignedDistanceField.pixelIndex, s.Wrap_eq _ _ hw hh, Int.add_mul_emod_self]
  refine ⟨?_, ?_, ?_, ?_⟩
  · rw [e]
    exact ⟨hx0, hx1, Int.emod_emod_of_dvd x (dvd_refl _)⟩
  · rw [e]
    exact ⟨hy0, hy1, Int.emod_emod_of_dvd y (dvd_refl _)⟩
  · intro a b
    constructor
    · simp only [SignedDistanceField.GetPixel, hper]
    · intro value
      simp only [SignedDistanceField.SetPixel, hper]
  · intro hlen
    have hidx : s.pixelIndex x y
        = y % (s.height_ : Int) * s.width_ + x % (s.width_ : Int) := by
      simp only [SignedDistanceField.pixelIndex, e]
    have hnn : 0 ≤ s.pixelIndex x y := by
      rw [hidx]
      exact Int.add_nonneg (Int.mul_nonneg hy0 (le_of_lt hw')) hx0
    refine ⟨hnn, ?_⟩
    rw [s.pixelIndex_eq x y hw hh, hlen]
    exact index_lt _ _ _ _ (wrapCoord_lt _ _ hw) (wrapCoord_lt _ _ hh)

/-- Witness of C25 on a 4 by 4 field at the pixel `(-1, 9)`. -/
theorem Wrap_in_range_witness :
    (0 ≤ ((⟨4, 4, List.replicate 16 Vector3.ZERO⟩ : SignedDistanceField).Wrap ⟨-1, 9⟩).x_
      ∧ ((⟨4, 4, List.replicate 16 Vector3.ZERO⟩ : SignedDistanceField).Wrap ⟨-1, 9⟩).x_
          < ((4 : Nat) : Int)
      ∧ ((⟨4, 4, List.replicate 16 Vector3.ZERO⟩ : SignedDistanceField).Wrap ⟨-1, 9⟩).x_
          % ((4 : Nat) : Int) = -1 % ((4 : Nat) : Int))
    ∧ (⟨4, 4, List.replicate 16 Vector3.ZERO⟩ : SignedDistanceField).Wrap ⟨-1, 9⟩ = ⟨3, 1⟩ :=
  ⟨(Wrap_in_range ⟨4, 4, List.replicate 16 Vector3.ZERO⟩ (-1) 9 (by decide) (by decide)).1,
    by decide⟩

/-- C24, as stated, fails: after the initialisation loop on the 4 by 4 image whose only
pixel with alpha is `(0, 0)`, the gap pixel `(1, 0)` holds `(+infinity, +infinity,
+infinity)`, not the offset `(0, 0)` with the distance `+infinity`. -/
theorem initialise_gap_offset :
    singlePixelImage.isGap true 1 0 = true
    ∧ (SignedDistanceField.initialise singlePixelImage true
        ⟨4, 4, List.replicate (4 * 4) Vector3.ZERO⟩).GetPixel 1 0
        = ⟨.infinity, .infinity, .infinity⟩
    ∧ (SignedDistanceField.initialise singlePixelImage true
        ⟨4, 4, List.replicate (4 * 4) Vector3.ZERO⟩).GetPixel 1 0
        ≠ ⟨.finite 0, .finite 0, .infinity⟩ := by
  refine ⟨by decide!, by decide!, by decide!⟩

/-- C24, amended: after the initialisation loop of the constructor and before the forward
pass, a gap pixel holds `(+infinity, +infinity, +infinity)` and a pixel that is not a gap
holds `(0, 0, 0)`, where a pixel is a gap iff its alpha is below the threshold when
`isTransparent` is true, and iff its luma is below the threshold otherwise. -/
theorem initialise_pixels (image : Image) (isTransparent : Bool) (a b : Nat)
    (ha : a < image.width_) (hb : b < image.height_) :
    (SignedDistanceField.initialise image isTransparent
        ⟨image.width_, image.height_,
          List.replicate (image.width_ * image.height_) Vector3.ZERO⟩).GetPixel a b
      = (if image.isGap isTransparent a b then ⟨.infinity, .infinity, .infinity⟩
         else ⟨.finite 0, .finite 0, .sqrt 0⟩)
    ∧ (image.isGap isTransparent a b = true ↔
        if isTransparent = true then (image.GetPixel a b).a_ < M_LARGE_EPSILON
        else (image.GetPixel a b).Luma < M_LARGE_EPSILON) := by
  obtain ⟨h1, h2, _, h4⟩ := SignedDistanceField.initialise_spec image isTransparent
    image.width_ image.height_
  constructor
  · rw [SignedDistanceField.GetPixel_eq _ _ _ (by rw [h1]; omega) (by rw [h2]; omega), h1, h2,
      wrapCoord_of_lt _ _ ha, wrapCoord_of_lt _ _ hb, h4 a b ha hb]
    rfl
  · unfold Image.isGap isGapPixel
    cases isTransparent <;> simp

/-- Witness of the amended C24 on the pixels `(1, 0)` and `(0, 0)` of the 4 by 4 image. -/
theorem initialise_pixels_witness :
    (SignedDistanceField.initialise singlePixelImage true
        ⟨4, 4, List.replicate (4 * 4) Vector3.ZERO⟩).GetPixel 1 0
      = (if singlePixelImage.isGap true 1 0 then ⟨.infinity, .infinity, .infinity⟩
         else ⟨.finite 0, .finite 0, .sqrt 0⟩) :=
  (initialise_pixels singlePixelImage true 1 0 (by decide) (by decide)).1

/-- Reading a global variable back after `SetGlobalVar`. -/
theorem Context.GetGlobalVar_SetGlobalVar (context : Context) (key : String)
    (value : GlobalVariant) : (context.SetGlobalVar key value).GetGlobalVar key = value := by
  simp [Context.SetGlobalVar, Context.GetGlobalVar]

/-- C28 fails: `GetOrCreateQuadModel` stores back the variant it read, not the model it
created, so a call never changes the global variable `DefaultRenderTargetModel`; on a
context without that variable the first call creates model 0 and leaves the variable
empty, and the second call creates model 1 instead of returning model 0. -/
theorem GetOrCreateQuadModel_not_cached :
    (∀ context : Context,
      (GetOrCreateQuadModel context).2.GetGlobalVar modelName
        = context.GetGlobalVar modelName)
    ∧ (GetOrCreateQuadModel emptyContext).1 = 0
    ∧ (GetOrCreateQuadModel emptyContext).2.GetGlobalVar modelName = GlobalVariant.EMPTY
    ∧ (GetOrCreateQuadModel emptyContext).2.GetGlobalVar modelName ≠ GlobalVariant.model 0
    ∧ (GetOrCreateQuadModel (GetOrCreateQuadModel emptyContext).2).1 = 1
    ∧ (GetOrCreateQuadModel (GetOrCreateQuadModel emptyContext).2).2.numModels_ = 2 := by
  refine ⟨?_, by decide, by decide, by decide, by decide, by decide⟩
  intro context
  unfold GetOrCreateQuadModel
  cases h : context.GetGlobalVar modelName with
  | model address => exact h
  | EMPTY => exact Context.GetGlobalVar_SetGlobalVar _ _ _
  | object address => exact Context.GetGlobalVar_SetGlobalVar _ _ _
  | value code => exact Context.GetGlobalVar_SetGlobalVar _ _ _

theorem equalsIgnoreCase_refl (a : String) : equalsIgnoreCase a a = true := by
  simp [equalsIgnoreCase]

theorem equalsIgnoreCase_comm (a b : String) : equalsIgnoreCase a b = equalsIgnoreCase b a := by
  simp only [equalsIgnoreCase, beq_iff_eq, Bool.beq_comm]

/-- The loop of `FindTexture` returns a position at or after its start, or -1 when no
stored name matches. -/
theorem findTextureFrom_spec (name : String) (descs : List (String × TextureDescription))
    (idx : Int) :
    ((∀ entry ∈ descs, equalsIgnoreCase name entry.1 = false) →
        findTextureFrom name descs idx = -1)
    ∧ ((∃ entry ∈ descs, equalsIgnoreCase name entry.1 = true) →
        ∃ i : Nat, ∃ h : i < descs.length, findTextureFrom name descs idx = idx + i
          ∧ equalsIgnoreCase name (descs.get ⟨i, h⟩).1 = true
          ∧ ∀ j, ∀ hj : j < descs.length, j < i →
              equalsIgnoreCase name (descs.get ⟨j, hj⟩).1 = false) := by
  induction descs generalizing idx with
  | nil => exact ⟨fun _ => rfl, fun ⟨_, h, _⟩ => absurd h (List.not_mem_nil _)⟩
  | cons texture rest ih =>
    by_cases hm : equalsIgnoreCase name texture.1 = true
    · constructor
      · intro h
        have := h texture (List.mem_cons_self _ _)
        rw [hm] at this
        cases this
      · intro _
        refine ⟨0, by simp, by simp [findTextureFrom, hm], by simpa using hm, ?_⟩
        intro j _ hj
        omega
    · have hm' : equalsIgnoreCase name texture.1 = false := by
        cases h : equalsIgnoreCase name texture.1
        · rfl
        · exact absurd h hm
      have e : findTextureFrom name (texture :: rest) idx
          = findTextureFrom name rest (idx + 1) := by
        simp [findTextureFrom, hm']
      constructor
      · intro h
        rw [e]
        exact (ih (idx + 1)).1 (fun entry he => h entry (List.mem_cons_of_mem _ he))
      · rintro ⟨entry, he, hEq⟩
        have hrest : ∃ entry ∈ rest, equalsIgnoreCase name entry.1 = true := by
          rcases List.mem_cons.1 he with rfl | he
          · rw [hm'] at hEq; cases hEq
          · exact ⟨entry, he, hEq⟩
        obtain ⟨i, hi, e1, e2, e3⟩ := (ih (idx + 1)).2 hrest
        refine ⟨i + 1, by simpa using hi, ?_, by simpa using e2, ?_⟩
        · rw [e, e1]; push_cast; ring
        · intro j hj hlt
          cases j with
          | zero => simpa using hm'
          | succ j =>
            have := e3 j (by simpa using hj) (by omega)
            simpa using this

/-- `FindTexture` finds a name exactly when a stored name equals it up to case. -/
theorem TextureFactory.FindTexture_nonneg_iff (t : TextureFactory) (name : String) :
    0 ≤ t.FindTexture name
      ↔ ∃ entry ∈ t.textureDescs_, equalsIgnoreCase name entry.1 = true := by
  unfold TextureFactory.FindTexture
  constructor
  · intro h
    by_contra hne
    have hall : ∀ entry ∈ t.textureDescs_, equalsIgnoreCase name entry.1 = false := by
      intro entry he
      cases hc : equalsIgnoreCase name entry.1
      · rfl
      · exact absurd ⟨entry, he, hc⟩ hne
    rw [(findTextureFrom_spec name t.textureDescs_ 0).1 hall] at h
    omega
  · intro h
    obtain ⟨i, _, e, _⟩ := (findTextureFrom_spec name t.textureDescs_ 0).2 h
    rw [e]
    omega

/-- `AddTexture` keeps the stored names pairwise distinct up to case. -/
theorem TextureFactory.AddTexture_DistinctNames (t : TextureFactory) (name : String)
    (desc : TextureDescription) (h : t.DistinctNames) :
    (t.AddTexture name desc).2.DistinctNames := by
  unfold TextureFactory.AddTexture
  by_cases hf : t.FindTexture name ≥ 0
  · rw [if_pos hf]; exact h
  · rw [if_neg hf]
    unfold TextureFactory.DistinctNames at h ⊢
    refine List.pairwise_append.2 ⟨h, List.pairwise_singleton _ _, ?_⟩
    intro a ha b hb
    rw [List.mem_singleton] at hb
    subst hb
    cases hc : equalsIgnoreCase a.1 name
    · rfl
    · exfalso
      apply hf
      exact (t.FindTexture_nonneg_iff name).2
        ⟨a, ha, by rw [equalsIgnoreCase_comm]; exact hc⟩

/-- Every factory reached from an empty description list has pairwise distinct names. -/
theorem TextureFactory.calls_DistinctNames (t : TextureFactory) (calls : List TextureCall)
    (h : t.DistinctNames) : (t.calls calls).DistinctNames := by
  unfold TextureFactory.calls
  induction calls generalizing t with
  | nil => exact h
  | cons c rest ih =>
    rw [List.foldl_cons]
    apply ih
    cases c with
    | AddTexture name desc => exact t.AddTexture_DistinctNames name desc h
    | RemoveAllTextures => exact List.Pairwise.nil

/-- C30: `AddTexture` returns false and leaves the factory as it is when `FindTexture`
finds the name, that is when a stored name equals it up to case, and otherwise appends
`(name, desc)` at the end and returns true; so in every factory reached from an empty
description list by `AddTexture` and `RemoveAllTextures` calls the stored names are
pairwise distinct up to case, `FindTexture` of a stored name is the position of its entry,
and `FindTexture` of a name that no stored name equals up to case is -1. -/
theorem AddTexture_unique_names (t0 : TextureFactory) (calls : List TextureCall)
    (name : String) (desc : TextureDescription) (h0 : t0.textureDescs_ = []) :
    (∀ t : TextureFactory,
      (0 ≤ t.FindTexture name
        ↔ ∃ entry ∈ t.textureDescs_, equalsIgnoreCase name entry.1 = true)
      ∧ (0 ≤ t.FindTexture name → t.AddTexture name desc = (false, t))
      ∧ (¬ 0 ≤ t.FindTexture name →
          t.AddTexture name desc
            = (true, { t with textureDescs_ := t.textureDescs_ ++ [(name, desc)] }))
      ∧ ((∀ entry ∈ t.textureDescs_, equalsIgnoreCase name entry.1 = false) →
          t.FindTexture name = -1))
    ∧ (t0.calls calls).DistinctNames
    ∧ ∀ i, ∀ h : i < (t0.calls calls).textureDescs_.length,
        (t0.calls calls).FindTexture ((t0.calls calls).textureDescs_.get ⟨i, h⟩).1 = i := by
  have hd : (t0.calls calls).DistinctNames :=
    t0.calls_DistinctNames calls (by unfold TextureFactory.DistinctNames; rw [h0]; exact List.Pairwise.nil)
  refine ⟨?_, hd, ?_⟩
  · intro t
    refine ⟨t.FindTexture_nonneg_iff name, ?_, ?_, ?_⟩
    · intro h
      unfold TextureFactory.AddTexture
      rw [if_pos h]
    · intro h
      unfold TextureFactory.AddTexture
      rw [if_neg h]
    · intro h
      exact (findTextureFrom_spec name t.textureDescs_ 0).1 h
  · intro i h
    generalize t0.calls calls = t at hd h
    obtain ⟨k, hk, e1, e2, e3⟩ := (findTextureFrom_spec (t.textureDescs_.get ⟨i, h⟩).1
      t.textureDescs_ 0).2 ⟨_, List.get_mem _ _ _, equalsIgnoreCase_refl _⟩
    unfold TextureFactory.FindTexture
    rw [e1, Int.zero_add]
    have hki : k = i := by
      rcases Nat.lt_trichotomy k i with hlt | heq | hgt
      · exfalso
        have := List.pairwise_iff_getElem.1 hd k i hk h hlt
        simp only [List.get_eq_getElem] at e2
        rw [equalsIgnoreCase_comm, this] at e2
        cases e2
      · exact heq
      · exfalso
        have := e3 i h hgt
        rw [equalsIgnoreCase_refl] at this
        cases this
    rw [hki]

/-- Witness of C30: after adding `Noise`, `noise` and `Mask` to an empty factory the list
holds `Noise` and `Mask`, and `FindTexture` finds `MASK` at position 1. -/
theorem AddTexture_unique_names_witness :
    ((sampleTextureFactory.RemoveAllTextures).calls
        [.AddTexture "Noise" sampleDescription, .AddTexture "noise" sampleDescription,
          .AddTexture "Mask" sampleDescription]).textureDescs_.map (fun entry => entry.1)
      = ["Noise", "Mask"]
    ∧ ((sampleTextureFactory.RemoveAllTextures).calls
        [.AddTexture "Noise" sampleDescription, .AddTexture "noise" sampleDescription,
          .AddTexture "Mask" sampleDescription]).FindTexture "MASK" = 1
    ∧ ((sampleTextureFactory.RemoveAllTextures).calls
        [.AddTexture "Noise" sampleDescription, .AddTexture "noise" sampleDescription,
          .AddTexture "Mask" sampleDescription]).DistinctNames :=
  ⟨by decide!, by decide!,
    (AddTexture_unique_names sampleTextureFactory.RemoveAllTextures
      [.AddTexture "Noise" sampleDescription, .AddTexture "noise" sampleDescription,
        .AddTexture "Mask" sampleDescription] "MASK" sampleDescription rfl).2.1⟩

/-- `AddEmpty` keeps every group and adds empty groups only. -/
theorem ModelFactory.AddEmpty_AllGroups (f f1 : ModelFactory)
    (P : ModelGeometryBuffer → Prop) (h : f.AddEmpty = some f1) (hP : f.AllGroups P)
    (hdef : P default) :
    f1.AllGroups P ∧ f1.vertexSize_ = f.vertexSize_ ∧ f1.largeIndices_ = f.largeIndices_
      ∧ f1.materials_ = f.materials_ ∧ f1.currentGeometry_ = f.currentGeometry_
      ∧ f1.currentLevel_ = f.currentLevel_
      ∧ (f.currentGeometry_ < f.geometry_.length → f1.geometry_.length = f.geometry_.length) := by
  unfold ModelFactory.AddEmpty at h
  simp only [] at h
  split at h
  · cases h
  · rename_i levels hlev
    cases h
    refine ⟨?_, rfl, rfl, rfl, rfl, rfl, ?_⟩
    · intro ls hls g hg
      have hgeo : ∀ ls2 ∈ (if f.currentGeometry_ ≥ f.geometry_.length
          then f.geometry_ ++ [[]] else f.geometry_), ∀ g ∈ ls2, P g := by
        intro ls2 h2 g hg2
        split at h2
        · rcases List.mem_append.1 h2 with h2 | h2
          · exact hP ls2 h2 g hg2
          · rw [List.mem_singleton] at h2
            rw [h2] at hg2
            cases hg2
        · exact hP ls2 h2 g hg2
      rcases List.mem_or_eq_of_mem_set hls with hin | heq
      · exact hgeo ls hin g hg
      · rw [heq] at hg
        have hmem : levels ∈ (if f.currentGeometry_ ≥ f.geometry_.length
            then f.geometry_ ++ [[]] else f.geometry_) := List.getElem?_mem hlev
        split at hg
        · rcases List.mem_append.1 hg with hg | hg
          · exact hgeo levels hmem g hg
          · rw [List.mem_singleton] at hg
            rw [hg]; exact hdef
        · exact hgeo levels hmem g hg
    · intro hlt
      simp only [List.length_set]
      rw [if_neg (by omega)]

/-- Storing a group keeps every other group. -/
theorem ModelFactory.storeGroup_AllGroups (f : ModelFactory) (g : ModelGeometryBuffer)
    (P : ModelGeometryBuffer → Prop) (hP : f.AllGroups P) (hg : P g) :
    (f.storeGroup g).AllGroups P ∧ (f.storeGroup g).geometry_.length = f.geometry_.length := by
  unfold ModelFactory.storeGroup
  refine ⟨?_, by simp⟩
  intro ls hls x hx
  rcases List.mem_or_eq_of_mem_set hls with hin | heq
  · exact hP ls hin x hx
  · rw [heq] at hx
    rcases List.mem_or_eq_of_mem_set hx with hin | heq2
    · rw [List.getD_eq_getElem?_getD] at hin
      cases hget : f.geometry_[f.currentGeometry_]? with
      | none => rw [hget] at hin; cases hin
      | some levels =>
        rw [hget] at hin
        exact hP levels (List.getElem?_mem hget) x hin
    · rw [heq2]; exact hg

/-- A group addressed by `group?` is a group of the factory. -/
theorem ModelFactory.group?_AllGroups (f : ModelFactory) (a b : Nat) (g : ModelGeometryBuffer)
    (P : ModelGeometryBuffer → Prop) (h : f.group? a b = some g) (hP : f.AllGroups P) :
    P g := by
  unfold ModelFactory.group? at h
  cases hget : f.geometry_[a]? with
  | none => rw [hget] at h; cases h
  | some levels =>
    rw [hget] at h
    exact hP levels (List.getElem?_mem hget) g (List.getElem?_mem h)

/-- A defined `AddPrimitives` is `AddEmpty` followed by the store of the appended group. -/
theorem ModelFactory.AddPrimitives_eq (f f1 : ModelFactory) (vertexData : List Byte)
    (numVertices : Nat) (indexData : List Byte) (numIndices : Nat) (adjustIndices : Bool)
    (h : f.AddPrimitives vertexData numVertices indexData numIndices adjustIndices = some f1) :
    ∃ f0 old, f.AddEmpty = some f0
      ∧ f0.group? f0.currentGeometry_ f0.currentLevel_ = some old
      ∧ numVertices * f0.GetVertexSize ≤ vertexData.length
      ∧ numIndices * f0.GetIndexSize ≤ indexData.length
      ∧ (adjustIndices = true → f0.GetVertexSize ≠ 0)
      ∧ f1 = f0.storeGroup
          (f0.appendedGroup old vertexData numVertices indexData numIndices adjustIndices) := by
  unfold ModelFactory.AddPrimitives at h
  cases hA : f.AddEmpty with
  | none => rw [hA] at h; cases h
  | some f0 =>
    rw [hA] at h
    simp only [] at h
    cases hG : f0.group? f0.currentGeometry_ f0.currentLevel_ with
    | none => rw [hG] at h; cases h
    | some old =>
      rw [hG] at h
      simp only [] at h
      split at h
      · cases h
      · split at h
        · cases h
        · rename_i hv hi
          cases adjustIndices with
          | false =>
            simp only [Bool.false_eq_true, if_false, Option.some.injEq] at h
            refine ⟨f0, old, rfl, hG, by omega, by omega, by simp, ?_⟩
            rw [← h]
            simp [ModelFactory.appendedGroup]
          | true =>
            simp only [if_true] at h
            split at h
            · cases h
            · rename_i hz
              simp only [Option.some.injEq] at h
              refine ⟨f0, old, rfl, hG, by omega, by omega, fun _ => hz, ?_⟩
              rw [← h]
              simp [ModelFactory.appendedGroup]

/-- The fields of the factory that `storeGroup` leaves alone. -/
theorem ModelFactory.storeGroup_fields (f : ModelFactory) (g : ModelGeometryBuffer) :
    (f.storeGroup g).vertexSize_ = f.vertexSize_
      ∧ (f.storeGroup g).largeIndices_ = f.largeIndices_
      ∧ (f.storeGroup g).materials_ = f.materials_
      ∧ (f.storeGroup g).currentGeometry_ = f.currentGeometry_ :=
  ⟨rfl, rfl, rfl, rfl⟩

/-- A defined `AddPrimitives` keeps a property of all groups that the empty group has and
that the appended group inherits from the group it extends. -/
theorem ModelFactory.AddPrimitives_AllGroups (f f1 : ModelFactory) (vertexData : List Byte)
    (numVertices : Nat) (indexData : List Byte) (numIndices : Nat) (adjustIndices : Bool)
    (P : ModelGeometryBuffer → Prop)
    (h : f.AddPrimitives vertexData numVertices indexData numIndices adjustIndices = some f1)
    (hP : f.AllGroups P) (hdef : P default)
    (hnew : ∀ f0 : ModelFactory, ∀ old, f0.vertexSize_ = f.vertexSize_ →
      f0.largeIndices_ = f.largeIndices_ → P old →
      numVertices * f0.GetVertexSize ≤ vertexData.length →
      numIndices * f0.GetIndexSize ≤ indexData.length →
      (adjustIndices = true → f0.GetVertexSize ≠ 0) →
      P (f0.appendedGroup old vertexData numVertices indexData numIndices adjustIndices)) :
    f1.AllGroups P ∧ f1.vertexSize_ = f.vertexSize_ ∧ f1.largeIndices_ = f.largeIndices_
      ∧ f1.materials_ = f.materials_ ∧ f1.currentGeometry_ = f.currentGeometry_
      ∧ (f.currentGeometry_ < f.geometry_.length → f1.geometry_.length = f.geometry_.length) := by
  obtain ⟨f0, old, hA, hG, hv, hi, hz, rfl⟩ := f.AddPrimitives_eq f1 _ _ _ _ _ h
  obtain ⟨a1, a2, a3, a4, a5, _, a7⟩ := f.AddEmpty_AllGroups f0 P hA hP hdef
  have hold : P old := f0.group?_AllGroups _ _ old P hG a1
  obtain ⟨s1, s2⟩ := f0.storeGroup_AllGroups _ P a1 (hnew f0 old a2 a3 hold hv hi hz)
  refine ⟨s1, a2, a3, a4, a5, ?_⟩
  intro hlt
  rw [s2, a7 hlt]

/-- After the first `AddGeometry`, a call other than `Initialize` keeps the numbers of
geometry entries and material slots equal and the geometry cursor on an entry. -/
theorem ModelFactory.call_counts (vertexSizeOf : List VertexElement → Nat)
    (f f1 : ModelFactory) (c : FactoryCall) (h : f.call vertexSizeOf c = some f1)
    (hni : c.isInitialize = false)
    (hlen : f.geometry_.length = f.materials_.length)
    (hcur : f.currentGeometry_ < f.geometry_.length) :
    f1.geometry_.length = f1.materials_.length
      ∧ f1.currentGeometry_ < f1.geometry_.length := by
  cases c with
  | Initialize vertexElements largeIndices => simp [FactoryCall.isInitialize] at hni
  | AddGeometry material allowReuse =>
    simp only [ModelFactory.call, Option.some.injEq] at h
    subst h
    unfold ModelFactory.AddGeometry
    simp only []
    split
    · simp only [List.length_append, List.length_singleton]
      omega
    · rename_i hne
      have hle := List.indexOf_le_length (a := material) (l := f.materials_)
      simp only []
      constructor
      · exact hlen
      · have : f.materials_.indexOf material ≠ f.materials_.length := fun e => hne (Or.inl e)
        omega
  | SetLevel level =>
    simp only [ModelFactory.call, Option.some.injEq] at h
    subst h
    exact ⟨hlen, hcur⟩
  | AddPrimitives vd nv id ni adj =>
    simp only [ModelFactory.call] at h
    obtain ⟨_, _, _, a4, a5, a6⟩ := f.AddPrimitives_AllGroups f1 vd nv id ni adj
      (fun _ => True) h (fun _ _ _ _ => trivial) trivial (fun _ _ _ _ _ _ _ _ => trivial)
    rw [a4, a5, a6 hcur]
    exact ⟨hlen, hcur⟩

/-- The counts stay equal along every sequence of calls without `Initialize`. -/
theorem ModelFactory.calls_counts (vertexSizeOf : List VertexElement → Nat)
    (calls : List FactoryCall) (f f1 : ModelFactory)
    (h : f.calls vertexSizeOf calls = some f1)
    (hni : ∀ c ∈ calls, c.isInitialize = false)
    (hlen : f.geometry_.length = f.materials_.length)
    (hcur : f.currentGeometry_ < f.geometry_.length) :
    f1.geometry_.length = f1.materials_.length := by
  induction calls generalizing f with
  | nil =>
    simp only [ModelFactory.calls, Option.some.injEq] at h
    subst h
    exact hlen
  | cons c rest ih =>
    simp only [ModelFactory.calls] at h
    cases hc : f.call vertexSizeOf c with
    | none => rw [hc] at h; cases h
    | some f2 =>
      rw [hc] at h
      obtain ⟨h1, h2⟩ := ModelFactory.call_counts vertexSizeOf f f2 c hc
        (hni c (List.mem_cons_self _ _)) hlen hcur
      exact ih f2 h (fun c2 hc2 => hni c2 (List.mem_cons_of_mem _ hc2)) h1 h2

/-- From a factory without geometry entries and material slots, the counts stay equal
along every sequence of calls without `Initialize` whose first `AddPrimitives` comes
after an `AddGeometry`. -/
theorem ModelFactory.calls_counts_of_empty (vertexSizeOf : List VertexElement → Nat)
    (calls : List FactoryCall) (f f1 : ModelFactory)
    (h : f.calls vertexSizeOf calls = some f1)
    (hni : ∀ c ∈ calls, c.isInitialize = false)
    (hfirst : geometryFirst calls = true)
    (hg : f.geometry_ = []) (hm : f.materials_ = []) :
    f1.geometry_.length = f1.materials_.length := by
  induction calls generalizing f with
  | nil =>
    simp only [ModelFactory.calls, Option.some.injEq] at h
    subst h
    simp [hg, hm]
  | cons c rest ih =>
    cases c with
    | Initialize vertexElements largeIndices => simp [geometryFirst] at hfirst
    | AddPrimitives vd nv id ni adj => simp [geometryFirst] at hfirst
    | SetLevel level =>
      simp only [ModelFactory.calls, ModelFactory.call] at h
      exact ih (f.SetLevel level) h (fun c2 hc2 => hni c2 (List.mem_cons_of_mem _ hc2))
        (by simpa [geometryFirst] using hfirst) hg hm
    | AddGeometry material allowReuse =>
      have hA : (f.AddGeometry material allowReuse).geometry_.length
            = (f.AddGeometry material allowReuse).materials_.length
          ∧ (f.AddGeometry material allowReuse).currentGeometry_
            < (f.AddGeometry material allowReuse).geometry_.length := by
        unfold ModelFactory.AddGeometry
        simp [hm, hg]
      simp only [ModelFactory.calls, ModelFactory.call] at h
      exact ModelFactory.calls_counts vertexSizeOf rest _ f1 h
        (fun c2 hc2 => hni c2 (List.mem_cons_of_mem _ hc2)) hA.1 hA.2

/-- C23: the counts of geometry entries, material slots and model geometries differ.  After
`Initialize` and one `AddPrimitives` the factory has one geometry entry and no material
slot, and the model of `BuildModel` has one geometry; after `Initialize` and one
`AddGeometry` it has one material slot and the model of `BuildModel` has no geometry;
after `Initialize`, `AddGeometry` and a second `Initialize` it has no geometry entry and
one material slot. -/
theorem calls_counts_differ :
    Option.bind
        ((ModelFactory.fresh.Initialize (fun _ => 4) [] false).calls (fun _ => 4)
          [.AddPrimitives [1, 2, 3, 4] 1 [0, 0] 1 true])
        (fun f => Option.map
          (fun m => (f.GetNumGeometries, f.materials_.length, m.geometries.length))
          f.BuildModel)
      = some (1, 0, 1)
    ∧ Option.bind
        ((ModelFactory.fresh.Initialize (fun _ => 4) [] false).calls (fun _ => 4)
          [.AddGeometry 7 true])
        (fun f => Option.map
          (fun m => (f.GetNumGeometries, f.materials_.length, m.geometries.length))
          f.BuildModel)
      = some (1, 1, 0)
    ∧ Option.map (fun f => (f.GetNumGeometries, f.materials_.length))
        ((ModelFactory.fresh.Initialize (fun _ => 4) [] false).calls (fun _ => 4)
          [.AddGeometry 7 true, .Initialize [] false])
      = some (0, 1) := by
  refine ⟨by decide, by decide, by decide⟩

/-- The counts that do agree: in every factory state reached from a factory without
material slots by one `Initialize` followed by `AddGeometry`, `SetLevel` and
`AddPrimitives` calls of which no `AddPrimitives` comes before the first `AddGeometry`,
the number of geometry entries equals the number of material slots; `BuildModel` returns a
model when the stride is not zero, and its model has as many geometries as the factory has
geometry entries with at least one LOD level, which is at most the number of materials. -/
theorem calls_geometry_count (vertexSizeOf : List VertexElement → Nat)
    (f0 : ModelFactory) (vertexElements : List VertexElement) (largeIndices : Bool)
    (calls : List FactoryCall) (f : ModelFactory)
    (h0 : f0.materials_ = [])
    (hni : ∀ c ∈ calls, c.isInitialize = false)
    (hfirst : geometryFirst calls = true)
    (hrun : (f0.Initialize vertexSizeOf vertexElements largeIndices).calls vertexSizeOf calls
      = some f) :
    f.GetNumGeometries = f.materials_.length
    ∧ (0 < f.GetVertexSize → ∃ model, f.BuildModel = some model)
    ∧ ∀ model, f.BuildModel = some model →
        model.geometries.length
          = (f.geometry_.filter (fun levels => decide (levels.length > 0))).length
        ∧ model.geometries.length ≤ f.materials_.length := by
  have hcount : f.geometry_.length = f.materials_.length :=
    ModelFactory.calls_counts_of_empty vertexSizeOf calls _ f hrun hni hfirst rfl h0
  refine ⟨hcount, fun hs => ⟨_, f.BuildModel_eq hs⟩, ?_⟩
  intro model hm
  have hs : 0 < f.GetVertexSize := by
    rcases Nat.eq_zero_or_pos f.GetVertexSize with hz | hp
    · simp [ModelFactory.BuildModel, hz] at hm
    · exact hp
  rw [f.BuildModel_eq hs] at hm
  cases hm
  have hl := congrArg List.length (setupRanges_map_length (f.indexOffsets 0 f.visitedGroups)
    (f.visitedGroups.map f.numIndicesOf) f.filterGeometry 0)
  simp only [List.length_map] at hl
  simp only []
  rw [hl, f.filterGeometry_eq]
  refine ⟨rfl, ?_⟩
  rw [← hcount]
  exact List.length_filter_le _ _

/-- Two materials of which only the first receives primitives: the counts of entries and
slots agree and the model has one geometry. -/
theorem calls_geometry_count_witness :
    (ModelFactory.fresh.Initialize (fun _ => 4) [] false).calls (fun _ => 4)
        [.SetLevel 0, .AddGeometry 7 true, .AddPrimitives [1, 2, 3, 4] 1 [0, 0] 1 true,
          .AddGeometry 8 true] = some usedFactory
    ∧ usedFactory.GetNumGeometries = usedFactory.materials_.length
    ∧ Option.map (fun m => m.geometries.length) usedFactory.BuildModel = some 1 :=
  ⟨by decide,
    (calls_geometry_count (fun _ => 4) ModelFactory.fresh [] false
      [.SetLevel 0, .AddGeometry 7 true, .AddPrimitives [1, 2, 3, 4] 1 [0, 0] 1 true,
        .AddGeometry 8 true] usedFactory rfl
      (by
        intro c hc
        simp only [List.mem_cons, List.mem_singleton, List.not_mem_nil, or_false] at hc
        rcases hc with rfl | rfl | rfl | rfl <;> rfl)
      rfl (by decide)).1,
    by decide⟩

end FlexEngine
